import Mathlib

/-!
Verification development for the rox tree-walking interpreter
(scanner, parser, environment, evaluator), shallowly embedded from the
Rust sources.  Machine doubles (`f64`) are modelled by exact fractions
(`Num` below); all operand values appearing in the verified claims are
small integers, on which the two arithmetics agree (division edge cases,
which no claim touches, are the only divergence).  Rust panics (index
out-of-bounds, `unwrap`, `expect`, usize underflow) are modelled by
`Option`/explicit fault values.
-/

namespace Rox

/-- The host string type, re-exported so that it stays nameable inside
namespaces declaring their own `String` constructor. -/
abbrev Str := String

/-- Exact-fraction model of Rust's `f64`: numerator over denominator,
combined componentwise exactly as rational arithmetic.  Values built by
the parser have positive denominators; on them `add`/`sub`/`mul`/`neg`,
the comparisons and the numeric equality agree with the IEEE double
operations whenever (as in every verified claim) the doubles involved are
exactly representable.  Division by zero is the one modelled-away edge:
Rust produces ±infinity/NaN, this model a denominator of zero. -/
structure Num where
  num : Int
  den : Int
deriving DecidableEq, Repr

/-- `10 ^ n` as an integer, by structural recursion. -/
def pow10 : Nat → Int
  | 0 => 1
  | n + 1 => 10 * pow10 n

/-- `f64` addition. -/
def Num.add (a b : Num) : Num := ⟨a.num * b.den + b.num * a.den, a.den * b.den⟩

/-- `f64` subtraction. -/
def Num.sub (a b : Num) : Num := ⟨a.num * b.den - b.num * a.den, a.den * b.den⟩

/-- `f64` multiplication. -/
def Num.mul (a b : Num) : Num := ⟨a.num * b.num, a.den * b.den⟩

/-- `f64` division. -/
def Num.div (a b : Num) : Num := ⟨a.num * b.den, a.den * b.num⟩

/-- `f64` negation. -/
def Num.neg (a : Num) : Num := ⟨-a.num, a.den⟩

/-- `f64` numeric equality (cross multiplication). -/
def Num.eqb (a b : Num) : Bool := a.num * b.den == b.num * a.den

/-- `f64` strict order, for positive denominators. -/
def Num.ltb (a b : Num) : Bool := decide (a.num * b.den < b.num * a.den)

/-- `f64` non-strict order, for positive denominators. -/
def Num.leb (a b : Num) : Bool := decide (a.num * b.den ≤ b.num * a.den)

/-- The integer `n` as a `Num`. -/
def Num.ofInt (n : Int) : Num := ⟨n, 1⟩

/-- Token categories.  Modelled from the spec: `src/src/token.rs` is declared
by `main.rs` (`mod token;`) but absent from the snapshot, so the variant set
is reconstructed from the spec (§3) and every use site in `scanner.rs`,
`parser/mod.rs` and `interpreter/mod.rs`.  Both spellings `GreateEqual`
(produced by `Scanner::scan_token`) and `GreaterEqual` (consumed by
`Parser::comparison`) occur in the sources and are kept distinct. -/
inductive TokenType where
  | LeftParen | RightParen | LeftBrace | RightBrace
  | Comma | Dot | Minus | Plus | Semicolon | Slash | Star
  | Bang | BangEqual | Equal | EqualEqual
  | Greater | GreateEqual | GreaterEqual | Less | LessEqual
  | Identifier | String | Number
  | And | Class | Else | False | For | Fun | If | Nil | Or
  | Print | Return | Super | This | True | While | Var
  | Eof
deriving DecidableEq, Repr

/-- A token: classified lexeme plus source line (spec §3, `token.rs` uses in
`scanner.rs`: `Token::new(token_type, lexeme, line)` and public fields
`token_type`, `lexeme`, `line`). -/
structure Token where
  token_type : TokenType
  lexeme : String
  line : Nat
deriving DecidableEq, Repr

/-- Modelled from the spec: `InternalRoxError` is imported by `scanner.rs`
from `crate::error` but its definition is absent from the snapshot's
`error.rs`; the spec (§4.1) gives the one produced variant
`SyntaxError{line, message}`. -/
inductive InternalRoxError where
  | SyntaxError (line : Nat) (message : String)
deriving DecidableEq, Repr

namespace Scanner

/-- Mutable scanning state of `Scanner` (the source buffer and the grown
token list are kept outside). -/
structure St where
  start_index : Nat
  current_index : Nat
  line_index : Nat
deriving DecidableEq, Repr

/-- `source_buffer.len()`: the UTF-8 byte length of the source. -/
def byteLen : List Char → Nat
  | [] => 0
  | c :: cs => c.utf8Size + byteLen cs

/-- Drop a prefix of `n` UTF-8 bytes; `none` when `n` is not a character
boundary (where Rust `&str` slicing panics). -/
def byteDrop : List Char → Nat → Option (List Char)
  | cs, 0 => some cs
  | [], _ + 1 => none
  | c :: cs, n + 1 =>
    if c.utf8Size ≤ n + 1 then byteDrop cs (n + 1 - c.utf8Size) else none

/-- Take a prefix of `n` UTF-8 bytes; `none` when `n` is not a character
boundary within the list. -/
def byteTake : List Char → Nat → Option (List Char)
  | _, 0 => some []
  | [], _ + 1 => none
  | c :: cs, n + 1 =>
    if c.utf8Size ≤ n + 1 then
      match byteTake cs (n + 1 - c.utf8Size) with
      | some r => some (c :: r)
      | none => none
    else none

/-- `source_buffer[a..b]`: byte-indexed slicing, `none` on the panicking
cases (reversed range or non-boundary index). -/
def byteSlice (cs : List Char) (a b : Nat) : Option (List Char) :=
  if a ≤ b then
    match byteDrop cs a with
    | some t => byteTake t (b - a)
    | none => none
  else none

/-- `Scanner::peek`: `source_buffer.chars().nth(current_index)`. -/
def peek (src : List Char) (st : St) : Option Char :=
  src.get? st.current_index

/-- `Scanner::peek_next`: `source_buffer.chars().nth(current_index + 1)`. -/
def peek_next (src : List Char) (st : St) : Option Char :=
  src.get? (st.current_index + 1)

/-- `Scanner::advance`: increment `current_index`, then read char number
`current_index - 1`; the Rust `.unwrap()` panic is `none`. -/
def advance (src : List Char) (st : St) : Option (Char × St) :=
  match src.get? (st.current_index + 1 - 1) with
  | some c => some (c, { st with current_index := st.current_index + 1 })
  | none => none

/-- `Scanner::advance_if_equal`. -/
def advance_if_equal (src : List Char) (expected : Char) (st : St) :
    Bool × St :=
  match src.get? st.current_index with
  | some c =>
    if c = expected then
      (true, { st with current_index := st.current_index + 1 })
    else (false, st)
  | none => (false, st)

/-- `Scanner::is_digit`: `matches!(c, Some('0'..='9'))`. -/
def is_digit : Option Char → Bool
  | some c => '0' ≤ c && c ≤ '9'
  | none => false

/-- `Scanner::is_alpha`: `matches!(c, Some('a'..='z' | 'A'..='Z' | '_'))`. -/
def is_alpha : Option Char → Bool
  | some c => ('a' ≤ c && c ≤ 'z') || ('A' ≤ c && c ≤ 'Z') || c == '_'
  | none => false

/-- `Scanner::is_alphanumeric`. -/
def is_alphanumeric (c : Option Char) : Bool :=
  is_alpha c || is_digit c

/-- The `KEYWORDS` perfect hash map. -/
def KEYWORDS : String → Option TokenType
  | "and" => some .And
  | "class" => some .Class
  | "else" => some .Else
  | "false" => some .False
  | "for" => some .For
  | "fun" => some .Fun
  | "if" => some .If
  | "nil" => some .Nil
  | "or" => some .Or
  | "print" => some .Print
  | "return" => some .Return
  | "super" => some .Super
  | "this" => some .This
  | "true" => some .True
  | "while" => some .While
  | "var" => some .Var
  | _ => none

/-- `Scanner::build_simple_token`: lexeme is the byte slice
`[start_index..current_index]`. -/
def build_simple_token (src : List Char) (token_type : TokenType) (st : St) :
    Option Token :=
  match byteSlice src st.start_index st.current_index with
  | some cs => some ⟨token_type, ⟨cs⟩, st.line_index⟩
  | none => none

/-- `Scanner::build_complex_token`. -/
def build_complex_token (token_type : TokenType) (lexeme : String) (st : St) :
    Token :=
  ⟨token_type, lexeme, st.line_index⟩

/-- The `//` comment loop: consume to (not including) the next newline. -/
def commentLoop (src : List Char) : Nat → St → Option St
  | 0, _ => none
  | fuel + 1, st =>
    match peek src st with
    | some c =>
      if c = '\n' then some st
      else commentLoop src fuel { st with current_index := st.current_index + 1 }
    | none => some st

/-- The body loop of `Scanner::scan_string`: advance (counting newlines)
until the closing quote or end of input. -/
def stringLoop (src : List Char) : Nat → St → Option St
  | 0, _ => none
  | fuel + 1, st =>
    match peek src st with
    | some c =>
      if c = '"' then some st
      else
        let st := if c = '\n' then { st with line_index := st.line_index + 1 } else st
        stringLoop src fuel { st with current_index := st.current_index + 1 }
    | none => some st

/-- A run of digits: the `while Scanner::is_digit(self.peek())` loop. -/
def digitsLoop (src : List Char) : Nat → St → Option St
  | 0, _ => none
  | fuel + 1, st =>
    if is_digit (peek src st) then
      digitsLoop src fuel { st with current_index := st.current_index + 1 }
    else some st

/-- The identifier loop: `while Scanner::is_alphanumeric(self.peek())`. -/
def identLoop (src : List Char) : Nat → St → Option St
  | 0, _ => none
  | fuel + 1, st =>
    if is_alphanumeric (peek src st) then
      identLoop src fuel { st with current_index := st.current_index + 1 }
    else some st

/-- One scanning step's result: a possible token, or a lexical error. -/
abbrev StepResult := Except InternalRoxError (Option Token) × St

/-- `Scanner::scan_string` (entered after the opening quote was consumed). -/
def scan_string (src : List Char) (st : St) : Option StepResult := do
  let st ← stringLoop src (src.length + 1) st
  match peek src st with
  | none => some (.error (.SyntaxError st.line_index "Unterminated string."), st)
  | some _ =>
    let st := { st with current_index := st.current_index + 1 }
    match byteSlice src (st.start_index + 1) (st.current_index - 1) with
    | some cs => some (.ok (some (build_complex_token .String ⟨cs⟩ st)), st)
    | none => none

/-- `Scanner::scan_number`. -/
def scan_number (src : List Char) (st : St) : Option StepResult := do
  let st ← digitsLoop src (src.length + 1) st
  let st ←
    if peek src st == some '.' && is_digit (peek_next src st) then
      digitsLoop src (src.length + 1) { st with current_index := st.current_index + 1 }
    else
      some st
  match byteSlice src st.start_index st.current_index with
  | some cs => some (.ok (some (build_complex_token .Number ⟨cs⟩ st)), st)
  | none => none

/-- `Scanner::scan_identifier`. -/
def scan_identifier (src : List Char) (st : St) : Option StepResult := do
  let st ← identLoop src (src.length + 1) st
  match byteSlice src st.start_index st.current_index with
  | some cs =>
    let text : String := ⟨cs⟩
    match KEYWORDS text with
    | some tt => some (.ok (some (build_complex_token tt text st)), st)
    | none => some (.ok (some (build_complex_token .Identifier text st)), st)
  | none => none

/-- `Scanner::scan_token`: the big dispatch on the next character. -/
def scan_token (src : List Char) (st : St) : Option StepResult := do
  let (c, st) ← advance src st
  match c with
  | '(' => do let t ← build_simple_token src .LeftParen st; some (.ok (some t), st)
  | ')' => do let t ← build_simple_token src .RightParen st; some (.ok (some t), st)
  | '{' => do let t ← build_simple_token src .LeftBrace st; some (.ok (some t), st)
  | '}' => do let t ← build_simple_token src .RightBrace st; some (.ok (some t), st)
  | ',' => do let t ← build_simple_token src .Comma st; some (.ok (some t), st)
  | '.' => do let t ← build_simple_token src .Dot st; some (.ok (some t), st)
  | '-' => do let t ← build_simple_token src .Minus st; some (.ok (some t), st)
  | '+' => do let t ← build_simple_token src .Plus st; some (.ok (some t), st)
  | ';' => do let t ← build_simple_token src .Semicolon st; some (.ok (some t), st)
  | '*' => do let t ← build_simple_token src .Star st; some (.ok (some t), st)
  | '!' =>
    let (m, st) := advance_if_equal src '=' st
    let tt := if m then TokenType.BangEqual else TokenType.Bang
    do let t ← build_simple_token src tt st; some (.ok (some t), st)
  | '=' =>
    let (m, st) := advance_if_equal src '=' st
    let tt := if m then TokenType.EqualEqual else TokenType.Equal
    do let t ← build_simple_token src tt st; some (.ok (some t), st)
  | '<' =>
    let (m, st) := advance_if_equal src '=' st
    let tt := if m then TokenType.LessEqual else TokenType.Less
    do let t ← build_simple_token src tt st; some (.ok (some t), st)
  | '>' =>
    let (m, st) := advance_if_equal src '=' st
    let tt := if m then TokenType.GreateEqual else TokenType.Greater
    do let t ← build_simple_token src tt st; some (.ok (some t), st)
  | '/' =>
    let (m, st) := advance_if_equal src '/' st
    if m then do
      let st ← commentLoop src (src.length + 1) st
      some (.ok none, st)
    else do
      let t ← build_simple_token src .Slash st
      some (.ok (some t), st)
  | '"' => scan_string src st
  | ' ' => some (.ok none, st)
  | '\r' => some (.ok none, st)
  | '\t' => some (.ok none, st)
  | '\n' => some (.ok none, { st with line_index := st.line_index + 1 })
  | c =>
    if is_digit (some c) then scan_number src st
    else if is_alpha (some c) then scan_identifier src st
    else some (.error (.SyntaxError st.line_index "Unexpected character"), st)

/-- The `while self.current_index < self.source_buffer.len()` loop of
`Scanner::scan_tokens`, accumulating tokens and errors. -/
def scanLoop (src : List Char) :
    Nat → St → List Token → List InternalRoxError →
    Option (St × List Token × List InternalRoxError)
  | 0, _, _, _ => none
  | fuel + 1, st, tokens, errors =>
    if st.current_index < byteLen src then
      match scan_token src { st with start_index := st.current_index } with
      | none => none
      | some (.ok r, st') => scanLoop src fuel st' (tokens ++ r.toList) errors
      | some (.error e, st') => scanLoop src fuel st' tokens (errors ++ [e])
    else
      some (st, tokens, errors)

/-- `Scanner::scan_tokens`: run the loop, then either return the tokens
(with the synthetic `Eof` token appended) or the aggregated errors. -/
def scan_tokens (src : List Char) :
    Option (Except (List InternalRoxError) (List Token)) :=
  match scanLoop src (byteLen src + 1) ⟨0, 0, 0⟩ [] [] with
  | none => none
  | some (st, tokens, errors) =>
    if errors.isEmpty then some (.ok (tokens ++ [⟨.Eof, "", st.line_index⟩]))
    else some (.error errors)

end Scanner

example :
    Scanner.scan_tokens "()".toList =
      some (.ok [⟨.LeftParen, "(", 0⟩, ⟨.RightParen, ")", 0⟩, ⟨.Eof, "", 0⟩]) := by
  rfl

example :
    Scanner.scan_tokens "@#(".toList =
      some (.error [.SyntaxError 0 "Unexpected character",
                    .SyntaxError 0 "Unexpected character"]) := by
  rfl

/-- Helper for `lexeme.parse::<f64>()` on scanner-produced number lexemes:
accumulate a digit run. -/
def digitsToNat : Nat → List Char → Nat
  | acc, [] => acc
  | acc, c :: cs => digitsToNat (acc * 10 + (c.toNat - '0'.toNat)) cs

/-- `lexeme.parse::<f64>()`, modelling the machine double by an exact
fraction.  The scanner only produces lexemes of shape `digits('.'digits)?`,
which this parses exactly; any other shape is `none` (in Rust the
surrounding `.expect` would panic). -/
def parseNumber (s : String) : Option Num :=
  let cs := s.toList
  let intPart := cs.takeWhile fun c => '0' ≤ c && c ≤ '9'
  let rest := cs.dropWhile fun c => '0' ≤ c && c ≤ '9'
  if intPart.isEmpty then none
  else
    match rest with
    | [] => some (Num.ofInt (digitsToNat 0 intPart))
    | '.' :: frac =>
      if frac.isEmpty || !(frac.all fun c => '0' ≤ c && c ≤ '9') then none
      else some ⟨(digitsToNat 0 intPart : Int) * pow10 frac.length +
        (digitsToNat 0 frac : Int), pow10 frac.length⟩
    | _ => none

/-- `ast::expression::Literal`. -/
inductive Literal where
  | Boolean (v : Bool)
  | String (v : String)
  | Nil
  | Number (v : Num)
deriving DecidableEq, Repr

/-- `ast::expression::Expr`, the expression AST.  The `Assign` variant is
modelled from the spec (§3 `Assign{name, value}`): `Parser::assignment`
builds it through `Expr::new_assign`, but the variant is absent from the
snapshot's `ast/expression.rs`. -/
inductive Expr where
  | Unary (op : Token) (expr : Expr)
  | Binary (left : Expr) (op : Token) (right : Expr)
  | Grouping (expr : Expr)
  | Literal (lit : Literal)
  | Variable (name : Token)
  | Assign (name : Token) (value : Expr)
deriving DecidableEq, Repr

/-- `Expr::new_binary`. -/
def Expr.new_binary (left : Expr) (op : Token) (right : Expr) : Expr :=
  .Binary left op right

/-- `Expr::new_unary`. -/
def Expr.new_unary (op : Token) (expr : Expr) : Expr := .Unary op expr

/-- `Expr::new_boolean_literal`. -/
def Expr.new_boolean_literal (v : Bool) : Expr := .Literal (.Boolean v)

/-- `Expr::new_nil_literal`. -/
def Expr.new_nil_literal : Expr := .Literal .Nil

/-- `Expr::new_number_literal`. -/
def Expr.new_number_literal (v : Num) : Expr := .Literal (.Number v)

/-- `Expr::new_string_literal`. -/
def Expr.new_string_literal (v : String) : Expr := .Literal (.String v)

/-- `Expr::new_grouping`. -/
def Expr.new_grouping (expr : Expr) : Expr := .Grouping expr

/-- `Expr::new_variable`. -/
def Expr.new_variable (name : Token) : Expr := .Variable name

/-- `Expr::new_assign` (called by `Parser::assignment`; modelled from the
spec, see `Expr.Assign`). -/
def Expr.new_assign (name : Token) (value : Expr) : Expr := .Assign name value

/-- `ast::statement::Statement` with its payload structs flattened
(`ExpressionStatement{expr}`, `PrintStatement{expr}`,
`VariableStatement{name, initializer}`, `BlockStatement{statements}`). -/
inductive Statement where
  | Expression (expr : Expr)
  | Print (expr : Expr)
  | Variable (name : Token) (ini : Option Expr)
  | Block (statements : List Statement)
deriving Repr

/-- `Statement::new_expression_statement`. -/
def Statement.new_expression_statement (expr : Expr) : Statement :=
  .Expression expr

/-- `Statement::new_print_statement`. -/
def Statement.new_print_statement (expr : Expr) : Statement := .Print expr

/-- `Statement::new_var_statement`. -/
def Statement.new_var_statement (name : Token) (ini : Option Expr) :
    Statement := .Variable name ini

/-- `Statement::new_block_statement`. -/
def Statement.new_block_statement (statements : List Statement) : Statement :=
  .Block statements

/-- `parser::error::ParserError`. -/
structure ParserError where
  token : Token
  msg : String
deriving DecidableEq, Repr

/-- `ParserError::new`. -/
def ParserError.new (token : Token) (msg : String) : ParserError :=
  ⟨token, msg⟩

namespace Parser

/-- The parser's mutable state: `remove_previous` really erases tokens from
the vector, so the token list is part of the state. -/
structure PState where
  tokens : List Token
  current_index : Nat
deriving Repr

/-- Faults of the embedding: `panic` models the Rust panics (`expect` on
`peek`, `unwrap`/usize underflow in `previous`, out-of-bounds
`Vec::remove`, usize underflow in `remove_previous`); `fuel` marks
exhaustion of the artificial recursion fuel and corresponds to no Rust
behaviour. -/
inductive PFault where
  | panic
  | fuel
deriving DecidableEq, Repr


/-- `Parser::peek` (the `expect` panic is `PFault.panic`). -/
def peek (st : PState) : Except PFault Token :=
  match st.tokens.get? st.current_index with
  | some t => .ok t
  | none => .error .panic

/-- `Parser::previous`: `tokens.get(current_index - 1).unwrap()`.  With
`current_index = 0` the Rust usize subtraction overflows and the call
panics. -/
def previous (st : PState) : Except PFault Token :=
  if st.current_index = 0 then .error .panic
  else
    match st.tokens.get? (st.current_index - 1) with
    | some t => .ok t
    | none => .error .panic

/-- `Parser::advance`: move past the current token unless it is `Eof`,
then return `previous()`. -/
def advance (st : PState) : Except PFault (Token × PState) := do
  let t ← peek st
  let st :=
    if t.token_type = .Eof then st
    else { st with current_index := st.current_index + 1 }
  let p ← previous st
  return (p, st)

/-- `Parser::advance_if_token_type_matches`. -/
def advance_if_token_type_matches (token_types : List TokenType)
    (st : PState) : Except PFault (Bool × PState) := do
  let t ← peek st
  if token_types.contains t.token_type then
    let (_, st) ← advance st
    return (true, st)
  else
    return (false, st)

/-- `Parser::check`. -/
def check (st : PState) (token_type : TokenType) : Except PFault Bool := do
  let t ← peek st
  return t.token_type == token_type

/-- `Parser::consume`. -/
def consume (token_type : TokenType) (error_msg : String) (st : PState) :
    Except PFault ((Except ParserError Token) × PState) := do
  let b ← check st token_type
  if b then
    let (t, st) ← advance st
    return (.ok t, st)
  else
    let t ← peek st
    return (.error (ParserError.new t error_msg), st)

/-- `Parser::remove_previous`: decrement `current_index` (usize underflow
at 0 panics) and remove that element from the token vector. -/
def remove_previous (st : PState) : Except PFault (Token × PState) :=
  if st.current_index = 0 then .error .panic
  else
    match st.tokens.get? (st.current_index - 1) with
    | none => .error .panic
    | some t => .ok (t, ⟨st.tokens.eraseIdx (st.current_index - 1),
        st.current_index - 1⟩)

/-- Sequencing that propagates a `ParserError` like Rust's `?`. -/
def bindE {α β : Type} (x : Except PFault ((Except ParserError α) × PState))
    (f : α → PState → Except PFault ((Except ParserError β) × PState)) :
    Except PFault ((Except ParserError β) × PState) := do
  match ← x with
  | (.error e, st) => return (.error e, st)
  | (.ok a, st) => f a st

/-- The mutually recursive expression grammar procedures of `Parser`,
reified as one fuelled function; `…Loop acc` is the `while` loop of the
corresponding left-associative tier with `acc` the expression folded so
far. -/
inductive ERule where
  | expression
  | assignment
  | equality
  | equalityLoop (acc : Expr)
  | comparison
  | comparisonLoop (acc : Expr)
  | term
  | termLoop (acc : Expr)
  | factor
  | factorLoop (acc : Expr)
  | unary
  | primary

/-- `Parser::expression/assignment/equality/comparison/term/factor/unary/primary`,
one fuelled step function (each Rust call `self.rule()` is
`parseE fuel rule`). -/
def parseE : Nat → ERule → PState →
    Except PFault ((Except ParserError Expr) × PState)
  | 0, _, _ => .error .fuel
  | fuel + 1, r, st =>
    match r with
    | .expression => parseE fuel .assignment st
    | .assignment =>
      bindE (parseE fuel .equality st) fun expr st => do
        let (m, st) ← advance_if_token_type_matches [.Equal] st
        if m then do
          let equals ← previous st
          bindE (parseE fuel .assignment st) fun value st =>
            match expr with
            | .Variable v => return (.ok (Expr.new_assign v value), st)
            | _ => return (.error (ParserError.new equals "Invalid assignment target"), st)
        else
          return (.ok expr, st)
    | .equality =>
      bindE (parseE fuel .comparison st) fun e st =>
        parseE fuel (.equalityLoop e) st
    | .equalityLoop acc => do
      let (m, st) ← advance_if_token_type_matches [.BangEqual, .EqualEqual] st
      if m then do
        let (op, st) ← remove_previous st
        bindE (parseE fuel .comparison st) fun right st =>
          parseE fuel (.equalityLoop (Expr.new_binary acc op right)) st
      else
        return (.ok acc, st)
    | .comparison =>
      bindE (parseE fuel .term st) fun e st =>
        parseE fuel (.comparisonLoop e) st
    | .comparisonLoop acc => do
      let (m, st) ← advance_if_token_type_matches
        [.Greater, .GreaterEqual, .Less, .LessEqual] st
      if m then do
        let (op, st) ← remove_previous st
        bindE (parseE fuel .term st) fun right st =>
          parseE fuel (.comparisonLoop (Expr.new_binary acc op right)) st
      else
        return (.ok acc, st)
    | .term =>
      bindE (parseE fuel .factor st) fun e st =>
        parseE fuel (.termLoop e) st
    | .termLoop acc => do
      let (m, st) ← advance_if_token_type_matches [.Minus, .Plus] st
      if m then do
        let (op, st) ← remove_previous st
        bindE (parseE fuel .factor st) fun right st =>
          parseE fuel (.termLoop (Expr.new_binary acc op right)) st
      else
        return (.ok acc, st)
    | .factor =>
      bindE (parseE fuel .unary st) fun e st =>
        parseE fuel (.factorLoop e) st
    | .factorLoop acc => do
      let (m, st) ← advance_if_token_type_matches [.Slash, .Star] st
      if m then do
        let (op, st) ← remove_previous st
        bindE (parseE fuel .unary st) fun right st =>
          parseE fuel (.factorLoop (Expr.new_binary acc op right)) st
      else
        return (.ok acc, st)
    | .unary => do
      let (m, st) ← advance_if_token_type_matches [.Bang, .Minus] st
      if m then do
        let (op, st) ← remove_previous st
        bindE (parseE fuel .unary st) fun right st =>
          return (.ok (Expr.new_unary op right), st)
      else
        parseE fuel .primary st
    | .primary => do
      let (m, st) ← advance_if_token_type_matches [.False, .True] st
      if m then do
        let (t, st) ← remove_previous st
        return (.ok (Expr.new_boolean_literal (t.token_type == .True)), st)
      else do
      let (m, st) ← advance_if_token_type_matches [.Nil] st
      if m then
        return (.ok Expr.new_nil_literal, st)
      else do
      let (m, st) ← advance_if_token_type_matches [.String] st
      if m then do
        let (t, st) ← remove_previous st
        return (.ok (Expr.new_string_literal t.lexeme), st)
      else do
      let (m, st) ← advance_if_token_type_matches [.Number] st
      if m then do
        let (t, st) ← remove_previous st
        match parseNumber t.lexeme with
        | some q => return (.ok (Expr.new_number_literal q), st)
        | none => .error .panic
      else do
      let (m, st) ← advance_if_token_type_matches [.Identifier] st
      if m then do
        let t ← previous st
        return (.ok (Expr.new_variable t), st)
      else do
      let (m, st) ← advance_if_token_type_matches [.LeftParen] st
      if m then
        bindE (parseE fuel .expression st) fun e st =>
          bindE (consume .RightParen "Expect ')' after expression." st) fun _ st =>
            return (.ok (Expr.new_grouping e), st)
      else do
        let t ← peek st
        return (.error (ParserError.new t "Expected expression"), st)

/-- Fuel passed to `parseE` by the statement-level rules; generous enough
for any expression over the current token list (see the sufficiency lemmas
below). -/
def exprFuel (st : PState) : Nat := 12 * st.tokens.length + 24

/-- `Parser::var_decl` (keeping the source's misspelling in the `;`
message). -/
def var_decl (st : PState) :
    Except PFault ((Except ParserError Statement) × PState) :=
  bindE (consume .Identifier "Expected variable name" st) fun name st => do
    let (m, st) ← advance_if_token_type_matches [.Equal] st
    if m then
      bindE (parseE (exprFuel st) .expression st) fun ini st =>
        bindE (consume .Semicolon "Expected ';' after variable delcaration" st) fun _ st =>
          return (.ok (Statement.new_var_statement name (some ini)), st)
    else
      bindE (consume .Semicolon "Expected ';' after variable delcaration" st) fun _ st =>
        return (.ok (Statement.new_var_statement name none), st)

/-- `Parser::print_statement`. -/
def print_statement (st : PState) :
    Except PFault ((Except ParserError Statement) × PState) :=
  bindE (parseE (exprFuel st) .expression st) fun e st =>
    bindE (consume .Semicolon "Expect ';' after value." st) fun _ st =>
      return (.ok (Statement.new_print_statement e), st)

/-- `Parser::expression_statement`. -/
def expression_statement (st : PState) :
    Except PFault ((Except ParserError Statement) × PState) :=
  bindE (parseE (exprFuel st) .expression st) fun e st =>
    bindE (consume .Semicolon "Expect ';' after expression." st) fun _ st =>
      return (.ok (Statement.new_expression_statement e), st)

/-- `Parser::statement`: `print_statement | expression_statement` (the
snapshot's parser has no block rule). -/
def statement (st : PState) :
    Except PFault ((Except ParserError Statement) × PState) := do
  let (m, st) ← advance_if_token_type_matches [.Print] st
  if m then print_statement st else expression_statement st

/-- The `while` loop inside `Parser::synchronize`. -/
def syncLoop : Nat → PState → Except PFault PState
  | 0, _ => .error .fuel
  | fuel + 1, st => do
    let t ← peek st
    if t.token_type = .Eof then
      return st
    else do
      let p ← previous st
      if p.token_type = .Semicolon then
        return st
      else
        if t.token_type = .Class ∨ t.token_type = .For ∨ t.token_type = .Fun ∨
            t.token_type = .If ∨ t.token_type = .Print ∨
            t.token_type = .Return ∨ t.token_type = .Var ∨
            t.token_type = .While then
          return st
        else do
          let (_, st) ← advance st
          syncLoop fuel st

/-- `Parser::synchronize`: advance once, then discard to a statement
boundary. -/
def synchronize (st : PState) : Except PFault PState := do
  let (_, st) ← advance st
  syncLoop (st.tokens.length + 1) st

/-- `Parser::declaration` (running `synchronize` on failure before
re-raising the error). -/
def declaration (st : PState) :
    Except PFault ((Except ParserError Statement) × PState) := do
  let (m, st) ← advance_if_token_type_matches [.Var] st
  match ← if m then var_decl st else statement st with
  | (.ok s, st) => return (.ok s, st)
  | (.error e, st) => do
    let st ← synchronize st
    return (.error e, st)

/-- The `while self.peek().token_type != TokenType::Eof` loop of
`Parser::parse`. -/
def parseLoop : Nat → PState → List Statement → List ParserError →
    Except PFault (Except (List ParserError) (List Statement))
  | 0, _, _, _ => .error .fuel
  | fuel + 1, st, stmts, errs => do
    let t ← peek st
    if t.token_type = .Eof then
      if errs.isEmpty then return .ok stmts else return .error errs
    else do
      match ← declaration st with
      | (.ok s, st) => parseLoop fuel st (stmts ++ [s]) errs
      | (.error e, st) => parseLoop fuel st stmts (errs ++ [e])

/-- `Parser::parse`. -/
def parse (tokens : List Token) :
    Except PFault (Except (List ParserError) (List Statement)) :=
  parseLoop (2 * tokens.length + 2) ⟨tokens, 0⟩ [] []

end Parser

/-- `interpreter::EvaluatedExpr`; `Number(f64)` is modelled by an exact
fraction. -/
inductive EvaluatedExpr where
  | Nil
  | String (v : Str)
  | Number (v : Num)
  | Boolean (v : Bool)
deriving DecidableEq, Repr

/-- `#[derive(PartialEq)]` on `EvaluatedExpr`: same variants compare their
payloads (doubles numerically), different variants are unequal. -/
def EvaluatedExpr.valueEq : EvaluatedExpr → EvaluatedExpr → Bool
  | .Nil, .Nil => true
  | .String a, .String b => a == b
  | .Number a, .Number b => Num.eqb a b
  | .Boolean a, .Boolean b => a == b
  | _, _ => false

/-- Rendering of a number as by Rust's `f64::to_string`: integral values
with unit denominator (the only numbers any verified claim prints) print
without a fractional part; other fractions get an abstract rendering. -/
def numToString (q : Num) : String :=
  if q.den = 1 then toString q.num else toString q.num ++ "/" ++ toString q.den

/-- `impl ToString for EvaluatedExpr`. -/
def EvaluatedExpr.to_string : EvaluatedExpr → Str
  | .Nil => "nil"
  | .String v => v
  | .Number v => numToString v
  | .Boolean v => if v then "true" else "false"

/-- `interpreter::error::InterpreterError`.  The snapshot's
`interpreter/error.rs` declares only `TypeError` (rendered
`TypeError: {0}`); the `RuntimeError` variant is modelled from its use
sites in `interpreter/environment.rs`, which construct
`InterpreterError::RuntimeError(String)`. -/
inductive InterpreterError where
  | TypeError (msg : String)
  | RuntimeError (msg : String)
deriving DecidableEq, Repr

/-- `interpreter::environment::Environment`: a `HashMap` of bindings
(modelled as an association list with insert-replaces semantics) plus the
optional boxed enclosing environment. -/
inductive Environment where
  | mk (values : List (String × EvaluatedExpr)) (enclosing : Option Environment)

/-- `HashMap::insert`: replace the binding for `k`, or append it. -/
def insertVal (k : String) (v : EvaluatedExpr) :
    List (String × EvaluatedExpr) → List (String × EvaluatedExpr)
  | [] => [(k, v)]
  | (k', v') :: rest =>
    if k' = k then (k, v) :: rest else (k', v') :: insertVal k v rest

/-- `Environment::define`: always succeeds, writes the current scope only. -/
def Environment.define (env : Environment) (name : String)
    (value : EvaluatedExpr) : Environment :=
  match env with
  | .mk vs enc => .mk (insertVal name value vs) enc

/-- `Environment::get`: current scope first, then the enclosing chain
outward; `Undefined variable {name}` when the chain is exhausted. -/
def Environment.get (env : Environment) (name : Token) :
    Except InterpreterError EvaluatedExpr :=
  match env with
  | .mk vs enc =>
    match vs.lookup name.lexeme with
    | some v => .ok v
    | none =>
      match enc with
      | some e => e.get name
      | none => .error (.RuntimeError ("Undefined variable " ++ name.lexeme))

/-- `Environment::assign`: mutate the binding when the *current* scope's
map contains the key, otherwise fail with
`Undefined variable '{name}'`; the enclosing chain is never consulted. -/
def Environment.assign (env : Environment) (name : Token)
    (value : EvaluatedExpr) : Except InterpreterError Environment :=
  match env with
  | .mk vs enc =>
    if (vs.lookup name.lexeme).isSome then
      .ok (.mk (insertVal name.lexeme value vs) enc)
    else
      .error (.RuntimeError ("Undefined variable '" ++ name.lexeme ++ "'"))

/-- `Environment::set_enclosing` (panics — `none` — when already set). -/
def Environment.set_enclosing (env enclosing : Environment) :
    Option Environment :=
  match env with
  | .mk vs none => some (.mk vs (some enclosing))
  | .mk _ (some _) => none

/-- `Environment::take_enclosing`: returns the stripped environment and the
taken enclosing one (panics — `none` — when unset). -/
def Environment.take_enclosing (env : Environment) :
    Option (Environment × Environment) :=
  match env with
  | .mk vs (some e) => some (.mk vs none, e)
  | .mk _ none => none

/-- `interpreter::is_truthy`. -/
def is_truthy : EvaluatedExpr → Bool
  | .Nil => false
  | .String _ => true
  | .Number _ => true
  | .Boolean b => b

/-- The `{t:?}` Debug rendering of a token type, used in the
unsupported-operator messages. -/
def TokenType.rustDebug : TokenType → Str
  | .LeftParen => "LeftParen" | .RightParen => "RightParen"
  | .LeftBrace => "LeftBrace" | .RightBrace => "RightBrace"
  | .Comma => "Comma" | .Dot => "Dot" | .Minus => "Minus" | .Plus => "Plus"
  | .Semicolon => "Semicolon" | .Slash => "Slash" | .Star => "Star"
  | .Bang => "Bang" | .BangEqual => "BangEqual" | .Equal => "Equal"
  | .EqualEqual => "EqualEqual" | .Greater => "Greater"
  | .GreateEqual => "GreateEqual" | .GreaterEqual => "GreaterEqual"
  | .Less => "Less" | .LessEqual => "LessEqual"
  | .Identifier => "Identifier" | .String => "String" | .Number => "Number"
  | .And => "And" | .Class => "Class" | .Else => "Else" | .False => "False"
  | .For => "For" | .Fun => "Fun" | .If => "If" | .Nil => "Nil" | .Or => "Or"
  | .Print => "Print" | .Return => "Return" | .Super => "Super"
  | .This => "This" | .True => "True" | .While => "While" | .Var => "Var"
  | .Eof => "Eof"

/-- `Interpreter::evaluate` / the `ExprVisitor` impl, by structural
recursion over the expression tree.  The snapshot's `ExprVisitor` trait
declares no `visit_assign` (and `Expr::accept` has no `Assign` arm), so
evaluating an `Assign` node has no source behaviour and is modelled as a
fault (`none`); no verified claim evaluates one. -/
def evaluate : Expr → Environment → Option (Except InterpreterError EvaluatedExpr)
  | .Literal l, _ =>
    some (.ok (match l with
      | .Boolean v => .Boolean v
      | .String v => .String v
      | .Nil => .Nil
      | .Number v => .Number v))
  | .Grouping e, env => evaluate e env
  | .Variable name, env => some (env.get name)
  | .Assign _ _, _ => none
  | .Unary op e, env =>
    match evaluate e env with
    | none => none
    | some (.error er) => some (.error er)
    | some (.ok r) =>
      match op.token_type with
      | .Minus =>
        match r with
        | .Number v => some (.ok (.Number v.neg))
        | _ => some (.error (.TypeError "Expected f64 after unary operator -"))
      | .Bang => some (.ok (.Boolean (!is_truthy r)))
      | t => some (.error (.TypeError
          ("Operand " ++ t.rustDebug ++ " not supported in unary expression")))
  | .Binary l op r, env =>
    match evaluate l env with
    | none => none
    | some (.error er) => some (.error er)
    | some (.ok el) =>
      match evaluate r env with
      | none => none
      | some (.error er) => some (.error er)
      | some (.ok er) =>
        match op.token_type with
        | .Minus =>
          match el with
          | .Number a =>
            match er with
            | .Number b => some (.ok (.Number (a.sub b)))
            | _ => some (.error (.TypeError "Right of - binary should be a valid number"))
          | _ => some (.error (.TypeError "Left of - binary should be a valid number"))
        | .Slash =>
          match el with
          | .Number a =>
            match er with
            | .Number b => some (.ok (.Number (a.div b)))
            | _ => some (.error (.TypeError "Right of / binary should be a valid number"))
          | _ => some (.error (.TypeError "Left of / binary should be a valid number"))
        | .Star =>
          match el with
          | .Number a =>
            match er with
            | .Number b => some (.ok (.Number (a.mul b)))
            | _ => some (.error (.TypeError "Right of * binary should be a valid number"))
          | _ => some (.error (.TypeError "Left of * binary should be a valid number"))
        | .Plus =>
          match el with
          | .Number a =>
            match er with
            | .Number b => some (.ok (.Number (a.add b)))
            | _ => some (.error (.TypeError
                "Right of + binary should be a valid number when left is a number"))
          | .String a =>
            match er with
            | .String b => some (.ok (.String (a ++ b)))
            | _ => some (.error (.TypeError
                "Right of + binary should be a valid string when left is a string"))
          | _ => some (.error (.TypeError
              "Cannot evaluate + operand, left expression should be a string or number"))
        | .Greater =>
          match el with
          | .Number a =>
            match er with
            | .Number b => some (.ok (.Boolean (Num.ltb b a)))
            | _ => some (.error (.TypeError "Right of > binary should be a valid number"))
          | _ => some (.error (.TypeError "Left of > binary should be a valid number"))
        | .GreaterEqual =>
          match el with
          | .Number a =>
            match er with
            | .Number b => some (.ok (.Boolean (Num.leb b a)))
            | _ => some (.error (.TypeError "Right of >= binary should be a valid number"))
          | _ => some (.error (.TypeError "Left of >= binary should be a valid number"))
        | .Less =>
          match el with
          | .Number a =>
            match er with
            | .Number b => some (.ok (.Boolean (Num.ltb a b)))
            | _ => some (.error (.TypeError "Right of < binary should be a valid number"))
          | _ => some (.error (.TypeError "Left of < binary should be a valid number"))
        | .LessEqual =>
          match el with
          | .Number a =>
            match er with
            | .Number b => some (.ok (.Boolean (Num.leb a b)))
            | _ => some (.error (.TypeError "Right of <= binary should be a valid number"))
          | _ => some (.error (.TypeError "Left of <= binary should be a valid number"))
        | .EqualEqual => some (.ok (.Boolean (el.valueEq er)))
        | .BangEqual => some (.ok (.Boolean (!(el.valueEq er))))
        | t => some (.error (.TypeError
            ("Operand " ++ t.rustDebug ++ " not supported in binary expression")))

/-- `Interpreter::execute` / the `StatementVisitor` impl.  `println!` output
is accumulated in a list of printed lines.  The snapshot's
`StatementVisitor` trait declares no `visit_block` although
`Statement::accept` dispatches to one, so executing a `Block` has no
source behaviour and is modelled as a fault (`none`). -/
def exec (s : Statement) (env : Environment) (out : List String) :
    Option ((Except InterpreterError Unit) × Environment × List String) :=
  match s with
  | .Print e =>
    match evaluate e env with
    | none => none
    | some (.ok v) => some (.ok (), env, out ++ [v.to_string])
    | some (.error er) => some (.error er, env, out)
  | .Expression e =>
    match evaluate e env with
    | none => none
    | some (.ok _) => some (.ok (), env, out)
    | some (.error er) => some (.error er, env, out)
  | .Variable name ini =>
    match ini with
    | none => some (.ok (), env.define name.lexeme .Nil, out)
    | some e =>
      match evaluate e env with
      | none => none
      | some (.ok v) => some (.ok (), env.define name.lexeme v, out)
      | some (.error er) => some (.error er, env, out)
  | .Block _ => none

/-- `Interpreter::interpret`: execute the statements in source order; the
`?` on `execute` makes the first runtime error return immediately and
singly. -/
def interpret : List Statement → Environment → List String →
    Option ((Except InterpreterError Unit) × Environment × List String)
  | [], env, out => some (.ok (), env, out)
  | s :: rest, env, out =>
    match exec s env out with
    | none => none
    | some (.ok (), env, out) => interpret rest env out
    | some (.error e, env, out) => some (.error e, env, out)

/-- Outcome of a complete run of the pipeline on one source buffer. -/
inductive RunOutcome where
  | scanErrors (errs : List InternalRoxError)
  | parseErrors (errs : List ParserError)
  | runtimeError (e : InterpreterError) (output : List String)
  | ok (output : List String)
deriving DecidableEq, Repr

/-- The scanning → parsing → interpretation pipeline on a source buffer
(the composition the CLI layer performs); `none` models a Rust panic or
fuel exhaustion in any phase. -/
def run (source : String) : Option RunOutcome :=
  match Scanner.scan_tokens source.toList with
  | none => none
  | some (.error errs) => some (.scanErrors errs)
  | some (.ok tokens) =>
    match Parser.parse tokens with
    | .error _ => none
    | .ok (.error errs) => some (.parseErrors errs)
    | .ok (.ok stmts) =>
      match interpret stmts (.mk [] none) [] with
      | none => none
      | some (.ok (), _, out) => some (.ok out)
      | some (.error e, _, out) => some (.runtimeError e out)

/-- Scan and parse a source buffer consisting of one expression statement,
and evaluate that expression in a fresh environment. -/
def evalFirstExpression (source : String) :
    Option (Except InterpreterError EvaluatedExpr) :=
  match Scanner.scan_tokens source.toList with
  | some (.ok tokens) =>
    match Parser.parse tokens with
    | .ok (.ok [Statement.Expression e]) => evaluate e (.mk [] none)
    | _ => none
  | _ => none

example : evalFirstExpression "1 + 2 * 3;" = some (.ok (.Number ⟨7, 1⟩)) := by rfl

example : evalFirstExpression "8 - 4 - 2;" = some (.ok (.Number ⟨2, 1⟩)) := by rfl

example : run "print 1; print true;" = some (.ok ["1", "true"]) := by rfl

example :
    run "var x = 1; { var x = 2; print x; } print x;" =
      some (.parseErrors [⟨⟨.LeftBrace, "\x7b", 0⟩, "Expected expression"⟩,
                          ⟨⟨.RightBrace, "\x7d", 0⟩, "Expected expression"⟩]) := by
  rfl

/-- `scanner::error::ScannerError`. -/
structure ScannerError where
  line_index : Nat
  msg : String
deriving DecidableEq, Repr

/-- `ScannerError::new`. -/
def ScannerError.new (line_index : Nat) (msg : String) : ScannerError :=
  ⟨line_index, msg⟩

/-- `impl Display for ScannerError`:
`write!(f, "Scanning Error - line {}: {}", ...)`. -/
def ScannerError.display (e : ScannerError) : Str :=
  "Scanning Error - line " ++ toString e.line_index ++ ": " ++ e.msg

/-- `impl Display for ParserError`: `Parsing Error - line {} at end: {}`
for an `Eof` token, `Parsing Error - line {} at {}: {}` otherwise. -/
def ParserError.display (e : ParserError) : Str :=
  if e.token.token_type = .Eof then
    "Parsing Error - line " ++ toString e.token.line ++ " at end: " ++ e.msg
  else
    "Parsing Error - line " ++ toString e.token.line ++ " at " ++
      e.token.lexeme ++ ": " ++ e.msg

/-- `Display` for `InterpreterError` through the `thiserror` attributes: the
snapshot's `interpreter/error.rs` declares `#[error("TypeError: {0}")]`
on its only variant; the rendering of the `RuntimeError` variant (absent
there, see `InterpreterError`) is modelled from the spec:
`runtime errors render as {Category}Error: {message}`. -/
def InterpreterError.display : InterpreterError → Str
  | .TypeError m => "TypeError: " ++ m
  | .RuntimeError m => "RuntimeError: " ++ m

/-- The literal expression whose evaluation is a given value (every runtime
value is denoted by exactly one `Literal`). -/
def literalOf : EvaluatedExpr → Expr
  | .Nil => .Literal .Nil
  | .String s => .Literal (.String s)
  | .Number q => .Literal (.Number q)
  | .Boolean b => .Literal (.Boolean b)

theorem evaluate_literalOf (v : EvaluatedExpr) (env : Environment) :
    evaluate (literalOf v) env = some (.ok v) := by
  cases v <;> rfl

theorem insertVal_lookup_self (k : String) (v : EvaluatedExpr)
    (vs : List (String × EvaluatedExpr)) :
    (insertVal k v vs).lookup k = some v := by
  induction vs with
  | nil => simp [insertVal, List.lookup]
  | cons p rest ih =>
    obtain ⟨k', v'⟩ := p
    by_cases h : k' = k
    · simp [insertVal, h, List.lookup]
    · have hb : (k == k') = false := by
        rw [beq_eq_false_iff_ne]
        exact fun e => h e.symm
      simp [insertVal, h, List.lookup, hb, ih]

theorem insertVal_lookup_ne (k k2 : String) (v : EvaluatedExpr)
    (vs : List (String × EvaluatedExpr)) (hne : ¬ k2 = k) :
    (insertVal k v vs).lookup k2 = vs.lookup k2 := by
  induction vs with
  | nil =>
    have hb : (k2 == k) = false := by
      rw [beq_eq_false_iff_ne]
      exact hne
    simp [insertVal, List.lookup, hb]
  | cons p rest ih =>
    obtain ⟨k', v'⟩ := p
    by_cases h : k' = k
    · subst h
      have hb : (k2 == k') = false := by
        rw [beq_eq_false_iff_ne]
        exact hne
      simp [insertVal, List.lookup, hb]
    · simp [insertVal, h, List.lookup, ih]

theorem insertVal_lookup_isSome (k k2 : String) (v : EvaluatedExpr)
    (vs : List (String × EvaluatedExpr)) :
    ((insertVal k v vs).lookup k2).isSome ↔
      (k2 = k ∨ (vs.lookup k2).isSome) := by
  by_cases h : k2 = k
  · subst h
    simp [insertVal_lookup_self]
  · simp [insertVal_lookup_ne k k2 v vs h, h]

/-- C1, corrected.  `Environment::assign` consults only the current
scope's map: it mutates the binding there when that scope owns one
(leaving the enclosing chain untouched and creating no binding), and —
for every enclosing chain, in particular one whose outer scope does own
`name` — fails with the `Undefined variable '{name}'` runtime error as
soon as the current scope does not own the key.  The outward search the
spec describes does not happen. -/
theorem claim_C1_assign_current_scope_only
    (vs : List (String × EvaluatedExpr)) (enc : Option Environment)
    (name : Token) (value : EvaluatedExpr) :
    (Environment.assign (.mk vs enc) name value =
        .ok (.mk (insertVal name.lexeme value vs) enc) ∨
      Environment.assign (.mk vs enc) name value =
        .error (.RuntimeError ("Undefined variable '" ++ name.lexeme ++ "'"))) ∧
    (Environment.assign (.mk vs enc) name value =
        .error (.RuntimeError ("Undefined variable '" ++ name.lexeme ++ "'")) ↔
      vs.lookup name.lexeme = none) ∧
    (insertVal name.lexeme value vs).lookup name.lexeme = some value ∧
    (∀ k, ¬ k = name.lexeme →
      (insertVal name.lexeme value vs).lookup k = vs.lookup k) ∧
    (∀ k, ((insertVal name.lexeme value vs).lookup k).isSome ↔
      (k = name.lexeme ∨ (vs.lookup k).isSome)) := by
  refine ⟨?_, ?_, insertVal_lookup_self _ _ _,
    fun k hk => insertVal_lookup_ne _ _ _ _ hk,
    fun k => insertVal_lookup_isSome _ _ _ _⟩
  · rcases hl : vs.lookup name.lexeme with _ | v0
    · right
      simp [Environment.assign, hl]
    · left
      simp [Environment.assign, hl]
  · rcases hl : vs.lookup name.lexeme with _ | v0
    · simp [Environment.assign, hl]
    · simp [Environment.assign, hl]

/-- Witness for C1: in a scope owning `x`, assignment overwrites it; the
components are obtained from `claim_C1_assign_current_scope_only` at
concrete inputs. -/
theorem claim_C1_witness :
    (Environment.assign (.mk [("x", EvaluatedExpr.Nil)] none)
        ⟨.Identifier, "x", 0⟩ (.Number ⟨2, 1⟩) =
      .ok (.mk (insertVal "x" (.Number ⟨2, 1⟩) [("x", EvaluatedExpr.Nil)]) none) ∨
      Environment.assign (.mk [("x", EvaluatedExpr.Nil)] none)
        ⟨.Identifier, "x", 0⟩ (.Number ⟨2, 1⟩) =
      .error (.RuntimeError ("Undefined variable '" ++ "x" ++ "'"))) ∧
    (insertVal "x" (.Number ⟨2, 1⟩) [("x", EvaluatedExpr.Nil)]).lookup "x" =
      some (.Number ⟨2, 1⟩) :=
  ⟨(claim_C1_assign_current_scope_only [("x", EvaluatedExpr.Nil)] none
      ⟨.Identifier, "x", 0⟩ (.Number ⟨2, 1⟩)).1,
   (claim_C1_assign_current_scope_only [("x", EvaluatedExpr.Nil)] none
      ⟨.Identifier, "x", 0⟩ (.Number ⟨2, 1⟩)).2.2.1⟩

/-- Counterexample to C1 as stated: with the binding for `x` owned only by
the enclosing scope, `assign` fails with the undefined-variable error
instead of mutating the enclosing binding. -/
theorem claim_C1_counterexample :
    Environment.assign
        (.mk [] (some (.mk [("x", EvaluatedExpr.Number ⟨1, 1⟩)] none)))
        ⟨.Identifier, "x", 0⟩ (.Number ⟨2, 1⟩) =
      .error (.RuntimeError "Undefined variable 'x'") ∧
    Environment.get
        (.mk [] (some (.mk [("x", EvaluatedExpr.Number ⟨1, 1⟩)] none)))
        ⟨.Identifier, "x", 0⟩ = .ok (.Number ⟨1, 1⟩) := by
  exact ⟨rfl, rfl⟩

/-- C8, amended: the actual stable diagnostic formats are
`Scanning Error - line {n}: {msg}` for lexical errors,
`Parsing Error - line {n} at {lexeme}: {msg}` (or `at end` on `Eof`) for
parse errors, and `{Category}Error: {message}` for runtime errors. -/
theorem claim_C8_display_formats (n : Nat) (m : String) (t : Token) :
    (ScannerError.new n m).display =
      "Scanning Error - line " ++ toString n ++ ": " ++ m ∧
    (ParserError.new t m).display =
      (if t.token_type = .Eof then
        "Parsing Error - line " ++ toString t.line ++ " at end: " ++ m
      else
        "Parsing Error - line " ++ toString t.line ++ " at " ++
          t.lexeme ++ ": " ++ m) ∧
    (InterpreterError.TypeError m).display = "TypeError: " ++ m ∧
    (InterpreterError.RuntimeError m).display = "RuntimeError: " ++ m :=
  ⟨rfl, rfl, rfl, rfl⟩

/-- Counterexample to C8 as stated: the lexical error produced for an
unexpected character renders as `Scanning Error - line 0: …`, which is not
of the claimed shape `[line 0] {Category}Error: {message}` for any
category and message. -/
theorem claim_C8_counterexample :
    (ScannerError.new 0 "Unexpected character").display =
      "Scanning Error - line 0: Unexpected character" ∧
    ¬ ∃ category message : String,
      (ScannerError.new 0 "Unexpected character").display =
        "[line 0] " ++ category ++ "Error: " ++ message := by
  refine ⟨rfl, ?_⟩
  rintro ⟨c, m, h⟩
  have h2 := congrArg (fun s : String => s.data.head?) h
  simp only [String.data_append] at h2
  have h3 : (some 'S' : Option Char) = some '[' := h2
  exact absurd h3 (by decide)

/-- C4, confirmed: for evaluated operands of a Binary `+`, Number+Number
adds, String+String concatenates, and any other pairing is the matching
`TypeError`; in particular `1 + "a"` is a `TypeError` and is never
stringified. -/
theorem claim_C4_plus_typing (op : Token) (h : op.token_type = .Plus)
    (v1 v2 : EvaluatedExpr) (env : Environment) :
    evaluate (.Binary (literalOf v1) op (literalOf v2)) env =
      some (match v1, v2 with
        | .Number a, .Number b => .ok (.Number (a.add b))
        | .Number _, _ => .error (.TypeError
            "Right of + binary should be a valid number when left is a number")
        | .String a, .String b => .ok (.String (a ++ b))
        | .String _, _ => .error (.TypeError
            "Right of + binary should be a valid string when left is a string")
        | _, _ => .error (.TypeError
            "Cannot evaluate + operand, left expression should be a string or number")) ∧
    run "1 + \"a\";" = some (.runtimeError (.TypeError
      "Right of + binary should be a valid number when left is a number") []) := by
  obtain ⟨tt, lex, ln⟩ := op
  have h' : tt = TokenType.Plus := h
  subst h'
  refine ⟨?_, rfl⟩
  cases v1 <;> cases v2 <;> rfl

/-- Witness for C4 at `1 + "a"`, by instantiating `claim_C4_plus_typing`. -/
theorem claim_C4_witness :
    evaluate (.Binary (literalOf (.Number ⟨1, 1⟩)) ⟨.Plus, "+", 0⟩
        (literalOf (.String "a"))) (.mk [] none) =
      some (.error (.TypeError
        "Right of + binary should be a valid number when left is a number")) :=
  (claim_C4_plus_typing ⟨.Plus, "+", 0⟩ rfl (.Number ⟨1, 1⟩) (.String "a")
    (.mk [] none)).1

/-- C5, confirmed: `interpret` executes statements in source order; once a
statement fails, that first runtime error is returned singly and no later
statement is executed (the result does not depend on the remaining
statements). -/
theorem claim_C5_first_error_halts (front rest : List Statement)
    (s : Statement) (env env1 env2 : Environment)
    (out out1 out2 : List String) (e : InterpreterError)
    (hfront : interpret front env out = some (.ok (), env1, out1))
    (hs : exec s env1 out1 = some (.error e, env2, out2)) :
    interpret (front ++ s :: rest) env out = some (.error e, env2, out2) := by
  induction front generalizing env out with
  | nil =>
    simp [interpret] at hfront
    obtain ⟨h1, h2⟩ := hfront
    subst h1
    subst h2
    simp [interpret, hs]
  | cons s0 tl ih =>
    rw [List.cons_append]
    unfold interpret at hfront ⊢
    cases hx : exec s0 env out with
    | none =>
      rw [hx] at hfront
      exact absurd hfront (by simp)
    | some r =>
      obtain ⟨r1, env', out'⟩ := r
      cases r1 with
      | ok u =>
        cases u
        rw [hx] at hfront
        exact ih env' out' hfront
      | error e0 =>
        rw [hx] at hfront
        simp at hfront

/-- Witness for C5: `print 1;` succeeds, reading undefined `y` fails, and
the trailing `print 9;` is never run. -/
theorem claim_C5_witness :
    interpret ([Statement.Print (.Literal (.Number ⟨1, 1⟩))] ++
        (Statement.Expression (.Variable ⟨.Identifier, "y", 0⟩)) ::
        [Statement.Print (.Literal (.Number ⟨9, 1⟩))])
      (.mk [] none) [] =
      some (.error (.RuntimeError "Undefined variable y"), .mk [] none, ["1"]) :=
  claim_C5_first_error_halts _ _ _ _ _ _ _ _ _ _ (by rfl) (by rfl)

/-- C2, code bug: the spec and the AST (`Statement::Block`,
`Statement::accept` dispatching `visit_block`, the environment's
`set_enclosing`/`take_enclosing`) all promise block support, but the
snapshot's `Parser::statement` has no block rule and its
`StatementVisitor` no `visit_block`, so the lexical-scoping program
fails to parse (`{` and `}` each produce `Expected expression`) instead
of printing `2` then `1`. -/
theorem claim_C2_block_program_fails_to_parse :
    run "var x = 1; { var x = 2; print x; } print x;" =
      some (.parseErrors [⟨⟨.LeftBrace, "\x7b", 0⟩, "Expected expression"⟩,
                          ⟨⟨.RightBrace, "\x7d", 0⟩, "Expected expression"⟩]) := by
  rfl

theorem scanLoop_exit (src : List Char) : ∀ fuel st tokens errors st2 tokens2
    errors2,
    Scanner.scanLoop src fuel st tokens errors = some (st2, tokens2, errors2) →
    Scanner.byteLen src ≤ st2.current_index ∧ errors <+: errors2 := by
  intro fuel
  induction fuel with
  | zero =>
    intro st tokens errors st2 tokens2 errors2 h
    exact absurd h (by simp [Scanner.scanLoop])
  | succ f ih =>
    intro st tokens errors st2 tokens2 errors2 h
    rw [Scanner.scanLoop] at h
    split at h
    · split at h
      · exact absurd h (by simp)
      · rename_i heq
        exact ih _ _ _ _ _ _ h
      · rename_i heq
        have h2 := ih _ _ _ _ _ _ h
        exact ⟨h2.1, (List.prefix_append errors _).trans h2.2⟩
    · rename_i hc
      have h3 : st = st2 ∧ tokens = tokens2 ∧ errors = errors2 := by
        simpa using h
      obtain ⟨rfl, rfl, rfl⟩ := h3
      exact ⟨Nat.le_of_not_lt hc, List.prefix_refl _⟩

/-- C6, confirmed: scanning `"@#("` aggregates exactly the two lexical
errors for `@` and `#`; in general an error result is always a non-empty
aggregate, and the scan loop always runs to the end of the buffer while
only ever appending to the error list (errors are kept in source
order). -/
theorem claim_C6_scanner_aggregates_errors :
    Scanner.scan_tokens "@#(".toList =
      some (.error [.SyntaxError 0 "Unexpected character",
                    .SyntaxError 0 "Unexpected character"]) ∧
    (∀ src r errs, Scanner.scan_tokens src = some r → r = .error errs →
      errs ≠ []) ∧
    (∀ fuel src st tokens errors st2 tokens2 errors2,
      Scanner.scanLoop src fuel st tokens errors = some (st2, tokens2, errors2) →
      Scanner.byteLen src ≤ st2.current_index ∧ errors <+: errors2) := by
  refine ⟨rfl, ?_, fun fuel src => scanLoop_exit src fuel⟩
  intro src r errs h hr
  subst hr
  unfold Scanner.scan_tokens at h
  cases hl : Scanner.scanLoop src (Scanner.byteLen src + 1) ⟨0, 0, 0⟩ [] [] with
  | none =>
    rw [hl] at h
    exact absurd h (by simp)
  | some v =>
    obtain ⟨st, toks, es⟩ := v
    rw [hl] at h
    by_cases he : es.isEmpty
    · simp [he] at h
    · simp [he] at h
      intro h0
      apply he
      rw [h, h0]
      rfl

theorem bindE_ok {α β : Type} (a : α) (st : Parser.PState)
    (f : α → Parser.PState →
      Except Parser.PFault ((Except ParserError β) × Parser.PState)) :
    Parser.bindE (.ok (.ok a, st)) f = f a st := rfl

theorem parseE_term_entry (f : Nat) (st : Parser.PState) :
    Parser.parseE (f + 1) .term st =
      Parser.bindE (Parser.parseE f .factor st) fun e st =>
        Parser.parseE f (.termLoop e) st := rfl

theorem parseE_factor_entry (f : Nat) (st : Parser.PState) :
    Parser.parseE (f + 1) .factor st =
      Parser.bindE (Parser.parseE f .unary st) fun e st =>
        Parser.parseE f (.factorLoop e) st := rfl

theorem parseE_equality_entry (f : Nat) (st : Parser.PState) :
    Parser.parseE (f + 1) .equality st =
      Parser.bindE (Parser.parseE f .comparison st) fun e st =>
        Parser.parseE f (.equalityLoop e) st := rfl

theorem parseE_comparison_entry (f : Nat) (st : Parser.PState) :
    Parser.parseE (f + 1) .comparison st =
      Parser.bindE (Parser.parseE f .term st) fun e st =>
        Parser.parseE f (.comparisonLoop e) st := rfl

theorem parseE_unary_number (f : Nat) (s : String) (ln : Nat)
    (rest : List Token) :
    Parser.parseE (f + 1) .unary ⟨⟨.Number, s, ln⟩ :: rest, 0⟩ =
      Parser.parseE f .primary ⟨⟨.Number, s, ln⟩ :: rest, 0⟩ := rfl

theorem parseE_primary_number (f : Nat) (s : String) (q : Num) (ln : Nat)
    (rest : List Token) (h : parseNumber s = some q) :
    Parser.parseE (f + 1) .primary ⟨⟨.Number, s, ln⟩ :: rest, 0⟩ =
      .ok (.ok (.Literal (.Number q)), ⟨rest, 0⟩) := by
  have key : Parser.parseE (f + 1) .primary ⟨⟨.Number, s, ln⟩ :: rest, 0⟩ =
      (match parseNumber s with
       | some q => .ok (.ok (Expr.new_number_literal q), ⟨rest, 0⟩)
       | none => .error .panic) := rfl
  rw [key, h]
  rfl

theorem parseE_termLoop_minus (f : Nat) (acc : Expr) (lx : String) (ln : Nat)
    (rest : List Token) :
    Parser.parseE (f + 1) (.termLoop acc) ⟨⟨.Minus, lx, ln⟩ :: rest, 0⟩ =
      Parser.bindE (Parser.parseE f .factor ⟨rest, 0⟩) fun right st =>
        Parser.parseE f
          (.termLoop (Expr.new_binary acc ⟨.Minus, lx, ln⟩ right)) st := rfl

theorem parseE_termLoop_plus (f : Nat) (acc : Expr) (lx : String) (ln : Nat)
    (rest : List Token) :
    Parser.parseE (f + 1) (.termLoop acc) ⟨⟨.Plus, lx, ln⟩ :: rest, 0⟩ =
      Parser.bindE (Parser.parseE f .factor ⟨rest, 0⟩) fun right st =>
        Parser.parseE f
          (.termLoop (Expr.new_binary acc ⟨.Plus, lx, ln⟩ right)) st := rfl

theorem parseE_factorLoop_star (f : Nat) (acc : Expr) (lx : String) (ln : Nat)
    (rest : List Token) :
    Parser.parseE (f + 1) (.factorLoop acc) ⟨⟨.Star, lx, ln⟩ :: rest, 0⟩ =
      Parser.bindE (Parser.parseE f .unary ⟨rest, 0⟩) fun right st =>
        Parser.parseE f
          (.factorLoop (Expr.new_binary acc ⟨.Star, lx, ln⟩ right)) st := rfl

theorem parseE_factorLoop_slash (f : Nat) (acc : Expr) (lx : String) (ln : Nat)
    (rest : List Token) :
    Parser.parseE (f + 1) (.factorLoop acc) ⟨⟨.Slash, lx, ln⟩ :: rest, 0⟩ =
      Parser.bindE (Parser.parseE f .unary ⟨rest, 0⟩) fun right st =>
        Parser.parseE f
          (.factorLoop (Expr.new_binary acc ⟨.Slash, lx, ln⟩ right)) st := rfl

theorem parseE_equalityLoop_eq (f : Nat) (acc : Expr) (lx : String) (ln : Nat)
    (rest : List Token) :
    Parser.parseE (f + 1) (.equalityLoop acc)
        ⟨⟨.EqualEqual, lx, ln⟩ :: rest, 0⟩ =
      Parser.bindE (Parser.parseE f .comparison ⟨rest, 0⟩) fun right st =>
        Parser.parseE f
          (.equalityLoop (Expr.new_binary acc ⟨.EqualEqual, lx, ln⟩ right))
          st := rfl

theorem parseE_comparisonLoop_less (f : Nat) (acc : Expr) (lx : String)
    (ln : Nat) (rest : List Token) :
    Parser.parseE (f + 1) (.comparisonLoop acc)
        ⟨⟨.Less, lx, ln⟩ :: rest, 0⟩ =
      Parser.bindE (Parser.parseE f .term ⟨rest, 0⟩) fun right st =>
        Parser.parseE f
          (.comparisonLoop (Expr.new_binary acc ⟨.Less, lx, ln⟩ right))
          st := rfl

theorem parseE_termLoop_stop_semi (f : Nat) (acc : Expr) (lx : String)
    (ln : Nat) (rest : List Token) :
    Parser.parseE (f + 1) (.termLoop acc) ⟨⟨.Semicolon, lx, ln⟩ :: rest, 0⟩ =
      .ok (.ok acc, ⟨⟨.Semicolon, lx, ln⟩ :: rest, 0⟩) := rfl

theorem parseE_termLoop_stop_eq (f : Nat) (acc : Expr) (lx : String)
    (ln : Nat) (rest : List Token) :
    Parser.parseE (f + 1) (.termLoop acc) ⟨⟨.EqualEqual, lx, ln⟩ :: rest, 0⟩ =
      .ok (.ok acc, ⟨⟨.EqualEqual, lx, ln⟩ :: rest, 0⟩) := rfl

theorem parseE_termLoop_stop_less (f : Nat) (acc : Expr) (lx : String)
    (ln : Nat) (rest : List Token) :
    Parser.parseE (f + 1) (.termLoop acc) ⟨⟨.Less, lx, ln⟩ :: rest, 0⟩ =
      .ok (.ok acc, ⟨⟨.Less, lx, ln⟩ :: rest, 0⟩) := rfl

theorem parseE_factorLoop_stop_semi (f : Nat) (acc : Expr) (lx : String)
    (ln : Nat) (rest : List Token) :
    Parser.parseE (f + 1) (.factorLoop acc) ⟨⟨.Semicolon, lx, ln⟩ :: rest, 0⟩ =
      .ok (.ok acc, ⟨⟨.Semicolon, lx, ln⟩ :: rest, 0⟩) := rfl

theorem parseE_factorLoop_stop_minus (f : Nat) (acc : Expr) (lx : String)
    (ln : Nat) (rest : List Token) :
    Parser.parseE (f + 1) (.factorLoop acc) ⟨⟨.Minus, lx, ln⟩ :: rest, 0⟩ =
      .ok (.ok acc, ⟨⟨.Minus, lx, ln⟩ :: rest, 0⟩) := rfl

theorem parseE_factorLoop_stop_plus (f : Nat) (acc : Expr) (lx : String)
    (ln : Nat) (rest : List Token) :
    Parser.parseE (f + 1) (.factorLoop acc) ⟨⟨.Plus, lx, ln⟩ :: rest, 0⟩ =
      .ok (.ok acc, ⟨⟨.Plus, lx, ln⟩ :: rest, 0⟩) := rfl

theorem parseE_factorLoop_stop_eq (f : Nat) (acc : Expr) (lx : String)
    (ln : Nat) (rest : List Token) :
    Parser.parseE (f + 1) (.factorLoop acc) ⟨⟨.EqualEqual, lx, ln⟩ :: rest, 0⟩ =
      .ok (.ok acc, ⟨⟨.EqualEqual, lx, ln⟩ :: rest, 0⟩) := rfl

theorem parseE_factorLoop_stop_less (f : Nat) (acc : Expr) (lx : String)
    (ln : Nat) (rest : List Token) :
    Parser.parseE (f + 1) (.factorLoop acc) ⟨⟨.Less, lx, ln⟩ :: rest, 0⟩ =
      .ok (.ok acc, ⟨⟨.Less, lx, ln⟩ :: rest, 0⟩) := rfl

theorem parseE_comparisonLoop_stop_semi (f : Nat) (acc : Expr) (lx : String)
    (ln : Nat) (rest : List Token) :
    Parser.parseE (f + 1) (.comparisonLoop acc)
        ⟨⟨.Semicolon, lx, ln⟩ :: rest, 0⟩ =
      .ok (.ok acc, ⟨⟨.Semicolon, lx, ln⟩ :: rest, 0⟩) := rfl

theorem parseE_comparisonLoop_stop_eq (f : Nat) (acc : Expr) (lx : String)
    (ln : Nat) (rest : List Token) :
    Parser.parseE (f + 1) (.comparisonLoop acc)
        ⟨⟨.EqualEqual, lx, ln⟩ :: rest, 0⟩ =
      .ok (.ok acc, ⟨⟨.EqualEqual, lx, ln⟩ :: rest, 0⟩) := rfl

theorem parseE_equalityLoop_stop_semi (f : Nat) (acc : Expr) (lx : String)
    (ln : Nat) (rest : List Token) :
    Parser.parseE (f + 1) (.equalityLoop acc)
        ⟨⟨.Semicolon, lx, ln⟩ :: rest, 0⟩ =
      .ok (.ok acc, ⟨⟨.Semicolon, lx, ln⟩ :: rest, 0⟩) := rfl

/-- C3, confirmed: each binary tier (equality, comparison, term, factor)
folds its operators left-associatively — on three operands the result is
`(a op b) op c` — the tiers nest with factor binding tighter than term —
`a + b * c` parses as `a + (b * c)` — and consequently `1 + 2 * 3;`
evaluates to the Number 7 and `8 - 4 - 2;` to the Number 2. -/
theorem claim_C3_precedence_and_associativity :
    (∀ (f : Nat) (sa sb sc : String) (qa qb qc : Num),
      parseNumber sa = some qa → parseNumber sb = some qb →
      parseNumber sc = some qc →
      Parser.parseE (f + 12) .term
          ⟨[⟨.Number, sa, 0⟩, ⟨.Minus, "-", 0⟩, ⟨.Number, sb, 0⟩,
            ⟨.Minus, "-", 0⟩, ⟨.Number, sc, 0⟩, ⟨.Semicolon, ";", 0⟩,
            ⟨.Eof, "", 0⟩], 0⟩ =
        .ok (.ok (Expr.Binary
            (Expr.Binary (.Literal (.Number qa)) ⟨.Minus, "-", 0⟩
              (.Literal (.Number qb)))
            ⟨.Minus, "-", 0⟩ (.Literal (.Number qc))),
          ⟨[⟨.Semicolon, ";", 0⟩, ⟨.Eof, "", 0⟩], 0⟩)) ∧
    (∀ (f : Nat) (sa sb sc : String) (qa qb qc : Num),
      parseNumber sa = some qa → parseNumber sb = some qb →
      parseNumber sc = some qc →
      Parser.parseE (f + 12) .factor
          ⟨[⟨.Number, sa, 0⟩, ⟨.Slash, "/", 0⟩, ⟨.Number, sb, 0⟩,
            ⟨.Slash, "/", 0⟩, ⟨.Number, sc, 0⟩, ⟨.Semicolon, ";", 0⟩,
            ⟨.Eof, "", 0⟩], 0⟩ =
        .ok (.ok (Expr.Binary
            (Expr.Binary (.Literal (.Number qa)) ⟨.Slash, "/", 0⟩
              (.Literal (.Number qb)))
            ⟨.Slash, "/", 0⟩ (.Literal (.Number qc))),
          ⟨[⟨.Semicolon, ";", 0⟩, ⟨.Eof, "", 0⟩], 0⟩)) ∧
    (∀ (f : Nat) (sa sb sc : String) (qa qb qc : Num),
      parseNumber sa = some qa → parseNumber sb = some qb →
      parseNumber sc = some qc →
      Parser.parseE (f + 12) .equality
          ⟨[⟨.Number, sa, 0⟩, ⟨.EqualEqual, "==", 0⟩, ⟨.Number, sb, 0⟩,
            ⟨.EqualEqual, "==", 0⟩, ⟨.Number, sc, 0⟩, ⟨.Semicolon, ";", 0⟩,
            ⟨.Eof, "", 0⟩], 0⟩ =
        .ok (.ok (Expr.Binary
            (Expr.Binary (.Literal (.Number qa)) ⟨.EqualEqual, "==", 0⟩
              (.Literal (.Number qb)))
            ⟨.EqualEqual, "==", 0⟩ (.Literal (.Number qc))),
          ⟨[⟨.Semicolon, ";", 0⟩, ⟨.Eof, "", 0⟩], 0⟩)) ∧
    (∀ (f : Nat) (sa sb sc : String) (qa qb qc : Num),
      parseNumber sa = some qa → parseNumber sb = some qb →
      parseNumber sc = some qc →
      Parser.parseE (f + 12) .comparison
          ⟨[⟨.Number, sa, 0⟩, ⟨.Less, "<", 0⟩, ⟨.Number, sb, 0⟩,
            ⟨.Less, "<", 0⟩, ⟨.Number, sc, 0⟩, ⟨.Semicolon, ";", 0⟩,
            ⟨.Eof, "", 0⟩], 0⟩ =
        .ok (.ok (Expr.Binary
            (Expr.Binary (.Literal (.Number qa)) ⟨.Less, "<", 0⟩
              (.Literal (.Number qb)))
            ⟨.Less, "<", 0⟩ (.Literal (.Number qc))),
          ⟨[⟨.Semicolon, ";", 0⟩, ⟨.Eof, "", 0⟩], 0⟩)) ∧
    (∀ (f : Nat) (sa sb sc : String) (qa qb qc : Num),
      parseNumber sa = some qa → parseNumber sb = some qb →
      parseNumber sc = some qc →
      Parser.parseE (f + 12) .term
          ⟨[⟨.Number, sa, 0⟩, ⟨.Plus, "+", 0⟩, ⟨.Number, sb, 0⟩,
            ⟨.Star, "*", 0⟩, ⟨.Number, sc, 0⟩, ⟨.Semicolon, ";", 0⟩,
            ⟨.Eof, "", 0⟩], 0⟩ =
        .ok (.ok (Expr.Binary (.Literal (.Number qa)) ⟨.Plus, "+", 0⟩
            (Expr.Binary (.Literal (.Number qb)) ⟨.Star, "*", 0⟩
              (.Literal (.Number qc)))),
          ⟨[⟨.Semicolon, ";", 0⟩, ⟨.Eof, "", 0⟩], 0⟩)) ∧
    evalFirstExpression "1 + 2 * 3;" = some (.ok (.Number ⟨7, 1⟩)) ∧
    evalFirstExpression "8 - 4 - 2;" = some (.ok (.Number ⟨2, 1⟩)) := by
  refine ⟨?_, ?_, ?_, ?_, ?_, rfl, rfl⟩ <;>
    intro f sa sb sc qa qb qc ha hb hc <;>
    simp only [parseE_term_entry, parseE_factor_entry, parseE_equality_entry,
      parseE_comparison_entry, parseE_unary_number,
      parseE_primary_number _ _ _ _ _ ha, parseE_primary_number _ _ _ _ _ hb,
      parseE_primary_number _ _ _ _ _ hc, bindE_ok,
      parseE_termLoop_minus, parseE_termLoop_plus, parseE_factorLoop_star,
      parseE_factorLoop_slash, parseE_equalityLoop_eq,
      parseE_comparisonLoop_less, parseE_termLoop_stop_semi,
      parseE_termLoop_stop_eq, parseE_termLoop_stop_less,
      parseE_factorLoop_stop_semi, parseE_factorLoop_stop_minus,
      parseE_factorLoop_stop_plus, parseE_factorLoop_stop_eq,
      parseE_factorLoop_stop_less, parseE_comparisonLoop_stop_semi,
      parseE_comparisonLoop_stop_eq, parseE_equalityLoop_stop_semi,
      Expr.new_binary]

/-- Witness for C3: the term tier at the concrete lexemes of
`8 - 4 - 2` produces the left-associated tree, by instantiating the first
part of `claim_C3_precedence_and_associativity`. -/
theorem claim_C3_witness :
    Parser.parseE 12 .term
        ⟨[⟨.Number, "8", 0⟩, ⟨.Minus, "-", 0⟩, ⟨.Number, "4", 0⟩,
          ⟨.Minus, "-", 0⟩, ⟨.Number, "2", 0⟩, ⟨.Semicolon, ";", 0⟩,
          ⟨.Eof, "", 0⟩], 0⟩ =
      .ok (.ok (Expr.Binary
          (Expr.Binary (.Literal (.Number ⟨8, 1⟩)) ⟨.Minus, "-", 0⟩
            (.Literal (.Number ⟨4, 1⟩)))
          ⟨.Minus, "-", 0⟩ (.Literal (.Number ⟨2, 1⟩))),
        ⟨[⟨.Semicolon, ";", 0⟩, ⟨.Eof, "", 0⟩], 0⟩) :=
  claim_C3_precedence_and_associativity.1 0 "8" "4" "2"
    ⟨8, 1⟩ ⟨4, 1⟩ ⟨2, 1⟩ rfl rfl rfl

theorem advance_some (src : List Char) (st : Scanner.St) (c : Char)
    (st' : Scanner.St) (h : Scanner.advance src st = some (c, st')) :
    st' = { st with current_index := st.current_index + 1 } := by
  unfold Scanner.advance at h
  split at h
  · cases h
    rfl
  · cases h

theorem advance_if_equal_state (src : List Char) (e : Char) (st : Scanner.St) :
    (Scanner.advance_if_equal src e st).2.line_index = st.line_index ∧
      (Scanner.advance_if_equal src e st).2.start_index = st.start_index := by
  unfold Scanner.advance_if_equal
  split
  · split <;> exact ⟨rfl, rfl⟩
  · exact ⟨rfl, rfl⟩

theorem commentLoop_line (src : List Char) : ∀ fuel st st',
    Scanner.commentLoop src fuel st = some st' →
    st'.line_index = st.line_index := by
  intro fuel
  induction fuel with
  | zero =>
    intro st st' h
    exact absurd h (by simp [Scanner.commentLoop])
  | succ f ih =>
    intro st st' h
    rw [Scanner.commentLoop] at h
    split at h
    · split at h
      · cases h
        rfl
      · have h2 := ih _ _ h
        simpa using h2
    · cases h
      rfl

theorem stringLoop_line (src : List Char) : ∀ fuel st st',
    Scanner.stringLoop src fuel st = some st' →
    st.line_index ≤ st'.line_index ∧ st'.start_index = st.start_index := by
  intro fuel
  induction fuel with
  | zero =>
    intro st st' h
    exact absurd h (by simp [Scanner.stringLoop])
  | succ f ih =>
    intro st st' h
    rw [Scanner.stringLoop] at h
    split at h
    · split at h
      · cases h
        exact ⟨Nat.le_refl _, rfl⟩
      · split at h
        · have h2 := ih _ _ h
          simp at h2
          exact ⟨Nat.le_trans (Nat.le_succ _) h2.1, h2.2⟩
        · have h2 := ih _ _ h
          simp at h2
          exact ⟨h2.1, h2.2⟩
    · cases h
      exact ⟨Nat.le_refl _, rfl⟩

theorem digitsLoop_line (src : List Char) : ∀ fuel st st',
    Scanner.digitsLoop src fuel st = some st' →
    st'.line_index = st.line_index ∧ st'.start_index = st.start_index := by
  intro fuel
  induction fuel with
  | zero =>
    intro st st' h
    exact absurd h (by simp [Scanner.digitsLoop])
  | succ f ih =>
    intro st st' h
    rw [Scanner.digitsLoop] at h
    split at h
    · have h2 := ih _ _ h
      simpa using h2
    · cases h
      exact ⟨rfl, rfl⟩

theorem identLoop_line (src : List Char) : ∀ fuel st st',
    Scanner.identLoop src fuel st = some st' →
    st'.line_index = st.line_index ∧ st'.start_index = st.start_index := by
  intro fuel
  induction fuel with
  | zero =>
    intro st st' h
    exact absurd h (by simp [Scanner.identLoop])
  | succ f ih =>
    intro st st' h
    rw [Scanner.identLoop] at h
    split at h
    · have h2 := ih _ _ h
      simpa using h2
    · cases h
      exact ⟨rfl, rfl⟩

theorem scan_string_line (src : List Char) (st : Scanner.St)
    (r : Except InternalRoxError (Option Token)) (st' : Scanner.St)
    (h : Scanner.scan_string src st = some (r, st')) :
    st.line_index ≤ st'.line_index ∧
      ∀ t, r = .ok (some t) → t.token_type ≠ .Eof ∧ t.line = st'.line_index := by
  unfold Scanner.scan_string at h
  cases hsl : Scanner.stringLoop src (src.length + 1) st with
  | none =>
    rw [hsl] at h
    exact absurd h (by simp)
  | some st2 =>
    rw [hsl] at h
    have hl2 := stringLoop_line src _ _ _ hsl
    simp only [Option.bind_eq_bind, Option.some_bind] at h
    split at h
    · cases h
      exact ⟨hl2.1, by simp⟩
    · split at h
      · cases h
        refine ⟨hl2.1, ?_⟩
        intro t ht
        cases ht
        exact ⟨by simp [Scanner.build_complex_token], rfl⟩
      · cases h

theorem scan_number_line (src : List Char) (st : Scanner.St)
    (r : Except InternalRoxError (Option Token)) (st' : Scanner.St)
    (h : Scanner.scan_number src st = some (r, st')) :
    st.line_index ≤ st'.line_index ∧
      ∀ t, r = .ok (some t) → t.token_type ≠ .Eof ∧ t.line = st'.line_index := by
  unfold Scanner.scan_number at h
  cases hd1 : Scanner.digitsLoop src (src.length + 1) st with
  | none =>
    rw [hd1] at h
    exact absurd h (by simp)
  | some st2 =>
    rw [hd1] at h
    have hl2 := digitsLoop_line src _ _ _ hd1
    simp only [Option.bind_eq_bind, Option.some_bind] at h
    split at h
    · cases hd2 : Scanner.digitsLoop src (src.length + 1)
        { st2 with current_index := st2.current_index + 1 } with
      | none =>
        rw [hd2] at h
        exact absurd h (by simp)
      | some st3 =>
        rw [hd2] at h
        have hl3 := digitsLoop_line src _ _ _ hd2
        simp only [Option.bind_eq_bind, Option.some_bind] at h
        split at h
        · cases h
          refine ⟨by simp [hl3.1, hl2.1], ?_⟩
          intro t ht
          cases ht
          exact ⟨by simp [Scanner.build_complex_token], rfl⟩
        · cases h
    · split at h
      · cases h
        refine ⟨by simp [hl2.1], ?_⟩
        intro t ht
        cases ht
        exact ⟨by simp [Scanner.build_complex_token], rfl⟩
      · cases h

theorem scan_identifier_line (src : List Char) (st : Scanner.St)
    (r : Except InternalRoxError (Option Token)) (st' : Scanner.St)
    (h : Scanner.scan_identifier src st = some (r, st')) :
    st.line_index ≤ st'.line_index ∧
      ∀ t, r = .ok (some t) → t.token_type ≠ .Eof ∧ t.line = st'.line_index := by
  unfold Scanner.scan_identifier at h
  cases hd1 : Scanner.identLoop src (src.length + 1) st with
  | none =>
    rw [hd1] at h
    exact absurd h (by simp)
  | some st2 =>
    rw [hd1] at h
    have hl2 := identLoop_line src _ _ _ hd1
    simp only [Option.bind_eq_bind, Option.some_bind] at h
    split at h
    · rename_i cs hcs
      split at h
      · rename_i tt htt
        cases h
        refine ⟨by simp [hl2.1], ?_⟩
        intro t ht
        cases ht
        refine ⟨?_, rfl⟩
        simp only [Scanner.build_complex_token]
        revert htt
        unfold Scanner.KEYWORDS
        split <;> intro he <;> cases he <;> simp
      · cases h
        refine ⟨by simp [hl2.1], ?_⟩
        intro t ht
        cases ht
        exact ⟨by simp [Scanner.build_complex_token], rfl⟩
    · cases h

theorem advance_if_equal_line (src : List Char) (e : Char)
    (st : Scanner.St) :
    (Scanner.advance_if_equal src e st).2.line_index = st.line_index := by
  unfold Scanner.advance_if_equal
  split
  · split <;> rfl
  · rfl

theorem build_simple_token_props (src : List Char) (tt : TokenType)
    (st : Scanner.St) (t : Token)
    (h : Scanner.build_simple_token src tt st = some t) :
    t.token_type = tt ∧ t.line = st.line_index := by
  unfold Scanner.build_simple_token at h
  split at h
  · cases h
    exact ⟨rfl, rfl⟩
  · cases h

/-- `Scanner::scan_token` never decreases the line counter, never produces
an `Eof` token, and stamps every produced token with the line counter at
the end of the step. -/
theorem scan_token_line (src : List Char) (st0 : Scanner.St)
    (r : Except InternalRoxError (Option Token)) (st' : Scanner.St)
    (h : Scanner.scan_token src st0 = some (r, st')) :
    st0.line_index ≤ st'.line_index ∧
      ∀ t, r = .ok (some t) → t.token_type ≠ .Eof ∧ t.line = st'.line_index := by
  unfold Scanner.scan_token at h
  cases hadv : Scanner.advance src st0 with
  | none =>
    rw [hadv] at h
    exact absurd h (by simp)
  | some p =>
    obtain ⟨c, st1⟩ := p
    have hst1 := advance_some src st0 c st1 hadv
    rw [hadv] at h
    simp only [Option.bind_eq_bind, Option.some_bind] at h
    subst hst1
    split at h
    -- '('
    · rw [Option.bind_eq_some] at h
      obtain ⟨t0, hb, heq⟩ := h
      cases heq
      have hp := build_simple_token_props src _ _ _ hb
      refine ⟨by simp, ?_⟩
      intro t ht
      cases ht
      exact ⟨by simp [hp.1], by simp [hp.2]⟩
    -- ')'
    · rw [Option.bind_eq_some] at h
      obtain ⟨t0, hb, heq⟩ := h
      cases heq
      have hp := build_simple_token_props src _ _ _ hb
      refine ⟨by simp, ?_⟩
      intro t ht
      cases ht
      exact ⟨by simp [hp.1], by simp [hp.2]⟩
    -- '{'
    · rw [Option.bind_eq_some] at h
      obtain ⟨t0, hb, heq⟩ := h
      cases heq
      have hp := build_simple_token_props src _ _ _ hb
      refine ⟨by simp, ?_⟩
      intro t ht
      cases ht
      exact ⟨by simp [hp.1], by simp [hp.2]⟩
    -- '}'
    · rw [Option.bind_eq_some] at h
      obtain ⟨t0, hb, heq⟩ := h
      cases heq
      have hp := build_simple_token_props src _ _ _ hb
      refine ⟨by simp, ?_⟩
      intro t ht
      cases ht
      exact ⟨by simp [hp.1], by simp [hp.2]⟩
    -- ','
    · rw [Option.bind_eq_some] at h
      obtain ⟨t0, hb, heq⟩ := h
      cases heq
      have hp := build_simple_token_props src _ _ _ hb
      refine ⟨by simp, ?_⟩
      intro t ht
      cases ht
      exact ⟨by simp [hp.1], by simp [hp.2]⟩
    -- '.'
    · rw [Option.bind_eq_some] at h
      obtain ⟨t0, hb, heq⟩ := h
      cases heq
      have hp := build_simple_token_props src _ _ _ hb
      refine ⟨by simp, ?_⟩
      intro t ht
      cases ht
      exact ⟨by simp [hp.1], by simp [hp.2]⟩
    -- '-'
    · rw [Option.bind_eq_some] at h
      obtain ⟨t0, hb, heq⟩ := h
      cases heq
      have hp := build_simple_token_props src _ _ _ hb
      refine ⟨by simp, ?_⟩
      intro t ht
      cases ht
      exact ⟨by simp [hp.1], by simp [hp.2]⟩
    -- '+'
    · rw [Option.bind_eq_some] at h
      obtain ⟨t0, hb, heq⟩ := h
      cases heq
      have hp := build_simple_token_props src _ _ _ hb
      refine ⟨by simp, ?_⟩
      intro t ht
      cases ht
      exact ⟨by simp [hp.1], by simp [hp.2]⟩
    -- ';'
    · rw [Option.bind_eq_some] at h
      obtain ⟨t0, hb, heq⟩ := h
      cases heq
      have hp := build_simple_token_props src _ _ _ hb
      refine ⟨by simp, ?_⟩
      intro t ht
      cases ht
      exact ⟨by simp [hp.1], by simp [hp.2]⟩
    -- '*'
    · rw [Option.bind_eq_some] at h
      obtain ⟨t0, hb, heq⟩ := h
      cases heq
      have hp := build_simple_token_props src _ _ _ hb
      refine ⟨by simp, ?_⟩
      intro t ht
      cases ht
      exact ⟨by simp [hp.1], by simp [hp.2]⟩
    -- '!'
    · rcases hae : Scanner.advance_if_equal src '='
          { st0 with current_index := st0.current_index + 1 } with ⟨m, st2⟩
      rw [hae] at h
      have h2 : st2.line_index = st0.line_index := by
        have h3 := congrArg (fun p : Bool × Scanner.St => p.2.line_index) hae
        simp only [advance_if_equal_line] at h3
        exact h3.symm
      dsimp only at h
      split at h <;>
        (rw [Option.bind_eq_some] at h
         obtain ⟨t0, hb, heq⟩ := h
         cases heq
         have hp := build_simple_token_props src _ _ _ hb
         refine ⟨by simp [h2], ?_⟩
         intro t ht
         cases ht
         exact ⟨by simp [hp.1], by simp [hp.2]⟩)
    -- '='
    · rcases hae : Scanner.advance_if_equal src '='
          { st0 with current_index := st0.current_index + 1 } with ⟨m, st2⟩
      rw [hae] at h
      have h2 : st2.line_index = st0.line_index := by
        have h3 := congrArg (fun p : Bool × Scanner.St => p.2.line_index) hae
        simp only [advance_if_equal_line] at h3
        exact h3.symm
      dsimp only at h
      split at h <;>
        (rw [Option.bind_eq_some] at h
         obtain ⟨t0, hb, heq⟩ := h
         cases heq
         have hp := build_simple_token_props src _ _ _ hb
         refine ⟨by simp [h2], ?_⟩
         intro t ht
         cases ht
         exact ⟨by simp [hp.1], by simp [hp.2]⟩)
    -- '<'
    · rcases hae : Scanner.advance_if_equal src '='
          { st0 with current_index := st0.current_index + 1 } with ⟨m, st2⟩
      rw [hae] at h
      have h2 : st2.line_index = st0.line_index := by
        have h3 := congrArg (fun p : Bool × Scanner.St => p.2.line_index) hae
        simp only [advance_if_equal_line] at h3
        exact h3.symm
      dsimp only at h
      split at h <;>
        (rw [Option.bind_eq_some] at h
         obtain ⟨t0, hb, heq⟩ := h
         cases heq
         have hp := build_simple_token_props src _ _ _ hb
         refine ⟨by simp [h2], ?_⟩
         intro t ht
         cases ht
         exact ⟨by simp [hp.1], by simp [hp.2]⟩)
    -- '>'
    · rcases hae : Scanner.advance_if_equal src '='
          { st0 with current_index := st0.current_index + 1 } with ⟨m, st2⟩
      rw [hae] at h
      have h2 : st2.line_index = st0.line_index := by
        have h3 := congrArg (fun p : Bool × Scanner.St => p.2.line_index) hae
        simp only [advance_if_equal_line] at h3
        exact h3.symm
      dsimp only at h
      split at h <;>
        (rw [Option.bind_eq_some] at h
         obtain ⟨t0, hb, heq⟩ := h
         cases heq
         have hp := build_simple_token_props src _ _ _ hb
         refine ⟨by simp [h2], ?_⟩
         intro t ht
         cases ht
         exact ⟨by simp [hp.1], by simp [hp.2]⟩)
    -- '/'
    · rcases hae : Scanner.advance_if_equal src '/'
          { st0 with current_index := st0.current_index + 1 } with ⟨m, st2⟩
      rw [hae] at h
      have h2 : st2.line_index = st0.line_index := by
        have h3 := congrArg (fun p : Bool × Scanner.St => p.2.line_index) hae
        simp only [advance_if_equal_line] at h3
        exact h3.symm
      dsimp only at h
      split at h
      · cases hcl : Scanner.commentLoop src (src.length + 1) st2 with
        | none =>
          rw [hcl] at h
          exact absurd h (by simp)
        | some st3 =>
          rw [hcl] at h
          simp only [Option.bind_eq_bind, Option.some_bind] at h
          cases h
          have hl3 := commentLoop_line src _ _ _ hcl
          exact ⟨by simp [hl3, h2], by intro t ht; cases ht⟩
      · rw [Option.bind_eq_some] at h
        obtain ⟨t0, hb, heq⟩ := h
        cases heq
        have hp := build_simple_token_props src _ _ _ hb
        refine ⟨by simp [h2], ?_⟩
        intro t ht
        cases ht
        exact ⟨by simp [hp.1], by simp [hp.2]⟩
    -- '"'
    · have hs := scan_string_line src _ _ _ h
      exact ⟨by simpa using hs.1, hs.2⟩
    -- ' '
    · cases h
      exact ⟨by simp, by intro t ht; cases ht⟩
    -- carriage return
    · cases h
      exact ⟨by simp, by intro t ht; cases ht⟩
    -- tab
    · cases h
      exact ⟨by simp, by intro t ht; cases ht⟩
    -- newline
    · cases h
      refine ⟨?_, by intro t ht; cases ht⟩
      simp
    -- default: digit / alpha / error
    · split at h
      · have hs := scan_number_line src _ _ _ h
        exact ⟨by simpa using hs.1, hs.2⟩
      · split at h
        · have hs := scan_identifier_line src _ _ _ h
          exact ⟨by simpa using hs.1, hs.2⟩
        · cases h
          exact ⟨by simp, by intro t ht; cases ht⟩

/-- Invariant of the `scan_tokens` loop: the line counter never decreases,
accumulated tokens are `Eof`-free with lines bounded by the current line
counter, and their line sequence is monotone. -/
theorem scanLoop_tokens (src : List Char) : ∀ fuel st tokens errors st2
    tokens2 errors2,
    Scanner.scanLoop src fuel st tokens errors = some (st2, tokens2, errors2) →
    (∀ t ∈ tokens, t.token_type ≠ TokenType.Eof ∧ t.line ≤ st.line_index) →
    List.Chain' (fun a b : Token => a.line ≤ b.line) tokens →
    st.line_index ≤ st2.line_index ∧
      (∀ t ∈ tokens2, t.token_type ≠ TokenType.Eof ∧ t.line ≤ st2.line_index) ∧
      List.Chain' (fun a b : Token => a.line ≤ b.line) tokens2 := by
  intro fuel
  induction fuel with
  | zero =>
    intro st tokens errors st2 tokens2 errors2 h hall hch
    exact absurd h (by simp [Scanner.scanLoop])
  | succ f ih =>
    intro st tokens errors st2 tokens2 errors2 h hall hch
    rw [Scanner.scanLoop] at h
    split at h
    · split at h
      · exact absurd h (by simp)
      · rename_i r st3 heq
        have hst := scan_token_line src _ _ _ heq
        have hle : st.line_index ≤ st3.line_index := by simpa using hst.1
        cases r with
        | none =>
          have res := ih _ _ _ _ _ _ h
            (by
              intro t htmem
              simp only [Option.toList_none, List.append_nil] at htmem
              exact ⟨(hall t htmem).1, Nat.le_trans (hall t htmem).2 hle⟩)
            (by simpa using hch)
          exact ⟨Nat.le_trans hle res.1, res.2⟩
        | some tok =>
          have htok := hst.2 tok rfl
          have res := ih _ _ _ _ _ _ h
            (by
              intro t htmem
              simp only [Option.toList_some, List.mem_append,
                List.mem_singleton] at htmem
              rcases htmem with hmem | rfl
              · exact ⟨(hall t hmem).1, Nat.le_trans (hall t hmem).2 hle⟩
              · exact ⟨htok.1, Nat.le_of_eq htok.2⟩)
            (by
              rw [Option.toList_some, List.chain'_append]
              refine ⟨hch, List.chain'_singleton _, ?_⟩
              intro x hx y hy
              simp only [List.head?_cons, Option.mem_def, Option.some.injEq]
                at hy
              subst hy
              have hxl := List.mem_getLast?_eq_getLast hx
              obtain ⟨hne, rfl⟩ := hxl
              have hxm := List.getLast_mem hne
              rw [htok.2]
              exact Nat.le_trans (hall _ hxm).2 hle)
          exact ⟨Nat.le_trans hle res.1, res.2⟩
      · rename_i e st3 heq
        have hst := scan_token_line src _ _ _ heq
        have hle : st.line_index ≤ st3.line_index := by simpa using hst.1
        have res := ih _ _ _ _ _ _ h
          (by
            intro t htmem
            exact ⟨(hall t htmem).1, Nat.le_trans (hall t htmem).2 hle⟩)
          hch
        exact ⟨Nat.le_trans hle res.1, res.2⟩
    · have h3 : st = st2 ∧ tokens = tokens2 ∧ errors = errors2 := by
        simpa using h
      obtain ⟨rfl, rfl, rfl⟩ := h3
      exact ⟨Nat.le_refl _, hall, hch⟩

/-- C7, confirmed: a successful scan ends with exactly one synthetic `Eof`
token (no other token is an `Eof`), the `Eof` token's line number is
exactly `line_index` of the scanner's final state — the line counter the
main loop left behind, which `scan_tokens` stamps onto the token it
appends — every other token's line is bounded by it, and the token lines
are monotonically non-decreasing across the sequence. -/
theorem claim_C7_eof_and_monotone_lines (src : List Char) (ts : List Token)
    (h : Scanner.scan_tokens src = some (.ok ts)) :
    ∃ (st2 : Scanner.St) (front : List Token)
      (errs : List InternalRoxError),
      Scanner.scanLoop src (Scanner.byteLen src + 1) ⟨0, 0, 0⟩ [] [] =
        some (st2, front, errs) ∧
      ts = front ++ [⟨TokenType.Eof, "", st2.line_index⟩] ∧
      (∀ t ∈ front, t.token_type ≠ TokenType.Eof ∧
        t.line ≤ st2.line_index) ∧
      List.Chain' (fun a b : Token => a.line ≤ b.line) ts := by
  unfold Scanner.scan_tokens at h
  cases hl : Scanner.scanLoop src (Scanner.byteLen src + 1) ⟨0, 0, 0⟩ [] [] with
  | none =>
    rw [hl] at h
    exact absurd h (by simp)
  | some v =>
    obtain ⟨st, toks, errs⟩ := v
    rw [hl] at h
    by_cases he : errs.isEmpty
    · simp only [he, if_true] at h
      have h2 : toks ++ [(⟨TokenType.Eof, "", st.line_index⟩ : Token)] = ts := by
        simpa using h
      have res := scanLoop_tokens src _ _ _ _ _ _ _ hl
        (by intro t htmem; cases htmem) List.chain'_nil
      refine ⟨st, toks, errs, rfl, h2.symm, ?_, ?_⟩
      · intro t hmem
        exact ⟨(res.2.1 t hmem).1, (res.2.1 t hmem).2⟩
      · rw [← h2, List.chain'_append]
        refine ⟨res.2.2, List.chain'_singleton _, ?_⟩
        intro x hx y hy
        simp only [List.head?_cons, Option.mem_def, Option.some.injEq] at hy
        subst hy
        have hxl := List.mem_getLast?_eq_getLast hx
        obtain ⟨hne, rfl⟩ := hxl
        exact (res.2.1 _ (List.getLast_mem hne)).2
    · simp [he] at h

/-- Witness for C7 at the two-line source `"(\n)"`, by instantiating
`claim_C7_eof_and_monotone_lines` at its concrete scan: the `Eof` token's
line `1` is the final state's line counter. -/
theorem claim_C7_witness :
    ∃ (st2 : Scanner.St) (front : List Token)
      (errs : List InternalRoxError),
      Scanner.scanLoop "(\n)".toList
          (Scanner.byteLen "(\n)".toList + 1) ⟨0, 0, 0⟩ [] [] =
        some (st2, front, errs) ∧
      ([⟨TokenType.LeftParen, "(", 0⟩, ⟨TokenType.RightParen, ")", 1⟩,
        ⟨TokenType.Eof, "", 1⟩] : List Token) =
          front ++ [⟨TokenType.Eof, "", st2.line_index⟩] ∧
      (∀ t ∈ front, t.token_type ≠ TokenType.Eof ∧
        t.line ≤ st2.line_index) ∧
      List.Chain' (fun a b : Token => a.line ≤ b.line)
        [⟨TokenType.LeftParen, "(", 0⟩, ⟨TokenType.RightParen, ")", 1⟩,
         ⟨TokenType.Eof, "", 1⟩] :=
  claim_C7_eof_and_monotone_lines "(\n)".toList
    [⟨TokenType.LeftParen, "(", 0⟩, ⟨TokenType.RightParen, ")", 1⟩,
     ⟨TokenType.Eof, "", 1⟩] (by rfl)

theorem ascii_utf8Size (c : Char) (h : c.toNat < 128) : c.utf8Size = 1 := by
  unfold Char.utf8Size
  have h2 : c.val ≤ UInt32.ofNatCore 0x7F (by decide) := by
    show c.val.toNat ≤ _
    exact Nat.lt_succ_iff.mp h
  rw [if_pos h2]

theorem byteLen_ascii (src : List Char) (h : ∀ c ∈ src, c.toNat < 128) :
    Scanner.byteLen src = src.length := by
  induction src with
  | nil => rfl
  | cons c cs ih =>
    rw [Scanner.byteLen, ascii_utf8Size c (h c (by simp)),
      ih (fun x hx => h x (by simp [hx]))]
    simp [Nat.add_comm]

theorem byteDrop_ascii (src : List Char) (h : ∀ c ∈ src, c.toNat < 128) :
    ∀ a, a ≤ src.length → Scanner.byteDrop src a = some (src.drop a) := by
  induction src with
  | nil =>
    intro a ha
    have ha0 : a = 0 := by simpa using ha
    subst ha0
    rfl
  | cons c cs ih =>
    intro a ha
    cases a with
    | zero => rfl
    | succ a =>
      rw [Scanner.byteDrop, ascii_utf8Size c (h c (by simp)),
        if_pos (by omega)]
      have := ih (fun x hx => h x (by simp [hx])) a (by simpa using ha)
      simpa using this

theorem byteTake_ascii (src : List Char) (h : ∀ c ∈ src, c.toNat < 128) :
    ∀ a, a ≤ src.length → Scanner.byteTake src a = some (src.take a) := by
  induction src with
  | nil =>
    intro a ha
    have ha0 : a = 0 := by simpa using ha
    subst ha0
    rfl
  | cons c cs ih =>
    intro a ha
    cases a with
    | zero => rfl
    | succ a =>
      rw [Scanner.byteTake, ascii_utf8Size c (h c (by simp)),
        if_pos (by omega)]
      have h2 := ih (fun x hx => h x (by simp [hx])) a (by simpa using ha)
      simp only [Nat.add_sub_cancel] at h2 ⊢
      rw [h2]
      rfl

theorem byteSlice_ascii (src : List Char) (h : ∀ c ∈ src, c.toNat < 128)
    (a b : Nat) (hab : a ≤ b) (hb : b ≤ src.length) :
    ∃ cs, Scanner.byteSlice src a b = some cs := by
  unfold Scanner.byteSlice
  rw [if_pos hab, byteDrop_ascii src h a (Nat.le_trans hab hb)]
  refine ⟨(src.drop a).take (b - a), ?_⟩
  show Scanner.byteTake (src.drop a) (b - a) = _
  exact byteTake_ascii (src.drop a)
    (fun x hx => h x (List.mem_of_mem_drop hx)) (b - a) (by simp; omega)

theorem build_simple_token_ascii (src : List Char)
    (h : ∀ c ∈ src, c.toNat < 128) (tt : TokenType) (st : Scanner.St)
    (h1 : st.start_index ≤ st.current_index)
    (h2 : st.current_index ≤ src.length) :
    ∃ t, Scanner.build_simple_token src tt st = some t := by
  obtain ⟨cs, hcs⟩ := byteSlice_ascii src h _ _ h1 h2
  exact ⟨_, by rw [Scanner.build_simple_token, hcs]⟩

theorem advance_total (src : List Char) (st : Scanner.St)
    (h : st.current_index < src.length) :
    ∃ c, Scanner.advance src st =
      some (c, { st with current_index := st.current_index + 1 }) := by
  unfold Scanner.advance
  cases hg : src.get? (st.current_index + 1 - 1) with
  | none =>
    rw [List.get?_eq_none] at hg
    omega
  | some c => exact ⟨c, rfl⟩

theorem get?_some_lt (src : List Char) (n : Nat) (c : Char)
    (h : src.get? n = some c) : n < src.length := by
  by_contra hn
  rw [List.get?_eq_none.mpr (by omega)] at h
  cases h

theorem advance_if_equal_bounds (src : List Char) (e : Char)
    (st : Scanner.St) (h : st.current_index ≤ src.length) :
    st.current_index ≤ (Scanner.advance_if_equal src e st).2.current_index ∧
      (Scanner.advance_if_equal src e st).2.current_index ≤ src.length := by
  unfold Scanner.advance_if_equal
  split
  · rename_i c hc
    have := get?_some_lt src _ _ hc
    split
    · exact ⟨by simp, by simp; omega⟩
    · exact ⟨Nat.le_refl _, h⟩
  · exact ⟨Nat.le_refl _, h⟩

theorem commentLoop_total (src : List Char) : ∀ fuel st,
    st.current_index ≤ src.length → src.length - st.current_index < fuel →
    ∃ st', Scanner.commentLoop src fuel st = some st' ∧
      st.current_index ≤ st'.current_index ∧
      st'.current_index ≤ src.length := by
  intro fuel
  induction fuel with
  | zero =>
    intro st h1 h2
    omega
  | succ f ih =>
    intro st h1 h2
    rw [Scanner.commentLoop]
    cases hg : Scanner.peek src st with
    | none => exact ⟨st, rfl, Nat.le_refl _, h1⟩
    | some c =>
      have hlt := get?_some_lt src _ _ hg
      dsimp only
      by_cases hc : c = '\n'
      · rw [if_pos hc]
        exact ⟨st, rfl, Nat.le_refl _, h1⟩
      · rw [if_neg hc]
        obtain ⟨st', hst', hm, hb⟩ := ih
          ⟨st.start_index, st.current_index + 1, st.line_index⟩
          (by simpa using hlt) (by simp; omega)
        exact ⟨st', hst', by simp at hm; omega, hb⟩

theorem stringLoop_total (src : List Char) : ∀ fuel st,
    st.current_index ≤ src.length → src.length - st.current_index < fuel →
    ∃ st', Scanner.stringLoop src fuel st = some st' ∧
      st.current_index ≤ st'.current_index ∧
      st'.current_index ≤ src.length := by
  intro fuel
  induction fuel with
  | zero =>
    intro st h1 h2
    omega
  | succ f ih =>
    intro st h1 h2
    rw [Scanner.stringLoop]
    cases hg : Scanner.peek src st with
    | none => exact ⟨st, rfl, Nat.le_refl _, h1⟩
    | some c =>
      have hlt := get?_some_lt src _ _ hg
      dsimp only
      by_cases hc : c = '"'
      · rw [if_pos hc]
        exact ⟨st, rfl, Nat.le_refl _, h1⟩
      · rw [if_neg hc]
        by_cases hn : c = '\n'
        · simp only [hn, if_pos rfl]
          obtain ⟨st', hst', hm, hb⟩ := ih
            ⟨st.start_index, st.current_index + 1, st.line_index + 1⟩
            (by simpa using hlt) (by simp; omega)
          exact ⟨st', hst', by simp at hm; omega, hb⟩
        · rw [if_neg hn]
          obtain ⟨st', hst', hm, hb⟩ := ih
            ⟨st.start_index, st.current_index + 1, st.line_index⟩
            (by simpa using hlt) (by simp; omega)
          exact ⟨st', hst', by simp at hm; omega, hb⟩

theorem digitsLoop_total (src : List Char) : ∀ fuel st,
    st.current_index ≤ src.length → src.length - st.current_index < fuel →
    ∃ st', Scanner.digitsLoop src fuel st = some st' ∧
      st.current_index ≤ st'.current_index ∧
      st'.current_index ≤ src.length := by
  intro fuel
  induction fuel with
  | zero =>
    intro st h1 h2
    omega
  | succ f ih =>
    intro st h1 h2
    rw [Scanner.digitsLoop]
    by_cases hd : Scanner.is_digit (Scanner.peek src st) = true
    · rw [if_pos hd]
      have hlt : st.current_index < src.length := by
        cases hg : Scanner.peek src st with
        | none => rw [hg] at hd; cases hd
        | some c => exact get?_some_lt src _ _ hg
      obtain ⟨st', hst', hm, hb⟩ := ih
        ⟨st.start_index, st.current_index + 1, st.line_index⟩
        (by simpa using hlt) (by simp; omega)
      exact ⟨st', hst', by simp at hm; omega, hb⟩
    · rw [if_neg hd]
      exact ⟨st, rfl, Nat.le_refl _, h1⟩

theorem identLoop_total (src : List Char) : ∀ fuel st,
    st.current_index ≤ src.length → src.length - st.current_index < fuel →
    ∃ st', Scanner.identLoop src fuel st = some st' ∧
      st.current_index ≤ st'.current_index ∧
      st'.current_index ≤ src.length := by
  intro fuel
  induction fuel with
  | zero =>
    intro st h1 h2
    omega
  | succ f ih =>
    intro st h1 h2
    rw [Scanner.identLoop]
    by_cases hd : Scanner.is_alphanumeric (Scanner.peek src st) = true
    · rw [if_pos hd]
      have hlt : st.current_index < src.length := by
        cases hg : Scanner.peek src st with
        | none =>
          rw [hg] at hd
          cases hd
        | some c => exact get?_some_lt src _ _ hg
      obtain ⟨st', hst', hm, hb⟩ := ih
        ⟨st.start_index, st.current_index + 1, st.line_index⟩
        (by simpa using hlt) (by simp; omega)
      exact ⟨st', hst', by simp at hm; omega, hb⟩
    · rw [if_neg hd]
      exact ⟨st, rfl, Nat.le_refl _, h1⟩

theorem scan_string_total (src : List Char) (h : ∀ c ∈ src, c.toNat < 128)
    (st : Scanner.St) (hstart : st.start_index + 1 = st.current_index)
    (hcur : st.current_index ≤ src.length) :
    ∃ r st', Scanner.scan_string src st = some (r, st') ∧
      st.current_index ≤ st'.current_index ∧
      st'.current_index ≤ src.length := by
  unfold Scanner.scan_string
  obtain ⟨st2, hst2, hm, hb⟩ :=
    stringLoop_total src (src.length + 1) st hcur (by omega)
  have hsp := stringLoop_line src (src.length + 1) st st2 hst2
  rw [hst2]
  simp only [Option.bind_eq_bind, Option.some_bind]
  cases hg : Scanner.peek src st2 with
  | none => exact ⟨_, _, rfl, hm, hb⟩
  | some c =>
    have hlt := get?_some_lt src _ _ hg
    dsimp only
    obtain ⟨cs, hcs⟩ := byteSlice_ascii src h (st2.start_index + 1)
      (st2.current_index + 1 - 1) (by rw [hsp.2]; omega) (by omega)
    rw [hcs]
    exact ⟨_, _, rfl, by simp; omega, by simp; omega⟩

theorem scan_number_total (src : List Char) (h : ∀ c ∈ src, c.toNat < 128)
    (st : Scanner.St) (hstart : st.start_index + 1 = st.current_index)
    (hcur : st.current_index ≤ src.length) :
    ∃ r st', Scanner.scan_number src st = some (r, st') ∧
      st.current_index ≤ st'.current_index ∧
      st'.current_index ≤ src.length := by
  unfold Scanner.scan_number
  obtain ⟨st2, hst2, hm, hb⟩ :=
    digitsLoop_total src (src.length + 1) st hcur (by omega)
  have hsp := digitsLoop_line src (src.length + 1) st st2 hst2
  rw [hst2]
  simp only [Option.bind_eq_bind, Option.some_bind]
  by_cases hdot : (Scanner.peek src st2 == some '.' &&
      Scanner.is_digit (Scanner.peek_next src st2)) = true
  · rw [if_pos hdot]
    have hdot1 : Scanner.peek src st2 = some '.' := by
      have := (Bool.and_eq_true _ _).mp hdot
      exact eq_of_beq this.1
    have hlt2 := get?_some_lt src _ _ hdot1
    obtain ⟨st3, hst3, hm3, hb3⟩ := digitsLoop_total src (src.length + 1)
      ⟨st2.start_index, st2.current_index + 1, st2.line_index⟩
      (by simpa using hlt2) (by simp; omega)
    have hsp3 := digitsLoop_line src (src.length + 1) _ st3 hst3
    have hm3b : st2.current_index + 1 ≤ st3.current_index := by simpa using hm3
    have hsp3b : st3.start_index = st2.start_index := by simpa using hsp3.2
    rw [hst3]
    simp only [Option.bind_eq_bind, Option.some_bind]
    obtain ⟨cs, hcs⟩ := byteSlice_ascii src h st3.start_index
      st3.current_index (by rw [hsp3b, hsp.2]; omega) (by omega)
    rw [hcs]
    exact ⟨_, _, rfl, by omega, by omega⟩
  · rw [if_neg hdot]
    obtain ⟨cs, hcs⟩ := byteSlice_ascii src h st2.start_index
      st2.current_index (by rw [hsp.2]; omega) (by omega)
    rw [hcs]
    exact ⟨_, _, rfl, by omega, by omega⟩

theorem scan_identifier_total (src : List Char)
    (h : ∀ c ∈ src, c.toNat < 128) (st : Scanner.St)
    (hstart : st.start_index + 1 = st.current_index)
    (hcur : st.current_index ≤ src.length) :
    ∃ r st', Scanner.scan_identifier src st = some (r, st') ∧
      st.current_index ≤ st'.current_index ∧
      st'.current_index ≤ src.length := by
  unfold Scanner.scan_identifier
  obtain ⟨st2, hst2, hm, hb⟩ :=
    identLoop_total src (src.length + 1) st hcur (by omega)
  have hsp := identLoop_line src (src.length + 1) st st2 hst2
  rw [hst2]
  simp only [Option.bind_eq_bind, Option.some_bind]
  obtain ⟨cs, hcs⟩ := byteSlice_ascii src h st2.start_index
    st2.current_index (by rw [hsp.2]; omega) (by omega)
  rw [hcs]
  dsimp only
  cases hk : Scanner.KEYWORDS ⟨cs⟩ with
  | none => exact ⟨_, _, rfl, hm, hb⟩
  | some tt => exact ⟨_, _, rfl, hm, hb⟩

/-- On ASCII input, one `scan_token` step always produces a result (no
panic), strictly advances the cursor, and keeps it within the buffer. -/
theorem scan_token_total (src : List Char) (h : ∀ c ∈ src, c.toNat < 128)
    (st0 : Scanner.St) (hse : st0.start_index = st0.current_index)
    (hlt : st0.current_index < src.length) :
    ∃ r st', Scanner.scan_token src st0 = some (r, st') ∧
      st0.current_index < st'.current_index ∧
      st'.current_index ≤ src.length := by
  unfold Scanner.scan_token
  obtain ⟨c, hadv⟩ := advance_total src st0 hlt
  rw [hadv]
  simp only [Option.bind_eq_bind, Option.some_bind]
  split
  -- simple one-character tokens: ( ) { } , . - + ; *
  case _ =>
    obtain ⟨t, ht⟩ := build_simple_token_ascii src h TokenType.LeftParen
      { st0 with current_index := st0.current_index + 1 }
      (by simp; omega) (by simp; omega)
    rw [ht]
    exact ⟨_, _, rfl, by simp, by simp; omega⟩
  case _ =>
    obtain ⟨t, ht⟩ := build_simple_token_ascii src h TokenType.RightParen
      { st0 with current_index := st0.current_index + 1 }
      (by simp; omega) (by simp; omega)
    rw [ht]
    exact ⟨_, _, rfl, by simp, by simp; omega⟩
  case _ =>
    obtain ⟨t, ht⟩ := build_simple_token_ascii src h TokenType.LeftBrace
      { st0 with current_index := st0.current_index + 1 }
      (by simp; omega) (by simp; omega)
    rw [ht]
    exact ⟨_, _, rfl, by simp, by simp; omega⟩
  case _ =>
    obtain ⟨t, ht⟩ := build_simple_token_ascii src h TokenType.RightBrace
      { st0 with current_index := st0.current_index + 1 }
      (by simp; omega) (by simp; omega)
    rw [ht]
    exact ⟨_, _, rfl, by simp, by simp; omega⟩
  case _ =>
    obtain ⟨t, ht⟩ := build_simple_token_ascii src h TokenType.Comma
      { st0 with current_index := st0.current_index + 1 }
      (by simp; omega) (by simp; omega)
    rw [ht]
    exact ⟨_, _, rfl, by simp, by simp; omega⟩
  case _ =>
    obtain ⟨t, ht⟩ := build_simple_token_ascii src h TokenType.Dot
      { st0 with current_index := st0.current_index + 1 }
      (by simp; omega) (by simp; omega)
    rw [ht]
    exact ⟨_, _, rfl, by simp, by simp; omega⟩
  case _ =>
    obtain ⟨t, ht⟩ := build_simple_token_ascii src h TokenType.Minus
      { st0 with current_index := st0.current_index + 1 }
      (by simp; omega) (by simp; omega)
    rw [ht]
    exact ⟨_, _, rfl, by simp, by simp; omega⟩
  case _ =>
    obtain ⟨t, ht⟩ := build_simple_token_ascii src h TokenType.Plus
      { st0 with current_index := st0.current_index + 1 }
      (by simp; omega) (by simp; omega)
    rw [ht]
    exact ⟨_, _, rfl, by simp, by simp; omega⟩
  case _ =>
    obtain ⟨t, ht⟩ := build_simple_token_ascii src h TokenType.Semicolon
      { st0 with current_index := st0.current_index + 1 }
      (by simp; omega) (by simp; omega)
    rw [ht]
    exact ⟨_, _, rfl, by simp, by simp; omega⟩
  case _ =>
    obtain ⟨t, ht⟩ := build_simple_token_ascii src h TokenType.Star
      { st0 with current_index := st0.current_index + 1 }
      (by simp; omega) (by simp; omega)
    rw [ht]
    exact ⟨_, _, rfl, by simp, by simp; omega⟩
  -- '!'
  case _ =>
    rcases hae : Scanner.advance_if_equal src '='
        { st0 with current_index := st0.current_index + 1 } with ⟨m, st2⟩
    have hb2 := advance_if_equal_bounds src '='
      { st0 with current_index := st0.current_index + 1 } (by simp; omega)
    rw [hae] at hb2
    have hs2 := advance_if_equal_state src '='
      { st0 with current_index := st0.current_index + 1 }
    rw [hae] at hs2
    have hb2a : st0.current_index + 1 ≤ st2.current_index := by
      simpa using hb2.1
    have hb2b : st2.current_index ≤ src.length := by simpa using hb2.2
    have hs2b : st2.start_index = st0.start_index := by simpa using hs2.2
    dsimp only
    obtain ⟨t, ht⟩ := build_simple_token_ascii src h
      (if m = true then TokenType.BangEqual else TokenType.Bang) st2
      (by rw [hs2b]; omega) hb2b
    rw [ht]
    exact ⟨_, _, rfl, by omega, hb2b⟩
  -- '='
  case _ =>
    rcases hae : Scanner.advance_if_equal src '='
        { st0 with current_index := st0.current_index + 1 } with ⟨m, st2⟩
    have hb2 := advance_if_equal_bounds src '='
      { st0 with current_index := st0.current_index + 1 } (by simp; omega)
    rw [hae] at hb2
    have hs2 := advance_if_equal_state src '='
      { st0 with current_index := st0.current_index + 1 }
    rw [hae] at hs2
    have hb2a : st0.current_index + 1 ≤ st2.current_index := by
      simpa using hb2.1
    have hb2b : st2.current_index ≤ src.length := by simpa using hb2.2
    have hs2b : st2.start_index = st0.start_index := by simpa using hs2.2
    dsimp only
    obtain ⟨t, ht⟩ := build_simple_token_ascii src h
      (if m = true then TokenType.EqualEqual else TokenType.Equal) st2
      (by rw [hs2b]; omega) hb2b
    rw [ht]
    exact ⟨_, _, rfl, by omega, hb2b⟩
  -- '<'
  case _ =>
    rcases hae : Scanner.advance_if_equal src '='
        { st0 with current_index := st0.current_index + 1 } with ⟨m, st2⟩
    have hb2 := advance_if_equal_bounds src '='
      { st0 with current_index := st0.current_index + 1 } (by simp; omega)
    rw [hae] at hb2
    have hs2 := advance_if_equal_state src '='
      { st0 with current_index := st0.current_index + 1 }
    rw [hae] at hs2
    have hb2a : st0.current_index + 1 ≤ st2.current_index := by
      simpa using hb2.1
    have hb2b : st2.current_index ≤ src.length := by simpa using hb2.2
    have hs2b : st2.start_index = st0.start_index := by simpa using hs2.2
    dsimp only
    obtain ⟨t, ht⟩ := build_simple_token_ascii src h
      (if m = true then TokenType.LessEqual else TokenType.Less) st2
      (by rw [hs2b]; omega) hb2b
    rw [ht]
    exact ⟨_, _, rfl, by omega, hb2b⟩
  -- '>'
  case _ =>
    rcases hae : Scanner.advance_if_equal src '='
        { st0 with current_index := st0.current_index + 1 } with ⟨m, st2⟩
    have hb2 := advance_if_equal_bounds src '='
      { st0 with current_index := st0.current_index + 1 } (by simp; omega)
    rw [hae] at hb2
    have hs2 := advance_if_equal_state src '='
      { st0 with current_index := st0.current_index + 1 }
    rw [hae] at hs2
    have hb2a : st0.current_index + 1 ≤ st2.current_index := by
      simpa using hb2.1
    have hb2b : st2.current_index ≤ src.length := by simpa using hb2.2
    have hs2b : st2.start_index = st0.start_index := by simpa using hs2.2
    dsimp only
    obtain ⟨t, ht⟩ := build_simple_token_ascii src h
      (if m = true then TokenType.GreateEqual else TokenType.Greater) st2
      (by rw [hs2b]; omega) hb2b
    rw [ht]
    exact ⟨_, _, rfl, by omega, hb2b⟩
  -- '/'
  case _ =>
    rcases hae : Scanner.advance_if_equal src '/'
        { st0 with current_index := st0.current_index + 1 } with ⟨m, st2⟩
    have hb2 := advance_if_equal_bounds src '/'
      { st0 with current_index := st0.current_index + 1 } (by simp; omega)
    rw [hae] at hb2
    have hs2 := advance_if_equal_state src '/'
      { st0 with current_index := st0.current_index + 1 }
    rw [hae] at hs2
    have hb2a : st0.current_index + 1 ≤ st2.current_index := by
      simpa using hb2.1
    have hb2b : st2.current_index ≤ src.length := by simpa using hb2.2
    have hs2b : st2.start_index = st0.start_index := by simpa using hs2.2
    dsimp only
    split
    · obtain ⟨st3, hst3, hm3, hb3⟩ :=
        commentLoop_total src (src.length + 1) st2 hb2b (by omega)
      rw [hst3]
      simp only [Option.bind_eq_bind, Option.some_bind]
      exact ⟨_, _, rfl, by omega, hb3⟩
    · obtain ⟨t, ht⟩ := build_simple_token_ascii src h TokenType.Slash st2
        (by rw [hs2b]; omega) hb2b
      rw [ht]
      exact ⟨_, _, rfl, by omega, hb2b⟩
  -- '"'
  case _ =>
    obtain ⟨r, st', hs, hm, hb⟩ := scan_string_total src h
      { st0 with current_index := st0.current_index + 1 }
      (by simp; omega) (by simp; omega)
    rw [hs]
    exact ⟨_, _, rfl, by simp at hm; omega, hb⟩
  -- whitespace and newline
  case _ => exact ⟨_, _, rfl, by simp, by simp; omega⟩
  case _ => exact ⟨_, _, rfl, by simp, by simp; omega⟩
  case _ => exact ⟨_, _, rfl, by simp, by simp; omega⟩
  case _ => exact ⟨_, _, rfl, by simp, by simp; omega⟩
  -- default: digit, identifier or lexical error
  case _ =>
    split
    · obtain ⟨r, st', hs, hm, hb⟩ := scan_number_total src h
        { st0 with current_index := st0.current_index + 1 }
        (by simp; omega) (by simp; omega)
      rw [hs]
      exact ⟨_, _, rfl, by simp at hm; omega, hb⟩
    · split
      · obtain ⟨r, st', hs, hm, hb⟩ := scan_identifier_total src h
          { st0 with current_index := st0.current_index + 1 }
          (by simp; omega) (by simp; omega)
        rw [hs]
        exact ⟨_, _, rfl, by simp at hm; omega, hb⟩
      · exact ⟨_, _, rfl, by simp, by simp; omega⟩

theorem scanLoop_total (src : List Char) (h : ∀ c ∈ src, c.toNat < 128) :
    ∀ fuel st tokens errors,
    st.current_index ≤ src.length → src.length - st.current_index < fuel →
    ∃ out, Scanner.scanLoop src fuel st tokens errors = some out := by
  intro fuel
  induction fuel with
  | zero =>
    intro st tokens errors h1 h2
    omega
  | succ f ih =>
    intro st tokens errors h1 h2
    rw [Scanner.scanLoop]
    by_cases hc : st.current_index < Scanner.byteLen src
    · rw [if_pos hc]
      have hlt : st.current_index < src.length := by
        rwa [byteLen_ascii src h] at hc
      obtain ⟨r, st', hst, hinc, hb⟩ := scan_token_total src h
        { st with start_index := st.current_index } (by simp) (by simpa using hlt)
      rw [hst]
      simp only at hinc
      cases r with
      | ok ro =>
        dsimp only
        exact ih st' _ _ hb (by omega)
      | error e =>
        dsimp only
        exact ih st' _ _ hb (by omega)
    · rw [if_neg hc]
      exact ⟨_, rfl⟩

/-- C9, confirmed for the embedding: on an all-ASCII source buffer the
scanner terminates without a fault (`scan_tokens` yields a result, which
by its type is either a token list or a lexical-error list); `none`, the
embedding's image of a Rust panic or of fuel exhaustion, does not occur. -/
theorem claim_C9_scanner_total_on_ascii (src : List Char)
    (h : ∀ c ∈ src, c.toNat < 128) :
    ∃ r, Scanner.scan_tokens src = some r := by
  unfold Scanner.scan_tokens
  obtain ⟨out, hout⟩ := scanLoop_total src h (Scanner.byteLen src + 1)
    ⟨0, 0, 0⟩ [] [] (by simp) (by rw [byteLen_ascii src h]; omega)
  rw [hout]
  obtain ⟨st, toks, errs⟩ := out
  dsimp only
  by_cases he : errs.isEmpty = true
  · rw [if_pos he]
    exact ⟨_, rfl⟩
  · rw [if_neg he]
    exact ⟨_, rfl⟩

/-- Witness for C9 at the ASCII buffer `"var x;"`, by instantiating
`claim_C9_scanner_total_on_ascii`. -/
theorem claim_C9_witness :
    ∃ r, Scanner.scan_tokens "var x;".toList = some r :=
  claim_C9_scanner_total_on_ascii "var x;".toList (by decide)

/-- Reduction of an `Except` bind whose first argument is `ok`. -/
theorem ebind_ok {ε α β : Type} (a : α) (f : α → Except ε β) :
    (Bind.bind (Except.ok a) f : Except ε β) = f a := rfl

/-- Reduction of an `Except` bind whose first argument is `error`. -/
theorem ebind_err {ε α β : Type} (e : ε) (f : α → Except ε β) :
    (Bind.bind (Except.error e : Except ε α) f : Except ε β) = Except.error e := rfl

/-- Inversion: a successful `Except` bind factors through a successful
first component. -/
theorem bind_eq_ok {ε α β : Type} {x : Except ε α} {f : α → Except ε β} {b : β}
    (h : Bind.bind x f = Except.ok b) :
    ∃ a, x = Except.ok a ∧ f a = Except.ok b := by
  cases x with
  | error e => rw [ebind_err] at h; exact Except.noConfusion h
  | ok a => rw [ebind_ok] at h; exact ⟨a, rfl, h⟩

/-- Inversion: a failing `Except` bind fails in its first or its second
component. -/
theorem bind_eq_err {ε α β : Type} {x : Except ε α} {f : α → Except ε β} {e : ε}
    (h : Bind.bind x f = Except.error e) :
    x = Except.error e ∨ ∃ a, x = Except.ok a ∧ f a = Except.error e := by
  cases x with
  | error e0 =>
    rw [ebind_err] at h
    simp only [Except.error.injEq] at h
    exact Or.inl (by rw [h])
  | ok a => rw [ebind_ok] at h; exact Or.inr ⟨a, rfl, h⟩

/-- `peek` only fails with a panic, never with fuel exhaustion. -/
theorem peek_err_panic {st : Parser.PState} {e : Parser.PFault}
    (h : Parser.peek st = .error e) : e = .panic := by
  unfold Parser.peek at h
  split at h
  · exact Except.noConfusion h
  · cases h; rfl

/-- A successful `peek` reads inside the token list. -/
theorem peek_ok_lt {st : Parser.PState} {t : Token}
    (h : Parser.peek st = .ok t) :
    st.current_index < st.tokens.length := by
  unfold Parser.peek at h
  split at h
  · rename_i hg
    by_contra hn
    rw [List.get?_eq_none.mpr (by omega)] at hg
    exact Option.noConfusion hg
  · exact Except.noConfusion h

/-- `previous` only fails with a panic, never with fuel exhaustion. -/
theorem previous_err_panic {st : Parser.PState} {e : Parser.PFault}
    (h : Parser.previous st = .error e) : e = .panic := by
  unfold Parser.previous at h
  split at h
  · cases h; rfl
  · split at h
    · exact Except.noConfusion h
    · cases h; rfl

/-- Inversion of a successful `advance`: the cursor stays on an `Eof`
token and otherwise moves one step right, with the token list unchanged. -/
theorem advance_eq_ok {st : Parser.PState} {p : Token} {st' : Parser.PState}
    (h : Parser.advance st = .ok (p, st')) :
    ∃ t, Parser.peek st = .ok t ∧
      ((t.token_type = .Eof ∧ st' = st) ∨
       (t.token_type ≠ .Eof ∧ st'.tokens = st.tokens ∧
         st'.current_index = st.current_index + 1)) := by
  unfold Parser.advance at h
  obtain ⟨t, hp, h⟩ := bind_eq_ok h
  dsimp only at h
  refine ⟨t, hp, ?_⟩
  by_cases he : t.token_type = .Eof
  · rw [if_pos he] at h
    obtain ⟨q, _, h⟩ := bind_eq_ok h
    have h2 : (Except.ok (q, st) : Except Parser.PFault (Token × Parser.PState)) =
        .ok (p, st') := h
    simp only [Except.ok.injEq, Prod.mk.injEq] at h2
    exact Or.inl ⟨he, h2.2.symm⟩
  · rw [if_neg he] at h
    obtain ⟨q, _, h⟩ := bind_eq_ok h
    have h2 : (Except.ok (q, ⟨st.tokens, st.current_index + 1⟩) :
        Except Parser.PFault (Token × Parser.PState)) = .ok (p, st') := h
    simp only [Except.ok.injEq, Prod.mk.injEq] at h2
    exact Or.inr ⟨he, by rw [← h2.2]; exact ⟨rfl, rfl⟩⟩

/-- `advance` only fails with a panic, never with fuel exhaustion. -/
theorem advance_err_panic {st : Parser.PState} {e : Parser.PFault}
    (h : Parser.advance st = .error e) : e = .panic := by
  unfold Parser.advance at h
  rcases bind_eq_err h with h1 | ⟨t, hp, h1⟩
  · exact peek_err_panic h1
  · dsimp only at h1
    rcases bind_eq_err h1 with h2 | ⟨q, _, h2⟩
    · exact previous_err_panic h2
    · exact Except.noConfusion h2

/-- Tokens still to be consumed: the parser's termination measure. -/
def Parser.remaining (st : Parser.PState) : Nat :=
  st.tokens.length - st.current_index

/-- Inversion of a successful `advance_if_token_type_matches` whose wanted
set avoids `Eof`: on a match the cursor strictly advances in an unchanged
token list, otherwise the state is untouched. -/
theorem advance_if_ok_no_eof {tts : List TokenType} {st : Parser.PState}
    {m : Bool} {st' : Parser.PState}
    (hno : tts.contains TokenType.Eof = false)
    (h : Parser.advance_if_token_type_matches tts st = .ok (m, st')) :
    (m = false ∧ st' = st) ∨
    (m = true ∧ st'.tokens = st.tokens ∧
      st'.current_index = st.current_index + 1 ∧
      st.current_index < st.tokens.length) := by
  unfold Parser.advance_if_token_type_matches at h
  obtain ⟨t, hp, h⟩ := bind_eq_ok h
  by_cases hc : tts.contains t.token_type
  · rw [if_pos hc] at h
    obtain ⟨⟨q, st1⟩, ha, h⟩ := bind_eq_ok h
    have h2 : (Except.ok (true, st1) :
        Except Parser.PFault (Bool × Parser.PState)) = .ok (m, st') := h
    simp only [Except.ok.injEq, Prod.mk.injEq] at h2
    obtain ⟨hm, hst⟩ := h2
    subst hst
    rcases advance_eq_ok ha with ⟨t0, hp0, hcase⟩
    rw [hp] at hp0
    simp only [Except.ok.injEq] at hp0
    subst hp0
    rcases hcase with ⟨heof, _⟩ | ⟨_, htoks, hidx⟩
    · rw [heof, hno] at hc
      exact Bool.noConfusion hc
    · exact Or.inr ⟨hm.symm, htoks, hidx, peek_ok_lt hp⟩
  · rw [if_neg hc] at h
    have h2 : (Except.ok (false, st) :
        Except Parser.PFault (Bool × Parser.PState)) = .ok (m, st') := h
    simp only [Except.ok.injEq, Prod.mk.injEq] at h2
    exact Or.inl ⟨h2.1.symm, h2.2.symm⟩

/-- `advance_if_token_type_matches` only fails with a panic. -/
theorem advance_if_err_panic {tts : List TokenType} {st : Parser.PState}
    {e : Parser.PFault}
    (h : Parser.advance_if_token_type_matches tts st = .error e) :
    e = .panic := by
  unfold Parser.advance_if_token_type_matches at h
  rcases bind_eq_err h with h1 | ⟨t, hp, h1⟩
  · exact peek_err_panic h1
  · by_cases hc : tts.contains t.token_type
    · rw [if_pos hc] at h1
      rcases bind_eq_err h1 with h2 | ⟨⟨q, st1⟩, _, h2⟩
      · exact advance_err_panic h2
      · exact Except.noConfusion h2
    · rw [if_neg hc] at h1
      exact Except.noConfusion h1

/-- Inversion of a successful `remove_previous`: the measure is preserved
while the token list loses exactly the element before the cursor. -/
theorem remove_previous_eq_ok {st : Parser.PState} {t : Token}
    {st' : Parser.PState}
    (h : Parser.remove_previous st = .ok (t, st')) :
    Parser.remaining st' = Parser.remaining st ∧
      st'.tokens.length + 1 = st.tokens.length := by
  unfold Parser.remove_previous at h
  split at h
  · exact Except.noConfusion h
  · rename_i h0
    split at h
    · exact Except.noConfusion h
    · rename_i t0 hg
      simp only [Except.ok.injEq, Prod.mk.injEq] at h
      obtain ⟨_, hst⟩ := h
      subst hst
      have hlt : st.current_index - 1 < st.tokens.length :=
        List.get?_eq_some.mp hg |>.1
      have hlen : (st.tokens.eraseIdx (st.current_index - 1)).length =
          st.tokens.length - 1 := by
        rw [List.length_eraseIdx]
        simp [hlt]
      constructor
      · simp only [Parser.remaining, hlen]
        omega
      · simp only [hlen]
        omega

/-- `remove_previous` only fails with a panic. -/
theorem remove_previous_err_panic {st : Parser.PState} {e : Parser.PFault}
    (h : Parser.remove_previous st = .error e) : e = .panic := by
  unfold Parser.remove_previous at h
  split at h
  · cases h; rfl
  · split at h
    · cases h; rfl
    · exact Except.noConfusion h

/-- Inversion of a successful `check`. -/
theorem check_eq_ok {st : Parser.PState} {tt : TokenType} {b : Bool}
    (h : Parser.check st tt = .ok b) :
    ∃ t, Parser.peek st = .ok t ∧ b = (t.token_type == tt) := by
  unfold Parser.check at h
  obtain ⟨t, hp, h⟩ := bind_eq_ok h
  have h2 : (Except.ok (t.token_type == tt) :
      Except Parser.PFault Bool) = .ok b := h
  simp only [Except.ok.injEq] at h2
  exact ⟨t, hp, h2.symm⟩

/-- `check` only fails with a panic. -/
theorem check_err_panic {st : Parser.PState} {tt : TokenType}
    {e : Parser.PFault} (h : Parser.check st tt = .error e) : e = .panic := by
  unfold Parser.check at h
  rcases bind_eq_err h with h1 | ⟨t, _, h1⟩
  · exact peek_err_panic h1
  · exact Except.noConfusion h1

/-- Inversion of a successful `consume` looking for a non-`Eof` token: a
hit strictly advances the cursor in an unchanged list, a miss reports the
error with the state untouched. -/
theorem consume_eq_ok {tt : TokenType} {msg : String} {st : Parser.PState}
    {r : Except ParserError Token} {st' : Parser.PState}
    (htt : tt ≠ TokenType.Eof)
    (h : Parser.consume tt msg st = .ok (r, st')) :
    ((∃ t, r = .ok t) ∧ st'.tokens = st.tokens ∧
      st'.current_index = st.current_index + 1 ∧
      st.current_index < st.tokens.length) ∨
    ((∃ e, r = .error e) ∧ st' = st) := by
  unfold Parser.consume at h
  obtain ⟨b, hb, h⟩ := bind_eq_ok h
  obtain ⟨t, hp, hbv⟩ := check_eq_ok hb
  cases b with
  | true =>
    rw [if_pos rfl] at h
    obtain ⟨⟨q, st1⟩, ha, h⟩ := bind_eq_ok h
    have h2 : (Except.ok ((Except.ok q : Except ParserError Token), st1) :
        Except Parser.PFault ((Except ParserError Token) × Parser.PState)) =
        .ok (r, st') := h
    simp only [Except.ok.injEq, Prod.mk.injEq] at h2
    obtain ⟨hr, hst⟩ := h2
    subst hst
    rcases advance_eq_ok ha with ⟨t0, hp0, hcase⟩
    rw [hp] at hp0
    simp only [Except.ok.injEq] at hp0
    subst hp0
    have htteq : t.token_type = tt := by
      have := hbv.symm
      simpa using this
    rcases hcase with ⟨heof, _⟩ | ⟨_, htoks, hidx⟩
    · rw [htteq] at heof
      exact absurd heof htt
    · exact Or.inl ⟨⟨q, hr.symm⟩, htoks, hidx, peek_ok_lt hp⟩
  | false =>
    rw [if_neg (by simp)] at h
    obtain ⟨t1, _, h⟩ := bind_eq_ok h
    have h2 : (Except.ok ((Except.error (ParserError.new t1 msg) :
        Except ParserError Token), st) :
        Except Parser.PFault ((Except ParserError Token) × Parser.PState)) =
        .ok (r, st') := h
    simp only [Except.ok.injEq, Prod.mk.injEq] at h2
    exact Or.inr ⟨⟨_, h2.1.symm⟩, h2.2.symm⟩

/-- `consume` only fails with a panic. -/
theorem consume_err_panic {tt : TokenType} {msg : String}
    {st : Parser.PState} {e : Parser.PFault}
    (h : Parser.consume tt msg st = .error e) : e = .panic := by
  unfold Parser.consume at h
  rcases bind_eq_err h with h1 | ⟨b, hb, h1⟩
  · exact check_err_panic h1
  · cases b with
    | true =>
      rw [if_pos rfl] at h1
      rcases bind_eq_err h1 with h2 | ⟨⟨q, st1⟩, _, h2⟩
      · exact advance_err_panic h2
      · exact Except.noConfusion h2
    | false =>
      rw [if_neg (by simp)] at h1
      rcases bind_eq_err h1 with h2 | ⟨t1, _, h2⟩
      · exact peek_err_panic h2
      · exact Except.noConfusion h2

/-- Inversion of a successful `bindE`: either the first stage reports a
parse error that is forwarded unchanged, or it succeeds and the second
stage produces the result. -/
theorem bindE_eq_ok {α β : Type}
    {x : Except Parser.PFault ((Except ParserError α) × Parser.PState)}
    {f : α → Parser.PState →
      Except Parser.PFault ((Except ParserError β) × Parser.PState)}
    {r : Except ParserError β} {st' : Parser.PState}
    (h : Parser.bindE x f = .ok (r, st')) :
    (∃ e, x = .ok (.error e, st') ∧ r = .error e) ∨
    (∃ a st1, x = .ok (.ok a, st1) ∧ f a st1 = .ok (r, st')) := by
  unfold Parser.bindE at h
  obtain ⟨⟨r0, st1⟩, hx, h⟩ := bind_eq_ok h
  cases r0 with
  | error e =>
    dsimp only at h
    have h2 : (Except.ok ((Except.error e : Except ParserError β), st1) :
        Except Parser.PFault ((Except ParserError β) × Parser.PState)) =
        .ok (r, st') := h
    simp only [Except.ok.injEq, Prod.mk.injEq] at h2
    obtain ⟨hr, hst⟩ := h2
    subst hst
    exact Or.inl ⟨e, hx, hr.symm⟩
  | ok a =>
    dsimp only at h
    exact Or.inr ⟨a, st1, hx, h⟩

/-- Fuel inversion of `bindE`: fuel exhaustion comes from one of the two
stages. -/
theorem bindE_eq_err {α β : Type}
    {x : Except Parser.PFault ((Except ParserError α) × Parser.PState)}
    {f : α → Parser.PState →
      Except Parser.PFault ((Except ParserError β) × Parser.PState)}
    {e : Parser.PFault}
    (h : Parser.bindE x f = .error e) :
    x = .error e ∨ ∃ a st1, x = .ok (.ok a, st1) ∧ f a st1 = .error e := by
  unfold Parser.bindE at h
  rcases bind_eq_err h with h1 | ⟨⟨r0, st1⟩, hx, h1⟩
  · exact Or.inl h1
  · cases r0 with
    | error e0 => exact Except.noConfusion h1
    | ok a => exact Or.inr ⟨a, st1, hx, h1⟩

/-- Fuel cost head-room needed by each grammar rule, beyond twelve units
per unconsumed token. -/
def ruleCost : Parser.ERule → Nat
  | .primary => 1
  | .unary => 2
  | .factorLoop _ => 3
  | .factor => 4
  | .termLoop _ => 5
  | .term => 6
  | .comparisonLoop _ => 7
  | .comparison => 8
  | .equalityLoop _ => 9
  | .equality => 10
  | .assignment => 11
  | .expression => 12

/-- A one-step cursor move decreases the measure by exactly one. -/
theorem remaining_step {st st' : Parser.PState}
    (htoks : st'.tokens = st.tokens)
    (hidx : st'.current_index = st.current_index + 1)
    (hlt : st.current_index < st.tokens.length) :
    Parser.remaining st' + 1 = Parser.remaining st := by
  unfold Parser.remaining
  rw [htoks, hidx]
  omega

/-- Injectivity of a returned pair in the `Except` monad. -/
theorem epure_pair {ε α β : Type} {a r : α} {b s : β}
    (h : (pure (a, b) : Except ε (α × β)) = Except.ok (r, s)) :
    a = r ∧ b = s := by
  have h2 : (Except.ok (a, b) : Except ε (α × β)) = .ok (r, s) := h
  simp only [Except.ok.injEq, Prod.mk.injEq] at h2
  exact h2

/-- A `pure` never equals an `error` in the `Except` monad. -/
theorem epure_ne_err {ε α : Type} {a : α} {e : ε}
    (h : (pure a : Except ε α) = Except.error e) : False := by
  have h2 : (Except.ok a : Except ε α) = .error e := h
  exact Except.noConfusion h2

/-- Monotonicity of one left-associative tier loop body: the result state
never has more unconsumed tokens than the entry state. -/
theorem loop_body_mono {f : Nat} (tts : List TokenType) (sub : Parser.ERule)
    (loopc : Token → Expr → Parser.ERule) {acc : Expr} {st : Parser.PState}
    {r : Except ParserError Expr} {st' : Parser.PState}
    (ihm : ∀ (rule : Parser.ERule) (s : Parser.PState)
      (r : Except ParserError Expr) (s' : Parser.PState),
      Parser.parseE f rule s = .ok (r, s') →
        Parser.remaining s' ≤ Parser.remaining s)
    (h : (do
      let (m, st) ← Parser.advance_if_token_type_matches tts st
      if m then do
        let (op, st) ← Parser.remove_previous st
        Parser.bindE (Parser.parseE f sub st) fun right st =>
          Parser.parseE f (loopc op right) st
      else
        return (.ok acc, st) :
      Except Parser.PFault ((Except ParserError Expr) × Parser.PState)) =
      .ok (r, st'))
    (hno : tts.contains TokenType.Eof = false) :
    Parser.remaining st' ≤ Parser.remaining st := by
  obtain ⟨⟨m, st0⟩, hA, hk0⟩ := bind_eq_ok h
  clear h
  rcases advance_if_ok_no_eof hno hA with ⟨rfl, rfl⟩ | ⟨rfl, htoks, hidx, hlt⟩
  · have h2 : (pure (Except.ok acc, st0) :
        Except Parser.PFault ((Except ParserError Expr) × Parser.PState)) =
        .ok (r, st') := hk0
    obtain ⟨_, h3⟩ := epure_pair h2
    rw [← h3]
  · have e0 := remaining_step htoks hidx hlt
    obtain ⟨⟨op, st1⟩, hR, hk1⟩ := bind_eq_ok hk0
    have e1 := (remove_previous_eq_ok hR).1
    rcases bindE_eq_ok hk1 with ⟨e, hx, _⟩ | ⟨a, st2, hx, hk2⟩
    · have := ihm sub st1 _ _ hx
      omega
    · have m1 := ihm sub st1 _ _ hx
      have m2 := ihm (loopc op a) st2 _ _ hk2
      omega

/-- Fuel sufficiency of one left-associative tier loop body. -/
theorem loop_body_nofuel {f : Nat} (tts : List TokenType)
    (sub : Parser.ERule) (loopc : Token → Expr → Parser.ERule) {acc : Expr}
    {st : Parser.PState} {K : Nat}
    (ihm : ∀ (rule : Parser.ERule) (s : Parser.PState)
      (r : Except ParserError Expr) (s' : Parser.PState),
      Parser.parseE f rule s = .ok (r, s') →
        Parser.remaining s' ≤ Parser.remaining s)
    (ihs : ∀ (rule : Parser.ERule) (s : Parser.PState),
      12 * Parser.remaining s + ruleCost rule ≤ f →
        Parser.parseE f rule s ≠ .error .fuel)
    (h : (do
      let (m, st) ← Parser.advance_if_token_type_matches tts st
      if m then do
        let (op, st) ← Parser.remove_previous st
        Parser.bindE (Parser.parseE f sub st) fun right st =>
          Parser.parseE f (loopc op right) st
      else
        return (.ok acc, st) :
      Except Parser.PFault ((Except ParserError Expr) × Parser.PState)) =
      .error .fuel)
    (hno : tts.contains TokenType.Eof = false)
    (hsub : ruleCost sub + 1 = K)
    (hloop : ∀ op right, ruleCost (loopc op right) = K)
    (hle : 12 * Parser.remaining st + K ≤ f + 1) : False := by
  rcases bind_eq_err h with h1 | ⟨⟨m, st0⟩, hA, h1⟩
  · exact Parser.PFault.noConfusion (advance_if_err_panic h1).symm
  clear h
  rcases advance_if_ok_no_eof hno hA with ⟨rfl, rfl⟩ | ⟨rfl, htoks, hidx, hlt⟩
  · exact epure_ne_err h1
  · have e0 := remaining_step htoks hidx hlt
    rcases bind_eq_err h1 with h2 | ⟨⟨op, st1⟩, hR, h2⟩
    · exact Parser.PFault.noConfusion (remove_previous_err_panic h2).symm
    · have e1 := (remove_previous_eq_ok hR).1
      rcases bindE_eq_err h2 with h3 | ⟨a, st2, hx, h3⟩
      · exact ihs sub st1 (by omega) h3
      · have m1 := ihm sub st1 _ _ hx
        exact ihs (loopc op a) st2 (by rw [hloop]; omega) h3

/-- The assignment-target match always returns its input state. -/
theorem assign_match_state {a value : Expr} {equals : Token}
    {st3 : Parser.PState} {r : Except ParserError Expr} {st' : Parser.PState}
    (h : (match a with
      | Expr.Variable v =>
        (pure (.ok (Expr.new_assign v value), st3) : Except Parser.PFault ((Except ParserError Expr) × Parser.PState))
      | _ =>
        pure (.error (ParserError.new equals "Invalid assignment target"),
          st3)) = .ok (r, st')) :
    st' = st3 := by
  cases a with
  | Unary t e =>
    have h2 : (pure (.error (ParserError.new equals
        "Invalid assignment target"), st3) : Except Parser.PFault ((Except ParserError Expr) × Parser.PState)) = .ok (r, st') := h
    exact (epure_pair h2).2.symm
  | Binary l t rgt =>
    have h2 : (pure (.error (ParserError.new equals
        "Invalid assignment target"), st3) : Except Parser.PFault ((Except ParserError Expr) × Parser.PState)) = .ok (r, st') := h
    exact (epure_pair h2).2.symm
  | Grouping g =>
    have h2 : (pure (.error (ParserError.new equals
        "Invalid assignment target"), st3) : Except Parser.PFault ((Except ParserError Expr) × Parser.PState)) = .ok (r, st') := h
    exact (epure_pair h2).2.symm
  | Literal l =>
    have h2 : (pure (.error (ParserError.new equals
        "Invalid assignment target"), st3) : Except Parser.PFault ((Except ParserError Expr) × Parser.PState)) = .ok (r, st') := h
    exact (epure_pair h2).2.symm
  | Variable v =>
    have h2 : (pure (.ok (Expr.new_assign v value), st3) : Except Parser.PFault ((Except ParserError Expr) × Parser.PState)) =
        .ok (r, st') := h
    exact (epure_pair h2).2.symm
  | Assign t e =>
    have h2 : (pure (.error (ParserError.new equals
        "Invalid assignment target"), st3) : Except Parser.PFault ((Except ParserError Expr) × Parser.PState)) = .ok (r, st') := h
    exact (epure_pair h2).2.symm

/-- The assignment-target match never fails. -/
theorem assign_match_no_err {a value : Expr} {equals : Token}
    {st3 : Parser.PState} {e : Parser.PFault}
    (h : (match a with
      | Expr.Variable v =>
        (pure (.ok (Expr.new_assign v value), st3) : Except Parser.PFault ((Except ParserError Expr) × Parser.PState))
      | _ =>
        pure (.error (ParserError.new equals "Invalid assignment target"),
          st3)) = .error e) : False := by
  cases a <;> exact epure_ne_err h

/-- `parseE` with no fuel left. -/
theorem parseE_zero (rule : Parser.ERule) (st : Parser.PState) :
    Parser.parseE 0 rule st = .error .fuel := rfl

/-- One-step unfolding of the `expression` rule. -/
theorem parseE_step_expression (f : Nat) (st : Parser.PState) :
    Parser.parseE (f + 1) .expression st = Parser.parseE f .assignment st :=
  rfl

/-- One-step unfolding of the `assignment` rule. -/
theorem parseE_step_assignment (f : Nat) (st : Parser.PState) :
    Parser.parseE (f + 1) .assignment st =
      (Parser.bindE (Parser.parseE f .equality st) fun expr st => do
        let (m, st) ← Parser.advance_if_token_type_matches [.Equal] st
        if m then do
          let equals ← Parser.previous st
          Parser.bindE (Parser.parseE f .assignment st) fun value st =>
            match expr with
            | .Variable v => return (.ok (Expr.new_assign v value), st)
            | _ => return (.error (ParserError.new equals
                "Invalid assignment target"), st)
        else
          return (.ok expr, st)) := rfl

/-- One-step unfolding of the `equality` rule. -/
theorem parseE_step_equality (f : Nat) (st : Parser.PState) :
    Parser.parseE (f + 1) .equality st =
      (Parser.bindE (Parser.parseE f .comparison st) fun e st =>
        Parser.parseE f (.equalityLoop e) st) := rfl

/-- One-step unfolding of the `equality` operator loop. -/
theorem parseE_step_equalityLoop (f : Nat) (acc : Expr)
    (st : Parser.PState) :
    Parser.parseE (f + 1) (.equalityLoop acc) st =
      (do
        let (m, st) ← Parser.advance_if_token_type_matches
          [.BangEqual, .EqualEqual] st
        if m then do
          let (op, st) ← Parser.remove_previous st
          Parser.bindE (Parser.parseE f .comparison st) fun right st =>
            Parser.parseE f (.equalityLoop (Expr.new_binary acc op right)) st
        else
          return (.ok acc, st)) := rfl

/-- One-step unfolding of the `comparison` rule. -/
theorem parseE_step_comparison (f : Nat) (st : Parser.PState) :
    Parser.parseE (f + 1) .comparison st =
      (Parser.bindE (Parser.parseE f .term st) fun e st =>
        Parser.parseE f (.comparisonLoop e) st) := rfl

/-- One-step unfolding of the `comparison` operator loop. -/
theorem parseE_step_comparisonLoop (f : Nat) (acc : Expr)
    (st : Parser.PState) :
    Parser.parseE (f + 1) (.comparisonLoop acc) st =
      (do
        let (m, st) ← Parser.advance_if_token_type_matches
          [.Greater, .GreaterEqual, .Less, .LessEqual] st
        if m then do
          let (op, st) ← Parser.remove_previous st
          Parser.bindE (Parser.parseE f .term st) fun right st =>
            Parser.parseE f
              (.comparisonLoop (Expr.new_binary acc op right)) st
        else
          return (.ok acc, st)) := rfl

/-- One-step unfolding of the `term` rule. -/
theorem parseE_step_term (f : Nat) (st : Parser.PState) :
    Parser.parseE (f + 1) .term st =
      (Parser.bindE (Parser.parseE f .factor st) fun e st =>
        Parser.parseE f (.termLoop e) st) := rfl

/-- One-step unfolding of the `term` operator loop. -/
theorem parseE_step_termLoop (f : Nat) (acc : Expr) (st : Parser.PState) :
    Parser.parseE (f + 1) (.termLoop acc) st =
      (do
        let (m, st) ← Parser.advance_if_token_type_matches [.Minus, .Plus] st
        if m then do
          let (op, st) ← Parser.remove_previous st
          Parser.bindE (Parser.parseE f .factor st) fun right st =>
            Parser.parseE f (.termLoop (Expr.new_binary acc op right)) st
        else
          return (.ok acc, st)) := rfl

/-- One-step unfolding of the `factor` rule. -/
theorem parseE_step_factor (f : Nat) (st : Parser.PState) :
    Parser.parseE (f + 1) .factor st =
      (Parser.bindE (Parser.parseE f .unary st) fun e st =>
        Parser.parseE f (.factorLoop e) st) := rfl

/-- One-step unfolding of the `factor` operator loop. -/
theorem parseE_step_factorLoop (f : Nat) (acc : Expr) (st : Parser.PState) :
    Parser.parseE (f + 1) (.factorLoop acc) st =
      (do
        let (m, st) ← Parser.advance_if_token_type_matches [.Slash, .Star] st
        if m then do
          let (op, st) ← Parser.remove_previous st
          Parser.bindE (Parser.parseE f .unary st) fun right st =>
            Parser.parseE f (.factorLoop (Expr.new_binary acc op right)) st
        else
          return (.ok acc, st)) := rfl

/-- One-step unfolding of the `unary` rule. -/
theorem parseE_step_unary (f : Nat) (st : Parser.PState) :
    Parser.parseE (f + 1) .unary st =
      (do
        let (m, st) ← Parser.advance_if_token_type_matches [.Bang, .Minus] st
        if m then do
          let (op, st) ← Parser.remove_previous st
          Parser.bindE (Parser.parseE f .unary st) fun right st =>
            return (.ok (Expr.new_unary op right), st)
        else
          Parser.parseE f .primary st) := rfl

/-- One-step unfolding of the `primary` rule. -/
theorem parseE_step_primary (f : Nat) (st : Parser.PState) :
    Parser.parseE (f + 1) .primary st =
      (do
        let (m, st) ← Parser.advance_if_token_type_matches [.False, .True] st
        if m then do
          let (t, st) ← Parser.remove_previous st
          return (.ok (Expr.new_boolean_literal
            (t.token_type == .True)), st)
        else do
        let (m, st) ← Parser.advance_if_token_type_matches [.Nil] st
        if m then
          return (.ok Expr.new_nil_literal, st)
        else do
        let (m, st) ← Parser.advance_if_token_type_matches [.String] st
        if m then do
          let (t, st) ← Parser.remove_previous st
          return (.ok (Expr.new_string_literal t.lexeme), st)
        else do
        let (m, st) ← Parser.advance_if_token_type_matches [.Number] st
        if m then do
          let (t, st) ← Parser.remove_previous st
          match parseNumber t.lexeme with
          | some q => return (.ok (Expr.new_number_literal q), st)
          | none => .error .panic
        else do
        let (m, st) ← Parser.advance_if_token_type_matches [.Identifier] st
        if m then do
          let t ← Parser.previous st
          return (.ok (Expr.new_variable t), st)
        else do
        let (m, st) ← Parser.advance_if_token_type_matches [.LeftParen] st
        if m then
          Parser.bindE (Parser.parseE f .expression st) fun e st =>
            Parser.bindE (Parser.consume .RightParen
                "Expect ')' after expression." st) fun _ st =>
              return (.ok (Expr.new_grouping e), st)
        else do
          let t ← Parser.peek st
          return (.error (ParserError.new t "Expected expression"), st)) :=
  rfl

/-- Combined induction on fuel for the expression grammar: successful
parses never increase the number of unconsumed tokens, and the fuel
budget `12·remaining + ruleCost` is never exhausted. -/
theorem parseE_good (fuel : Nat) :
    ∀ (rule : Parser.ERule) (st : Parser.PState),
    (∀ (r : Except ParserError Expr) (st' : Parser.PState),
      Parser.parseE fuel rule st = .ok (r, st') →
        Parser.remaining st' ≤ Parser.remaining st) ∧
    (12 * Parser.remaining st + ruleCost rule ≤ fuel →
      Parser.parseE fuel rule st ≠ .error .fuel) := by
  induction fuel with
  | zero =>
    intro rule st
    constructor
    · intro r st' h
      rw [parseE_zero] at h
      exact Except.noConfusion h
    · intro hle
      have h1 : 1 ≤ ruleCost rule := by cases rule <;> simp [ruleCost]
      omega
  | succ f ih =>
    intro rule st
    cases rule with
    | expression =>
      refine ⟨?_, ?_⟩
      · intro r st' h
        rw [parseE_step_expression] at h
        exact (ih .assignment st).1 r st' h
      · intro hle h
        rw [parseE_step_expression] at h
        exact (ih .assignment st).2
          (by simp only [ruleCost] at hle ⊢; omega) h
    | assignment =>
      refine ⟨?_, ?_⟩
      · intro r st' h
        rw [parseE_step_assignment] at h
        rcases bindE_eq_ok h with ⟨e, hx, _⟩ | ⟨a, st1, hx, hk⟩
        · exact (ih .equality st).1 _ _ hx
        · have m1 := (ih .equality st).1 _ _ hx
          obtain ⟨⟨m, st2⟩, hA, hk1⟩ := bind_eq_ok hk
          clear hk
          rcases advance_if_ok_no_eof (by decide) hA with
            ⟨rfl, rfl⟩ | ⟨rfl, htoks, hidx, hlt⟩
          · have h2 : (pure (Except.ok a, st2) : Except Parser.PFault ((Except ParserError Expr) × Parser.PState)) =
                .ok (r, st') := hk1
            obtain ⟨_, h3⟩ := epure_pair h2
            rw [← h3]
            omega
          · have e0 := remaining_step htoks hidx hlt
            obtain ⟨equals, hPrev, hk2⟩ := bind_eq_ok hk1
            clear hk1
            rcases bindE_eq_ok hk2 with ⟨e, hx2, _⟩ | ⟨value, st3, hx2, hk3⟩
            · have := (ih .assignment st2).1 _ _ hx2
              omega
            · have m2 := (ih .assignment st2).1 _ _ hx2
              have h3 := assign_match_state hk3
              rw [h3]
              omega
      · intro hle h
        rw [parseE_step_assignment] at h
        simp only [ruleCost] at hle
        rcases bindE_eq_err h with h1 | ⟨a, st1, hx, h1⟩
        · exact (ih .equality st).2 (by simp only [ruleCost]; omega) h1
        · have m1 := (ih .equality st).1 _ _ hx
          rcases bind_eq_err h1 with h2 | ⟨⟨m, st2⟩, hA, h2⟩
          · exact Parser.PFault.noConfusion (advance_if_err_panic h2)
          clear h1
          rcases advance_if_ok_no_eof (by decide) hA with
            ⟨rfl, rfl⟩ | ⟨rfl, htoks, hidx, hlt⟩
          · exact epure_ne_err h2
          · have e0 := remaining_step htoks hidx hlt
            rcases bind_eq_err h2 with h3 | ⟨equals, hPrev, h3⟩
            · exact Parser.PFault.noConfusion (previous_err_panic h3)
            · rcases bindE_eq_err h3 with h4 | ⟨value, st3, hx2, h4⟩
              · exact (ih .assignment st2).2
                  (by simp only [ruleCost]; omega) h4
              · exact assign_match_no_err h4
    | equality =>
      refine ⟨?_, ?_⟩
      · intro r st' h
        rw [parseE_step_equality] at h
        rcases bindE_eq_ok h with ⟨e, hx, _⟩ | ⟨a, st1, hx, hk⟩
        · exact (ih .comparison st).1 _ _ hx
        · exact le_trans ((ih (.equalityLoop a) st1).1 _ _ hk)
            ((ih .comparison st).1 _ _ hx)
      · intro hle h
        rw [parseE_step_equality] at h
        simp only [ruleCost] at hle
        rcases bindE_eq_err h with h1 | ⟨a, st1, hx, h1⟩
        · exact (ih .comparison st).2 (by simp only [ruleCost]; omega) h1
        · have m1 := (ih .comparison st).1 _ _ hx
          exact (ih (.equalityLoop a) st1).2
            (by simp only [ruleCost]; omega) h1
    | equalityLoop acc =>
      refine ⟨?_, ?_⟩
      · intro r st' h
        rw [parseE_step_equalityLoop f acc st] at h
        exact loop_body_mono [.BangEqual, .EqualEqual] .comparison
          (fun op right => .equalityLoop (Expr.new_binary acc op right))
          (fun rule s => (ih rule s).1) h (by decide)
      · intro hle h
        rw [parseE_step_equalityLoop f acc st] at h
        simp only [ruleCost] at hle
        refine loop_body_nofuel (K := 9) [.BangEqual, .EqualEqual] .comparison
          (fun op right => .equalityLoop (Expr.new_binary acc op right))
          (fun rule s => (ih rule s).1)
          (fun rule s => (ih rule s).2) h (by decide) (by decide)
          (fun op right => rfl) hle
    | comparison =>
      refine ⟨?_, ?_⟩
      · intro r st' h
        rw [parseE_step_comparison] at h
        rcases bindE_eq_ok h with ⟨e, hx, _⟩ | ⟨a, st1, hx, hk⟩
        · exact (ih .term st).1 _ _ hx
        · exact le_trans ((ih (.comparisonLoop a) st1).1 _ _ hk)
            ((ih .term st).1 _ _ hx)
      · intro hle h
        rw [parseE_step_comparison] at h
        simp only [ruleCost] at hle
        rcases bindE_eq_err h with h1 | ⟨a, st1, hx, h1⟩
        · exact (ih .term st).2 (by simp only [ruleCost]; omega) h1
        · have m1 := (ih .term st).1 _ _ hx
          exact (ih (.comparisonLoop a) st1).2
            (by simp only [ruleCost]; omega) h1
    | comparisonLoop acc =>
      refine ⟨?_, ?_⟩
      · intro r st' h
        rw [parseE_step_comparisonLoop f acc st] at h
        exact loop_body_mono [.Greater, .GreaterEqual, .Less, .LessEqual] .term
          (fun op right => .comparisonLoop (Expr.new_binary acc op right))
          (fun rule s => (ih rule s).1) h (by decide)
      · intro hle h
        rw [parseE_step_comparisonLoop f acc st] at h
        simp only [ruleCost] at hle
        refine loop_body_nofuel (K := 7) [.Greater, .GreaterEqual, .Less, .LessEqual] .term
          (fun op right => .comparisonLoop (Expr.new_binary acc op right))
          (fun rule s => (ih rule s).1)
          (fun rule s => (ih rule s).2) h (by decide) (by decide)
          (fun op right => rfl) hle
    | term =>
      refine ⟨?_, ?_⟩
      · intro r st' h
        rw [parseE_step_term] at h
        rcases bindE_eq_ok h with ⟨e, hx, _⟩ | ⟨a, st1, hx, hk⟩
        · exact (ih .factor st).1 _ _ hx
        · exact le_trans ((ih (.termLoop a) st1).1 _ _ hk)
            ((ih .factor st).1 _ _ hx)
      · intro hle h
        rw [parseE_step_term] at h
        simp only [ruleCost] at hle
        rcases bindE_eq_err h with h1 | ⟨a, st1, hx, h1⟩
        · exact (ih .factor st).2 (by simp only [ruleCost]; omega) h1
        · have m1 := (ih .factor st).1 _ _ hx
          exact (ih (.termLoop a) st1).2
            (by simp only [ruleCost]; omega) h1
    | termLoop acc =>
      refine ⟨?_, ?_⟩
      · intro r st' h
        rw [parseE_step_termLoop f acc st] at h
        exact loop_body_mono [.Minus, .Plus] .factor
          (fun op right => .termLoop (Expr.new_binary acc op right))
          (fun rule s => (ih rule s).1) h (by decide)
      · intro hle h
        rw [parseE_step_termLoop f acc st] at h
        simp only [ruleCost] at hle
        refine loop_body_nofuel (K := 5) [.Minus, .Plus] .factor
          (fun op right => .termLoop (Expr.new_binary acc op right))
          (fun rule s => (ih rule s).1)
          (fun rule s => (ih rule s).2) h (by decide) (by decide)
          (fun op right => rfl) hle
    | factor =>
      refine ⟨?_, ?_⟩
      · intro r st' h
        rw [parseE_step_factor] at h
        rcases bindE_eq_ok h with ⟨e, hx, _⟩ | ⟨a, st1, hx, hk⟩
        · exact (ih .unary st).1 _ _ hx
        · exact le_trans ((ih (.factorLoop a) st1).1 _ _ hk)
            ((ih .unary st).1 _ _ hx)
      · intro hle h
        rw [parseE_step_factor] at h
        simp only [ruleCost] at hle
        rcases bindE_eq_err h with h1 | ⟨a, st1, hx, h1⟩
        · exact (ih .unary st).2 (by simp only [ruleCost]; omega) h1
        · have m1 := (ih .unary st).1 _ _ hx
          exact (ih (.factorLoop a) st1).2
            (by simp only [ruleCost]; omega) h1
    | factorLoop acc =>
      refine ⟨?_, ?_⟩
      · intro r st' h
        rw [parseE_step_factorLoop f acc st] at h
        exact loop_body_mono [.Slash, .Star] .unary
          (fun op right => .factorLoop (Expr.new_binary acc op right))
          (fun rule s => (ih rule s).1) h (by decide)
      · intro hle h
        rw [parseE_step_factorLoop f acc st] at h
        simp only [ruleCost] at hle
        refine loop_body_nofuel (K := 3) [.Slash, .Star] .unary
          (fun op right => .factorLoop (Expr.new_binary acc op right))
          (fun rule s => (ih rule s).1)
          (fun rule s => (ih rule s).2) h (by decide) (by decide)
          (fun op right => rfl) hle
    | unary =>
      refine ⟨?_, ?_⟩
      · intro r st' h
        rw [parseE_step_unary] at h
        obtain ⟨⟨m, st0⟩, hA, hk0⟩ := bind_eq_ok h
        clear h
        rcases advance_if_ok_no_eof (by decide) hA with
          ⟨rfl, rfl⟩ | ⟨rfl, htoks, hidx, hlt⟩
        · exact (ih .primary st0).1 _ _ hk0
        · have e0 := remaining_step htoks hidx hlt
          obtain ⟨⟨op, st1⟩, hR, hk1⟩ := bind_eq_ok hk0
          have e1 := (remove_previous_eq_ok hR).1
          rcases bindE_eq_ok hk1 with ⟨e, hx, _⟩ | ⟨a, st2, hx, hk2⟩
          · have := (ih .unary st1).1 _ _ hx
            omega
          · have m1 := (ih .unary st1).1 _ _ hx
            have h2 : (pure (.ok (Expr.new_unary op a), st2) : Except Parser.PFault ((Except ParserError Expr) × Parser.PState)) =
                .ok (r, st') := hk2
            obtain ⟨_, h3⟩ := epure_pair h2
            rw [← h3]
            omega
      · intro hle h
        rw [parseE_step_unary] at h
        simp only [ruleCost] at hle
        rcases bind_eq_err h with h1 | ⟨⟨m, st0⟩, hA, h1⟩
        · exact Parser.PFault.noConfusion (advance_if_err_panic h1)
        clear h
        rcases advance_if_ok_no_eof (by decide) hA with
          ⟨rfl, rfl⟩ | ⟨rfl, htoks, hidx, hlt⟩
        · exact (ih .primary st0).2 (by simp only [ruleCost]; omega) h1
        · have e0 := remaining_step htoks hidx hlt
          rcases bind_eq_err h1 with h2 | ⟨⟨op, st1⟩, hR, h2⟩
          · exact Parser.PFault.noConfusion (remove_previous_err_panic h2)
          · have e1 := (remove_previous_eq_ok hR).1
            rcases bindE_eq_err h2 with h3 | ⟨a, st2, hx, h3⟩
            · exact (ih .unary st1).2 (by simp only [ruleCost]; omega) h3
            · exact epure_ne_err h3
    | primary =>
      refine ⟨?_, ?_⟩
      · intro r st' h
        rw [parseE_step_primary] at h
        obtain ⟨⟨m1, s1⟩, hA1, hk1⟩ := bind_eq_ok h
        clear h
        rcases advance_if_ok_no_eof (by decide) hA1 with
          ⟨rfl, rfl⟩ | ⟨rfl, ht1, hi1, hl1⟩
        · obtain ⟨⟨m2, s2⟩, hA2, hk2⟩ := bind_eq_ok hk1
          clear hk1
          rcases advance_if_ok_no_eof (by decide) hA2 with
            ⟨rfl, rfl⟩ | ⟨rfl, ht2, hi2, hl2⟩
          · obtain ⟨⟨m3, s3⟩, hA3, hk3⟩ := bind_eq_ok hk2
            clear hk2
            rcases advance_if_ok_no_eof (by decide) hA3 with
              ⟨rfl, rfl⟩ | ⟨rfl, ht3, hi3, hl3⟩
            · obtain ⟨⟨m4, s4⟩, hA4, hk4⟩ := bind_eq_ok hk3
              clear hk3
              rcases advance_if_ok_no_eof (by decide) hA4 with
                ⟨rfl, rfl⟩ | ⟨rfl, ht4, hi4, hl4⟩
              · obtain ⟨⟨m5, s5⟩, hA5, hk5⟩ := bind_eq_ok hk4
                clear hk4
                rcases advance_if_ok_no_eof (by decide) hA5 with
                  ⟨rfl, rfl⟩ | ⟨rfl, ht5, hi5, hl5⟩
                · obtain ⟨⟨m6, s6⟩, hA6, hk6⟩ := bind_eq_ok hk5
                  clear hk5
                  rcases advance_if_ok_no_eof (by decide) hA6 with
                    ⟨rfl, rfl⟩ | ⟨rfl, ht6, hi6, hl6⟩
                  · obtain ⟨t, hp, hk7⟩ := bind_eq_ok hk6
                    have h2 : (pure (.error (ParserError.new t
                        "Expected expression"), s6) : Except Parser.PFault ((Except ParserError Expr) × Parser.PState)) =
                        .ok (r, st') := hk7
                    obtain ⟨_, h3⟩ := epure_pair h2
                    rw [← h3]
                  · have e6 := remaining_step ht6 hi6 hl6
                    rcases bindE_eq_ok hk6 with ⟨e, hx, _⟩ | ⟨a, s7, hx, hk7⟩
                    · have := (ih .expression s6).1 _ _ hx
                      omega
                    · have m7 := (ih .expression s6).1 _ _ hx
                      rcases bindE_eq_ok hk7 with
                        ⟨e, hx2, _⟩ | ⟨b, s8, hx2, hk8⟩
                      · rcases consume_eq_ok (by decide) hx2 with
                          ⟨⟨t0, ht0⟩, _, _, _⟩ | ⟨_, rfl⟩
                        · exact Except.noConfusion ht0
                        · omega
                      · rcases consume_eq_ok (by decide) hx2 with
                          ⟨_, htk, hik, hlk⟩ | ⟨⟨e0, he0⟩, rfl⟩
                        · have e8 := remaining_step htk hik hlk
                          have h2 : (pure (.ok (Expr.new_grouping a), s8) :
                              Except Parser.PFault ((Except ParserError Expr) × Parser.PState)) = .ok (r, st') := hk8
                          obtain ⟨_, h3⟩ := epure_pair h2
                          rw [← h3]
                          omega
                        · exact Except.noConfusion he0
                · have e5 := remaining_step ht5 hi5 hl5
                  obtain ⟨t, hPrev, hk6⟩ := bind_eq_ok hk5
                  have h2 : (pure (.ok (Expr.new_variable t), s5) :
                      Except Parser.PFault ((Except ParserError Expr) × Parser.PState)) = .ok (r, st') := hk6
                  obtain ⟨_, h3⟩ := epure_pair h2
                  rw [← h3]
                  omega
              · have e4 := remaining_step ht4 hi4 hl4
                obtain ⟨⟨t, s4b⟩, hR, hk5⟩ := bind_eq_ok hk4
                have er := (remove_previous_eq_ok hR).1
                dsimp only at hk5
                rcases hq : parseNumber t.lexeme with _ | q
                · rw [hq] at hk5
                  have h2 : (Except.error Parser.PFault.panic : Except Parser.PFault ((Except ParserError Expr) × Parser.PState)) = .ok (r, st') := hk5
                  exact Except.noConfusion h2
                · rw [hq] at hk5
                  have h2 : (pure (.ok (Expr.new_number_literal q), s4b) :
                      Except Parser.PFault ((Except ParserError Expr) × Parser.PState)) = .ok (r, st') := hk5
                  obtain ⟨_, h3⟩ := epure_pair h2
                  rw [← h3]
                  omega
            · have e3 := remaining_step ht3 hi3 hl3
              obtain ⟨⟨t, s3b⟩, hR, hk4⟩ := bind_eq_ok hk3
              have er := (remove_previous_eq_ok hR).1
              have h2 : (pure (.ok (Expr.new_string_literal t.lexeme), s3b) :
                  Except Parser.PFault ((Except ParserError Expr) × Parser.PState)) = .ok (r, st') := hk4
              obtain ⟨_, h3⟩ := epure_pair h2
              rw [← h3]
              omega
          · have e2 := remaining_step ht2 hi2 hl2
            have h2 : (pure (.ok Expr.new_nil_literal, s2) : Except Parser.PFault ((Except ParserError Expr) × Parser.PState)) =
                .ok (r, st') := hk2
            obtain ⟨_, h3⟩ := epure_pair h2
            rw [← h3]
            omega
        · have e1 := remaining_step ht1 hi1 hl1
          obtain ⟨⟨t, s1b⟩, hR, hk2⟩ := bind_eq_ok hk1
          have er := (remove_previous_eq_ok hR).1
          have h2 : (pure (.ok (Expr.new_boolean_literal
              (t.token_type == TokenType.True)), s1b) : Except Parser.PFault ((Except ParserError Expr) × Parser.PState)) =
              .ok (r, st') := hk2
          obtain ⟨_, h3⟩ := epure_pair h2
          rw [← h3]
          omega
      · intro hle h
        rw [parseE_step_primary] at h
        simp only [ruleCost] at hle
        rcases bind_eq_err h with h1 | ⟨⟨m1, s1⟩, hA1, hk1⟩
        · exact Parser.PFault.noConfusion (advance_if_err_panic h1)
        clear h
        rcases advance_if_ok_no_eof (by decide) hA1 with
          ⟨rfl, rfl⟩ | ⟨rfl, ht1, hi1, hl1⟩
        · rcases bind_eq_err hk1 with h2 | ⟨⟨m2, s2⟩, hA2, hk2⟩
          · exact Parser.PFault.noConfusion (advance_if_err_panic h2)
          clear hk1
          rcases advance_if_ok_no_eof (by decide) hA2 with
            ⟨rfl, rfl⟩ | ⟨rfl, ht2, hi2, hl2⟩
          · rcases bind_eq_err hk2 with h3 | ⟨⟨m3, s3⟩, hA3, hk3⟩
            · exact Parser.PFault.noConfusion (advance_if_err_panic h3)
            clear hk2
            rcases advance_if_ok_no_eof (by decide) hA3 with
              ⟨rfl, rfl⟩ | ⟨rfl, ht3, hi3, hl3⟩
            · rcases bind_eq_err hk3 with h4 | ⟨⟨m4, s4⟩, hA4, hk4⟩
              · exact Parser.PFault.noConfusion (advance_if_err_panic h4)
              clear hk3
              rcases advance_if_ok_no_eof (by decide) hA4 with
                ⟨rfl, rfl⟩ | ⟨rfl, ht4, hi4, hl4⟩
              · rcases bind_eq_err hk4 with h5 | ⟨⟨m5, s5⟩, hA5, hk5⟩
                · exact Parser.PFault.noConfusion (advance_if_err_panic h5)
                clear hk4
                rcases advance_if_ok_no_eof (by decide) hA5 with
                  ⟨rfl, rfl⟩ | ⟨rfl, ht5, hi5, hl5⟩
                · rcases bind_eq_err hk5 with h6 | ⟨⟨m6, s6⟩, hA6, hk6⟩
                  · exact Parser.PFault.noConfusion (advance_if_err_panic h6)
                  clear hk5
                  rcases advance_if_ok_no_eof (by decide) hA6 with
                    ⟨rfl, rfl⟩ | ⟨rfl, ht6, hi6, hl6⟩
                  · rcases bind_eq_err hk6 with h7 | ⟨t, hp, hk7⟩
                    · exact Parser.PFault.noConfusion (peek_err_panic h7)
                    · exact epure_ne_err hk7
                  · have e6 := remaining_step ht6 hi6 hl6
                    rcases bindE_eq_err hk6 with h7 | ⟨a, s7, hx, hk7⟩
                    · exact (ih .expression s6).2
                        (by simp only [ruleCost]; omega) h7
                    · have m7 := (ih .expression s6).1 _ _ hx
                      rcases bindE_eq_err hk7 with h8 | ⟨b, s8, hx2, hk8⟩
                      · exact Parser.PFault.noConfusion (consume_err_panic h8)
                      · exact epure_ne_err hk8
                · have e5 := remaining_step ht5 hi5 hl5
                  rcases bind_eq_err hk5 with h6 | ⟨t, hPrev, hk6⟩
                  · exact Parser.PFault.noConfusion (previous_err_panic h6)
                  · exact epure_ne_err hk6
              · have e4 := remaining_step ht4 hi4 hl4
                rcases bind_eq_err hk4 with h5 | ⟨⟨t, s4b⟩, hR, hk5⟩
                · exact Parser.PFault.noConfusion
                    (remove_previous_err_panic h5)
                · dsimp only at hk5
                  rcases hq : parseNumber t.lexeme with _ | q
                  · rw [hq] at hk5
                    have h2 : (Except.error Parser.PFault.panic :
                        Except Parser.PFault ((Except ParserError Expr) ×
                          Parser.PState)) = .error .fuel := hk5
                    simp only [Except.error.injEq] at h2
                    exact Parser.PFault.noConfusion h2
                  · rw [hq] at hk5
                    exact epure_ne_err hk5
            · have e3 := remaining_step ht3 hi3 hl3
              rcases bind_eq_err hk3 with h4 | ⟨⟨t, s3b⟩, hR, hk4⟩
              · exact Parser.PFault.noConfusion
                  (remove_previous_err_panic h4)
              · exact epure_ne_err hk4
          · exact epure_ne_err hk2
        · have e1 := remaining_step ht1 hi1 hl1
          rcases bind_eq_err hk1 with h2 | ⟨⟨t, s1b⟩, hR, hk2⟩
          · exact Parser.PFault.noConfusion (remove_previous_err_panic h2)
          · exact epure_ne_err hk2

/-- The measure never exceeds the token-list length. -/
theorem remaining_le_len (st : Parser.PState) :
    Parser.remaining st ≤ st.tokens.length := by
  unfold Parser.remaining
  omega

/-- The fuel the statement rules hand to `parseE` is always sufficient. -/
theorem expr_nofuel (st : Parser.PState) :
    Parser.parseE (Parser.exprFuel st) .expression st ≠ .error .fuel := by
  have h := remaining_le_len st
  refine (parseE_good (Parser.exprFuel st) .expression st).2 ?_
  unfold Parser.exprFuel
  simp only [ruleCost]
  omega

/-- Successful `parseE` runs never increase the measure (wrapper). -/
theorem parseE_mono {fuel : Nat} {rule : Parser.ERule} {st : Parser.PState}
    {r : Except ParserError Expr} {st' : Parser.PState}
    (h : Parser.parseE fuel rule st = .ok (r, st')) :
    Parser.remaining st' ≤ Parser.remaining st :=
  (parseE_good fuel rule st).1 r st' h

/-- Success-and-measure inversion for `print_statement`: the state never
grows, and a parsed statement consumed at least its `;`. -/
theorem print_statement_ok {st : Parser.PState}
    {r : Except ParserError Statement} {st' : Parser.PState}
    (h : Parser.print_statement st = .ok (r, st')) :
    Parser.remaining st' ≤ Parser.remaining st ∧
      (∀ s : Statement, r = .ok s →
        Parser.remaining st' < Parser.remaining st) := by
  unfold Parser.print_statement at h
  rcases bindE_eq_ok h with ⟨e, hx, hre⟩ | ⟨a, st1, hx, hk⟩
  · refine ⟨parseE_mono hx, ?_⟩
    intro s hs
    rw [hre] at hs
    exact Except.noConfusion hs
  · have m1 := parseE_mono hx
    rcases bindE_eq_ok hk with ⟨e, hx2, hre⟩ | ⟨b, st2, hx2, hk2⟩
    · rcases consume_eq_ok (by decide) hx2 with
        ⟨⟨t0, ht0⟩, _, _, _⟩ | ⟨_, rfl⟩
      · exact Except.noConfusion ht0
      · refine ⟨by omega, ?_⟩
        intro s hs
        rw [hre] at hs
        exact Except.noConfusion hs
    · rcases consume_eq_ok (by decide) hx2 with
        ⟨_, htk, hik, hlk⟩ | ⟨⟨e0, he0⟩, rfl⟩
      · have e2 := remaining_step htk hik hlk
        have h2 : (pure (.ok (Statement.new_print_statement a), st2) :
            Except Parser.PFault ((Except ParserError Statement) ×
              Parser.PState)) = .ok (r, st') := hk2
        obtain ⟨_, h3⟩ := epure_pair h2
        rw [← h3]
        exact ⟨by omega, fun s hs => by omega⟩
      · exact Except.noConfusion he0

/-- `print_statement` only fails with a panic. -/
theorem print_statement_err {st : Parser.PState} {e : Parser.PFault}
    (h : Parser.print_statement st = .error e) : e = .panic := by
  unfold Parser.print_statement at h
  rcases bindE_eq_err h with h1 | ⟨a, st1, hx, h1⟩
  · cases e with
    | panic => rfl
    | fuel => exact absurd h1 (expr_nofuel st)
  · rcases bindE_eq_err h1 with h2 | ⟨b, st2, hx2, h2⟩
    · exact consume_err_panic h2
    · exact absurd h2 (fun hc => epure_ne_err hc)

/-- Success-and-measure inversion for `expression_statement`. -/
theorem expression_statement_ok {st : Parser.PState}
    {r : Except ParserError Statement} {st' : Parser.PState}
    (h : Parser.expression_statement st = .ok (r, st')) :
    Parser.remaining st' ≤ Parser.remaining st ∧
      (∀ s : Statement, r = .ok s →
        Parser.remaining st' < Parser.remaining st) := by
  unfold Parser.expression_statement at h
  rcases bindE_eq_ok h with ⟨e, hx, hre⟩ | ⟨a, st1, hx, hk⟩
  · refine ⟨parseE_mono hx, ?_⟩
    intro s hs
    rw [hre] at hs
    exact Except.noConfusion hs
  · have m1 := parseE_mono hx
    rcases bindE_eq_ok hk with ⟨e, hx2, hre⟩ | ⟨b, st2, hx2, hk2⟩
    · rcases consume_eq_ok (by decide) hx2 with
        ⟨⟨t0, ht0⟩, _, _, _⟩ | ⟨_, rfl⟩
      · exact Except.noConfusion ht0
      · refine ⟨by omega, ?_⟩
        intro s hs
        rw [hre] at hs
        exact Except.noConfusion hs
    · rcases consume_eq_ok (by decide) hx2 with
        ⟨_, htk, hik, hlk⟩ | ⟨⟨e0, he0⟩, rfl⟩
      · have e2 := remaining_step htk hik hlk
        have h2 : (pure (.ok (Statement.new_expression_statement a), st2) :
            Except Parser.PFault ((Except ParserError Statement) ×
              Parser.PState)) = .ok (r, st') := hk2
        obtain ⟨_, h3⟩ := epure_pair h2
        rw [← h3]
        exact ⟨by omega, fun s hs => by omega⟩
      · exact Except.noConfusion he0

/-- `expression_statement` only fails with a panic. -/
theorem expression_statement_err {st : Parser.PState} {e : Parser.PFault}
    (h : Parser.expression_statement st = .error e) : e = .panic := by
  unfold Parser.expression_statement at h
  rcases bindE_eq_err h with h1 | ⟨a, st1, hx, h1⟩
  · cases e with
    | panic => rfl
    | fuel => exact absurd h1 (expr_nofuel st)
  · rcases bindE_eq_err h1 with h2 | ⟨b, st2, hx2, h2⟩
    · exact consume_err_panic h2
    · exact absurd h2 (fun hc => epure_ne_err hc)

/-- Success-and-measure inversion for `var_decl`. -/
theorem var_decl_ok {st : Parser.PState}
    {r : Except ParserError Statement} {st' : Parser.PState}
    (h : Parser.var_decl st = .ok (r, st')) :
    Parser.remaining st' ≤ Parser.remaining st ∧
      (∀ s : Statement, r = .ok s →
        Parser.remaining st' < Parser.remaining st) := by
  unfold Parser.var_decl at h
  rcases bindE_eq_ok h with ⟨e, hx, hre⟩ | ⟨name, st1, hx, hk⟩
  · rcases consume_eq_ok (by decide) hx with
      ⟨⟨t0, ht0⟩, _, _, _⟩ | ⟨_, rfl⟩
    · exact Except.noConfusion ht0
    · refine ⟨le_refl _, ?_⟩
      intro s hs
      rw [hre] at hs
      exact Except.noConfusion hs
  · rcases consume_eq_ok (by decide) hx with
      ⟨_, ht1, hi1, hl1⟩ | ⟨⟨e0, he0⟩, rfl⟩
    · have e1 := remaining_step ht1 hi1 hl1
      obtain ⟨⟨m, st2⟩, hA, hk1⟩ := bind_eq_ok hk
      clear hk
      rcases advance_if_ok_no_eof (by decide) hA with
        ⟨rfl, rfl⟩ | ⟨rfl, ht2, hi2, hl2⟩
      · rcases bindE_eq_ok hk1 with ⟨e, hx2, hre⟩ | ⟨b, st3, hx2, hk2⟩
        · rcases consume_eq_ok (by decide) hx2 with
            ⟨⟨t0, ht0⟩, _, _, _⟩ | ⟨_, rfl⟩
          · exact Except.noConfusion ht0
          · refine ⟨by omega, ?_⟩
            intro s hs
            rw [hre] at hs
            exact Except.noConfusion hs
        · rcases consume_eq_ok (by decide) hx2 with
            ⟨_, ht3, hi3, hl3⟩ | ⟨⟨e0, he0⟩, rfl⟩
          · have e3 := remaining_step ht3 hi3 hl3
            have h2 : (pure (.ok (Statement.new_var_statement name none),
                st3) :
                Except Parser.PFault ((Except ParserError Statement) ×
                  Parser.PState)) = .ok (r, st') := hk2
            obtain ⟨_, h3⟩ := epure_pair h2
            rw [← h3]
            exact ⟨by omega, fun s hs => by omega⟩
          · exact Except.noConfusion he0
      · have e2 := remaining_step ht2 hi2 hl2
        rcases bindE_eq_ok hk1 with ⟨e, hx2, hre⟩ | ⟨ini, st3, hx2, hk2⟩
        · have := parseE_mono hx2
          refine ⟨by omega, ?_⟩
          intro s hs
          rw [hre] at hs
          exact Except.noConfusion hs
        · have m3 := parseE_mono hx2
          rcases bindE_eq_ok hk2 with ⟨e, hx3, hre⟩ | ⟨b, st4, hx3, hk3⟩
          · rcases consume_eq_ok (by decide) hx3 with
              ⟨⟨t0, ht0⟩, _, _, _⟩ | ⟨_, rfl⟩
            · exact Except.noConfusion ht0
            · refine ⟨by omega, ?_⟩
              intro s hs
              rw [hre] at hs
              exact Except.noConfusion hs
          · rcases consume_eq_ok (by decide) hx3 with
              ⟨_, ht4, hi4, hl4⟩ | ⟨⟨e0, he0⟩, rfl⟩
            · have e4 := remaining_step ht4 hi4 hl4
              have h2 : (pure (.ok (Statement.new_var_statement name
                  (some ini)), st4) :
                  Except Parser.PFault ((Except ParserError Statement) ×
                    Parser.PState)) = .ok (r, st') := hk3
              obtain ⟨_, h3⟩ := epure_pair h2
              rw [← h3]
              exact ⟨by omega, fun s hs => by omega⟩
            · exact Except.noConfusion he0
    · exact Except.noConfusion he0

/-- `var_decl` only fails with a panic. -/
theorem var_decl_err {st : Parser.PState} {e : Parser.PFault}
    (h : Parser.var_decl st = .error e) : e = .panic := by
  unfold Parser.var_decl at h
  rcases bindE_eq_err h with h1 | ⟨name, st1, hx, h1⟩
  · exact consume_err_panic h1
  · rcases bind_eq_err h1 with h2 | ⟨⟨m, st2⟩, hA, h2⟩
    · exact advance_if_err_panic h2
    clear h1
    rcases advance_if_ok_no_eof (by decide) hA with
      ⟨rfl, rfl⟩ | ⟨rfl, ht2, hi2, hl2⟩
    · rcases bindE_eq_err h2 with h3 | ⟨b, st3, hx2, h3⟩
      · exact consume_err_panic h3
      · exact absurd h3 (fun hc => epure_ne_err hc)
    · rcases bindE_eq_err h2 with h3 | ⟨ini, st3, hx2, h3⟩
      · cases e with
        | panic => rfl
        | fuel => exact absurd h3 (expr_nofuel st2)
      · rcases bindE_eq_err h3 with h4 | ⟨b, st4, hx3, h4⟩
        · exact consume_err_panic h4
        · exact absurd h4 (fun hc => epure_ne_err hc)

/-- Success-and-measure inversion for `statement`. -/
theorem statement_ok {st : Parser.PState}
    {r : Except ParserError Statement} {st' : Parser.PState}
    (h : Parser.statement st = .ok (r, st')) :
    Parser.remaining st' ≤ Parser.remaining st ∧
      (∀ s : Statement, r = .ok s →
        Parser.remaining st' < Parser.remaining st) := by
  unfold Parser.statement at h
  obtain ⟨⟨m, st0⟩, hA, hk⟩ := bind_eq_ok h
  clear h
  rcases advance_if_ok_no_eof (by decide) hA with
    ⟨rfl, rfl⟩ | ⟨rfl, ht0, hi0, hl0⟩
  · exact expression_statement_ok hk
  · have e0 := remaining_step ht0 hi0 hl0
    obtain ⟨mm, hstrict⟩ := print_statement_ok hk
    exact ⟨by omega, fun s hs => by have := hstrict s hs; omega⟩

/-- `statement` only fails with a panic. -/
theorem statement_err {st : Parser.PState} {e : Parser.PFault}
    (h : Parser.statement st = .error e) : e = .panic := by
  unfold Parser.statement at h
  rcases bind_eq_err h with h1 | ⟨⟨m, st0⟩, hA, h1⟩
  · exact advance_if_err_panic h1
  clear h
  rcases advance_if_ok_no_eof (by decide) hA with
    ⟨rfl, rfl⟩ | ⟨rfl, ht0, hi0, hl0⟩
  · exact expression_statement_err h1
  · exact print_statement_err h1

/-- Injectivity of `pure` in the `Except` monad. -/
theorem epure_inj {ε α : Type} {a b : α}
    (h : (pure a : Except ε α) = Except.ok b) : a = b := by
  have h2 : (Except.ok a : Except ε α) = .ok b := h
  simp only [Except.ok.injEq] at h2
  exact h2

/-- `syncLoop` stops at once when the cursor already rests on `Eof`. -/
theorem syncLoop_eof {f : Nat} {st : Parser.PState} {t : Token}
    (hp : Parser.peek st = .ok t) (he : t.token_type = TokenType.Eof) :
    Parser.syncLoop (f + 1) st = .ok st := by
  unfold Parser.syncLoop
  simp only [hp, ebind_ok]
  rw [if_pos he]
  rfl

/-- Successful `syncLoop` runs never increase the measure. -/
theorem syncLoop_mono : ∀ (fuel : Nat) (st st' : Parser.PState),
    Parser.syncLoop fuel st = .ok st' →
    Parser.remaining st' ≤ Parser.remaining st := by
  intro fuel
  induction fuel with
  | zero =>
    intro st st' h
    exact Except.noConfusion h
  | succ f ih =>
    intro st st' h
    unfold Parser.syncLoop at h
    obtain ⟨t, hp, hk⟩ := bind_eq_ok h
    clear h
    by_cases he : t.token_type = TokenType.Eof
    · rw [if_pos he] at hk
      rw [epure_inj hk]
    · rw [if_neg he] at hk
      obtain ⟨p, hPrev, hk2⟩ := bind_eq_ok hk
      clear hk
      by_cases hsemi : p.token_type = TokenType.Semicolon
      · rw [if_pos hsemi] at hk2
        rw [epure_inj hk2]
      · rw [if_neg hsemi] at hk2
        by_cases hkw : t.token_type = TokenType.Class ∨
            t.token_type = TokenType.For ∨ t.token_type = TokenType.Fun ∨
            t.token_type = TokenType.If ∨ t.token_type = TokenType.Print ∨
            t.token_type = TokenType.Return ∨
            t.token_type = TokenType.Var ∨ t.token_type = TokenType.While
        · rw [if_pos hkw] at hk2
          rw [epure_inj hk2]
        · rw [if_neg hkw] at hk2
          obtain ⟨⟨q, stA⟩, hAdv, hk3⟩ := bind_eq_ok hk2
          rcases advance_eq_ok hAdv with ⟨t0, hp0, hcase⟩
          rw [hp] at hp0
          simp only [Except.ok.injEq] at hp0
          subst hp0
          rcases hcase with ⟨heof, _⟩ | ⟨_, htoks, hidx⟩
          · exact absurd heof he
          · have e0 := remaining_step htoks hidx (peek_ok_lt hp)
            have := ih stA st' hk3
            omega

/-- `syncLoop` never exhausts a fuel of at least `remaining + 1`. -/
theorem syncLoop_nofuel : ∀ (fuel : Nat) (st : Parser.PState),
    Parser.remaining st + 1 ≤ fuel →
    Parser.syncLoop fuel st ≠ .error .fuel := by
  intro fuel
  induction fuel with
  | zero =>
    intro st hle
    exact absurd hle (by omega)
  | succ f ih =>
    intro st hle h
    unfold Parser.syncLoop at h
    rcases bind_eq_err h with h1 | ⟨t, hp, h1⟩
    · exact Parser.PFault.noConfusion (peek_err_panic h1)
    · by_cases he : t.token_type = TokenType.Eof
      · rw [if_pos he] at h1
        exact epure_ne_err h1
      · rw [if_neg he] at h1
        rcases bind_eq_err h1 with h2 | ⟨p, hPrev, h2⟩
        · exact Parser.PFault.noConfusion (previous_err_panic h2)
        · by_cases hsemi : p.token_type = TokenType.Semicolon
          · rw [if_pos hsemi] at h2
            exact epure_ne_err h2
          · rw [if_neg hsemi] at h2
            by_cases hkw : t.token_type = TokenType.Class ∨
                t.token_type = TokenType.For ∨
                t.token_type = TokenType.Fun ∨
                t.token_type = TokenType.If ∨
                t.token_type = TokenType.Print ∨
                t.token_type = TokenType.Return ∨
                t.token_type = TokenType.Var ∨
                t.token_type = TokenType.While
            · rw [if_pos hkw] at h2
              exact epure_ne_err h2
            · rw [if_neg hkw] at h2
              rcases bind_eq_err h2 with h3 | ⟨⟨q, stA⟩, hAdv, h3⟩
              · exact Parser.PFault.noConfusion (advance_err_panic h3)
              · rcases advance_eq_ok hAdv with ⟨t0, hp0, hcase⟩
                rw [hp] at hp0
                simp only [Except.ok.injEq] at hp0
                subst hp0
                rcases hcase with ⟨heof, _⟩ | ⟨_, htoks, hidx⟩
                · exact absurd heof he
                · have e0 := remaining_step htoks hidx (peek_ok_lt hp)
                  exact ih stA (by omega) h3

/-- Progress of `synchronize`: either the cursor strictly advanced, or it
already rests on `Eof`. -/
theorem synchronize_ok {st st' : Parser.PState}
    (h : Parser.synchronize st = .ok st') :
    Parser.remaining st' < Parser.remaining st ∨
      (∃ t, Parser.peek st' = .ok t ∧ t.token_type = TokenType.Eof) := by
  unfold Parser.synchronize at h
  obtain ⟨⟨q, stA⟩, hAdv, hk⟩ := bind_eq_ok h
  dsimp only at hk
  rcases advance_eq_ok hAdv with ⟨t, hp, hcase⟩
  rcases hcase with ⟨heof, rfl⟩ | ⟨hne, htoks, hidx⟩
  · have hfst := syncLoop_eof (f := stA.tokens.length) hp heof
    rw [hfst] at hk
    simp only [Except.ok.injEq] at hk
    subst hk
    exact Or.inr ⟨t, hp, heof⟩
  · have e0 := remaining_step htoks hidx (peek_ok_lt hp)
    have m1 := syncLoop_mono _ _ _ hk
    left
    omega

/-- `synchronize` only fails with a panic. -/
theorem synchronize_err {st : Parser.PState} {e : Parser.PFault}
    (h : Parser.synchronize st = .error e) : e = .panic := by
  unfold Parser.synchronize at h
  rcases bind_eq_err h with h1 | ⟨⟨q, stA⟩, hAdv, h1⟩
  · exact advance_err_panic h1
  · cases e with
    | panic => rfl
    | fuel =>
      refine absurd h1 (syncLoop_nofuel _ stA ?_)
      have := remaining_le_len stA
      omega

/-- Progress of `declaration`: every run that returns (successfully parsed
statement or reported error) either strictly advanced the cursor or left
it on `Eof`. -/
theorem declaration_ok {st : Parser.PState}
    {r : Except ParserError Statement} {st' : Parser.PState}
    (h : Parser.declaration st = .ok (r, st')) :
    Parser.remaining st' < Parser.remaining st ∨
      (∃ t, Parser.peek st' = .ok t ∧ t.token_type = TokenType.Eof) := by
  unfold Parser.declaration at h
  obtain ⟨⟨m, st0⟩, hA, hk⟩ := bind_eq_ok h
  clear h
  rcases advance_if_ok_no_eof (by decide) hA with
    ⟨rfl, rfl⟩ | ⟨rfl, ht0, hi0, hl0⟩
  · obtain ⟨⟨r1, st1⟩, hd, hk1⟩ := bind_eq_ok hk
    clear hk
    cases r1 with
    | ok s =>
      have h2 : (pure ((Except.ok s : Except ParserError Statement), st1) :
          Except Parser.PFault ((Except ParserError Statement) ×
            Parser.PState)) = .ok (r, st') := hk1
      obtain ⟨_, h3⟩ := epure_pair h2
      left
      rw [← h3]
      exact (statement_ok
        (show Parser.statement st0 = .ok (.ok s, st1) from hd)).2 s rfl
    | error e0 =>
      obtain ⟨st2, hs, hk2⟩ := bind_eq_ok hk1
      have h2 : (pure ((Except.error e0 : Except ParserError Statement),
          st2) :
          Except Parser.PFault ((Except ParserError Statement) ×
            Parser.PState)) = .ok (r, st') := hk2
      obtain ⟨_, h3⟩ := epure_pair h2
      have msta := (statement_ok
        (show Parser.statement st0 = .ok (.error e0, st1) from hd)).1
      rcases synchronize_ok hs with hlt | hpeek
      · left
        rw [← h3]
        omega
      · right
        rw [← h3]
        exact hpeek
  · have e0 := remaining_step ht0 hi0 hl0
    obtain ⟨⟨r1, st1⟩, hd, hk1⟩ := bind_eq_ok hk
    clear hk
    cases r1 with
    | ok s =>
      have h2 : (pure ((Except.ok s : Except ParserError Statement), st1) :
          Except Parser.PFault ((Except ParserError Statement) ×
            Parser.PState)) = .ok (r, st') := hk1
      obtain ⟨_, h3⟩ := epure_pair h2
      left
      rw [← h3]
      have := (var_decl_ok
        (show Parser.var_decl st0 = .ok (.ok s, st1) from hd)).2 s rfl
      omega
    | error e0 =>
      obtain ⟨st2, hs, hk2⟩ := bind_eq_ok hk1
      have h2 : (pure ((Except.error e0 : Except ParserError Statement),
          st2) :
          Except Parser.PFault ((Except ParserError Statement) ×
            Parser.PState)) = .ok (r, st') := hk2
      obtain ⟨_, h3⟩ := epure_pair h2
      have msta := (var_decl_ok
        (show Parser.var_decl st0 = .ok (.error e0, st1) from hd)).1
      rcases synchronize_ok hs with hlt | hpeek
      · left
        rw [← h3]
        omega
      · right
        rw [← h3]
        exact hpeek

/-- `declaration` only fails with a panic. -/
theorem declaration_err {st : Parser.PState} {e : Parser.PFault}
    (h : Parser.declaration st = .error e) : e = .panic := by
  unfold Parser.declaration at h
  rcases bind_eq_err h with h1 | ⟨⟨m, st0⟩, hA, h1⟩
  · exact advance_if_err_panic h1
  clear h
  rcases advance_if_ok_no_eof (by decide) hA with
    ⟨rfl, rfl⟩ | ⟨rfl, ht0, hi0, hl0⟩
  · rcases bind_eq_err h1 with h2 | ⟨⟨r1, st1⟩, hd, h2⟩
    · exact statement_err (show Parser.statement st0 = .error e from h2)
    · cases r1 with
      | ok s => exact absurd h2 (fun hc => epure_ne_err hc)
      | error e0 =>
        rcases bind_eq_err h2 with h3 | ⟨st2, hs, h3⟩
        · exact synchronize_err h3
        · exact absurd h3 (fun hc => epure_ne_err hc)
  · rcases bind_eq_err h1 with h2 | ⟨⟨r1, st1⟩, hd, h2⟩
    · exact var_decl_err (show Parser.var_decl st0 = .error e from h2)
    · cases r1 with
      | ok s => exact absurd h2 (fun hc => epure_ne_err hc)
      | error e0 =>
        rcases bind_eq_err h2 with h3 | ⟨st2, hs, h3⟩
        · exact synchronize_err h3
        · exact absurd h3 (fun hc => epure_ne_err hc)

/-- `parseLoop` exits at once when the cursor rests on `Eof`. -/
theorem parseLoop_eof {fuel : Nat} {st : Parser.PState} {t : Token}
    (stmts : List Statement) (errs : List ParserError)
    (hp : Parser.peek st = .ok t) (he : t.token_type = TokenType.Eof)
    (hf : 1 ≤ fuel) :
    Parser.parseLoop fuel st stmts errs ≠ .error .fuel := by
  cases fuel with
  | zero => exact absurd hf (by omega)
  | succ f =>
    intro h
    unfold Parser.parseLoop at h
    simp only [hp, ebind_ok] at h
    rw [if_pos he] at h
    split at h
    · exact epure_ne_err h
    · exact epure_ne_err h

/-- `parseLoop` never exhausts a fuel of at least `remaining + 1`. -/
theorem parseLoop_nofuel : ∀ (fuel : Nat) (st : Parser.PState)
    (stmts : List Statement) (errs : List ParserError),
    Parser.remaining st + 1 ≤ fuel →
    Parser.parseLoop fuel st stmts errs ≠ .error .fuel := by
  intro fuel
  induction fuel with
  | zero =>
    intro st stmts errs hle
    exact absurd hle (by omega)
  | succ f ih =>
    intro st stmts errs hle h
    unfold Parser.parseLoop at h
    rcases bind_eq_err h with h1 | ⟨t, hp, h1⟩
    · exact Parser.PFault.noConfusion (peek_err_panic h1)
    · have hge : 1 ≤ Parser.remaining st := by
        have := peek_ok_lt hp
        unfold Parser.remaining
        omega
      by_cases he : t.token_type = TokenType.Eof
      · rw [if_pos he] at h1
        split at h1
        · exact epure_ne_err h1
        · exact epure_ne_err h1
      · rw [if_neg he] at h1
        rcases bind_eq_err h1 with h2 | ⟨⟨r1, st1⟩, hd, h2⟩
        · exact Parser.PFault.noConfusion (declaration_err h2)
        · have hprog := declaration_ok hd
          cases r1 with
          | ok s =>
            rcases hprog with hlt | ⟨t2, hp2, he2⟩
            · exact ih st1 (stmts ++ [s]) errs (by omega) h2
            · exact parseLoop_eof (stmts ++ [s]) errs hp2 he2
                (by omega) h2
          | error e0 =>
            rcases hprog with hlt | ⟨t2, hp2, he2⟩
            · exact ih st1 stmts (errs ++ [e0]) (by omega) h2
            · exact parseLoop_eof stmts (errs ++ [e0]) hp2 he2
                (by omega) h2

/-- `Parser::parse` never exhausts its fuel: the embedding's budget of
`2·len + 2` loop unfoldings always suffices. -/
theorem parse_nofuel (tokens : List Token) :
    Parser.parse tokens ≠ .error .fuel := by
  unfold Parser.parse
  refine parseLoop_nofuel _ _ _ _ ?_
  unfold Parser.remaining
  simp
  omega

/-- `advance` never moves the cursor past an `Eof` token. -/
theorem advance_eof_stable {st : Parser.PState} {t p : Token}
    {st' : Parser.PState}
    (hp : Parser.peek st = .ok t) (he : t.token_type = TokenType.Eof)
    (h : Parser.advance st = .ok (p, st')) : st' = st := by
  rcases advance_eq_ok h with ⟨t0, hp0, hcase⟩
  rw [hp] at hp0
  simp only [Except.ok.injEq] at hp0
  subst hp0
  rcases hcase with ⟨_, hst⟩ | ⟨hne, _, _⟩
  · exact hst
  · exact absurd he hne

/-- C10 (corrected): `Parser::parse` terminates on every token list — the
embedding's fuel bound `2·len + 2` is never exhausted, because a
successful declaration consumes its closing `;` and a failed one
synchronizes to a strictly later cursor unless the cursor already rests
on `Eof`, where the loop exits — and `Parser::advance` leaves the state
unchanged whenever the current token is `Eof`.  The claim's further
assertions are false: `parse` can panic (out-of-bounds/underflow in
`previous`) on a well-formed unique-trailing-`Eof` stream, and a failed
declaration's `synchronize` need not consume a token (see
`claim_C10_counterexample`). -/
theorem claim_C10_parse_terminates :
    (∀ tokens : List Token, Parser.parse tokens ≠ .error .fuel) ∧
    (∀ (st : Parser.PState) (t p : Token) (st' : Parser.PState),
      Parser.peek st = .ok t → t.token_type = TokenType.Eof →
      Parser.advance st = .ok (p, st') → st' = st) :=
  ⟨parse_nofuel,
   fun _ _ _ _ hp he h => advance_eof_stable hp he h⟩

/-- Witness for C10: the termination part at the minimal stream `[Eof]`,
and the advance-at-`Eof` part at a concrete two-token state, both by
instantiating `claim_C10_parse_terminates`. -/
theorem claim_C10_witness :
    Parser.parse [⟨.Eof, "", 0⟩] ≠ .error .fuel ∧
    (⟨[⟨.Bang, "!", 0⟩, ⟨.Eof, "", 0⟩], 1⟩ : Parser.PState) =
      ⟨[⟨.Bang, "!", 0⟩, ⟨.Eof, "", 0⟩], 1⟩ :=
  ⟨claim_C10_parse_terminates.1 [⟨.Eof, "", 0⟩],
   claim_C10_parse_terminates.2 ⟨[⟨.Bang, "!", 0⟩, ⟨.Eof, "", 0⟩], 1⟩
     ⟨.Eof, "", 0⟩ ⟨.Bang, "!", 0⟩ ⟨[⟨.Bang, "!", 0⟩, ⟨.Eof, "", 0⟩], 1⟩
     rfl rfl rfl⟩

/-- Counterexample for C10 as claimed: the token stream of the source
`"!"` — a `Bang` followed by the unique trailing `Eof` — makes
`Parser::parse` panic (the embedded `PFault.panic` models the Rust
`usize` underflow in `previous` reached through `synchronize` after
`unary` consumed the `Bang` via `remove_previous`), refuting both the
never-out-of-bounds and the synchronize-consumes-a-token parts. -/
theorem claim_C10_counterexample :
    Parser.parse [⟨.Bang, "!", 0⟩, ⟨.Eof, "", 0⟩] = .error .panic := by
  rfl

/-- Witness for C6: the two aggregated errors of `"@#("` form a non-empty
list, via the general part of `claim_C6_scanner_aggregates_errors` at the
concrete scan. -/
theorem claim_C6_witness :
    ([InternalRoxError.SyntaxError 0 "Unexpected character",
      InternalRoxError.SyntaxError 0 "Unexpected character"] :
      List InternalRoxError) ≠ [] :=
  claim_C6_scanner_aggregates_errors.2.1 "@#(".toList
    (.error [.SyntaxError 0 "Unexpected character",
             .SyntaxError 0 "Unexpected character"])
    [.SyntaxError 0 "Unexpected character",
     .SyntaxError 0 "Unexpected character"]
    claim_C6_scanner_aggregates_errors.1 rfl

end Rox
